import Mathlib

/-!
WSP octet codec, Connect PDU and capability negotiation (gw/wsp.c).

A shallow embedding of the WSP layer of the gateway.  Octet strings are lists
of octet values, C `unsigned long` is a natural number reduced modulo `2^64`,
C `long` and `int` are integers, and an output parameter of a C function is a
field of the value the Lean function returns.
-/

namespace Wsp

/-- An octet string (gwlib `Octstr`): the list of its octets, each below 256. -/
abbrev Octstr := List Nat

/-- All elements of an octet string are octets. -/
def is_octets (os : Octstr) : Prop := ∀ o ∈ os, o < 256

instance (os : Octstr) : Decidable (is_octets os) := by
  unfold is_octets; infer_instance

/-- Number of values of a C `unsigned long` (LP64). -/
def ULONG_RANGE : Nat := 2 ^ 64

/-- Conversion of a C `long` or `int` to `unsigned long`. -/
def to_ulong (n : Int) : Nat := (n % 18446744073709551616).toNat

/-- Conversion of a C `unsigned long` to `long`. -/
def to_long (u : Nat) : Int :=
  if u % 2 ^ 64 < 2 ^ 63 then ((u % 2 ^ 64 : Nat) : Int)
  else ((u % 2 ^ 64 : Nat) : Int) - 18446744073709551616

/-- Conversion of a C `unsigned long` to `int` (32 bits, two's complement). -/
def to_int (u : Nat) : Int :=
  if u % 2 ^ 32 < 2 ^ 31 then ((u % 2 ^ 32 : Nat) : Int)
  else ((u % 2 ^ 32 : Nat) : Int) - 4294967296

/-- Length of an octet string (gwlib `octstr_len`). -/
def octstr_len (os : Octstr) : Nat := os.length

/-- Modelled from the spec: gwlib `octstr_get_char` is not part of the sources
at hand; it yields the octet at position `pos`, and `-1` when `pos` lies
outside the octet string. -/
def octstr_get_char (os : Octstr) (pos : Nat) : Int :=
  match os[pos]? with
  | some c => (c : Int)
  | none => -1

/-- Modelled from the spec: gwlib `octstr_copy` is not part of the sources at
hand; it yields the slice of `len` octets starting at `pos`, cut at the end of
the octet string (nothing for a position or a length that is negative). -/
def octstr_copy (os : Octstr) (pos : Int) (len : Int) : Octstr :=
  if pos < 0 ∨ len < 0 then [] else (os.drop pos.toNat).take len.toNat

/-- Outcome of an unpack function: its return code and the contents of the
two locations `*u` and `*off` when it returns. -/
structure Unpacked where
  ret : Int
  u : Nat
  off : Nat
  deriving DecidableEq, Repr

/-- The function `unpack_uint8`; `u` is the content of `*u` before the call. -/
def unpack_uint8 (u : Nat) (os : Octstr) (off : Nat) : Unpacked :=
  if off ≥ octstr_len os then ⟨-1, u, off⟩
  else ⟨0, to_ulong (octstr_get_char os off), off + 1⟩

/-- The `do ... while` loop of `unpack_uintvar`.  The first argument bounds the
number of iterations; `unpack_uintvar` starts it high enough that the bound is
never met. -/
def unpack_uintvar_loop (os : Octstr) : Nat → Nat → Nat → Unpacked
  | 0, u, off => ⟨-1, u, off⟩
  | fuel + 1, u, off =>
    let r := unpack_uint8 0 os off
    if r.ret = -1 then ⟨-1, u, r.off⟩
    else
      let u1 := ((u <<< 7) % ULONG_RANGE) ||| (r.u &&& 0x7F)
      if (r.u &&& 0x80) ≠ 0 then unpack_uintvar_loop os fuel u1 r.off
      else ⟨0, u1, r.off⟩

/-- The function `unpack_uintvar`. -/
def unpack_uintvar (os : Octstr) (off : Nat) : Unpacked :=
  unpack_uintvar_loop os (octstr_len os + 1) 0 off

/-- The function `append_uint8`. -/
def append_uint8 (pdu : Octstr) (n : Int) : Octstr :=
  pdu ++ [(n % 256).toNat]

/-- First loop of `append_uintvar`: `k` iterations filling `bytes[k-1]` down to
`bytes[0]` from `u`, in front of the entries already filled. -/
def uintvar_fill : Nat → Nat → List Nat → List Nat
  | 0, _, bytes => bytes
  | k + 1, u, bytes => uintvar_fill k (u >>> 7) ((u &&& 0x7F) :: bytes)

/-- Second loop of `append_uintvar`: from index `i`, with `k = 4 - i`, skip the
leading zero entries among `bytes[0..3]`. -/
def uintvar_skip (bytes : List Nat) : Nat → Nat → Nat
  | 0, i => i
  | k + 1, i => if bytes.getD i 0 = 0 then uintvar_skip bytes k (i + 1) else i

/-- Third loop of `append_uintvar`: emit `0x80 | bytes[i]` for every index from
`i` up to 3, with `k = 4 - i`. -/
def uintvar_emit (bytes : List Nat) : Nat → Nat → Octstr → Octstr
  | 0, _, pdu => pdu
  | k + 1, i, pdu =>
    uintvar_emit bytes k (i + 1) (append_uint8 pdu ((0x80 ||| bytes.getD i 0 : Nat) : Int))

/-- The function `append_uintvar`. -/
def append_uintvar (pdu : Octstr) (n : Int) : Octstr :=
  let u := to_ulong n
  let bytes := uintvar_fill 5 u []
  let i := uintvar_skip bytes 4 0
  let pdu1 := uintvar_emit bytes (4 - i) i pdu
  append_uint8 pdu1 (bytes.getD 4 0 : Nat)

/-- The function `append_octstr`. -/
def append_octstr (pdu : Octstr) (os : Octstr) : Octstr := pdu ++ os

/-- Outcome of `unpack_octstr`: its return code and the contents of `*ret` and
`*off` when it returns. -/
structure UnpackedOctstr where
  ret : Int
  str : Octstr
  off : Int
  deriving DecidableEq, Repr

/-- The function `unpack_octstr`; `str` is the content of `*ret` before the
call.  The parameter `len` is a C `int`, and `octstr_len` is taken to return a
signed integer, as in the gwlib that `msg.c` is written against, so the
comparison is one of integers. -/
def unpack_octstr (str : Octstr) (len : Int) (os : Octstr) (off : Int) : UnpackedOctstr :=
  if off + len > (octstr_len os : Int) then ⟨-1, str, off⟩
  else ⟨0, octstr_copy os off len, off + len⟩

/-- The constants of `wsp.h` that `wsp.c` uses; the header is not part of the
sources at hand, so the functions take them as a parameter. -/
structure WspConstants where
  WSP_MAX_CLIENT_SDU : Nat
  WSP_MAX_SERVER_SDU : Nat
  WSP_MAX_PROTOCOL_OPTIONS : Int
  WSP_MAX_METHOD_MOR : Nat
  WSP_MAX_PUSH_MOR : Nat
  WSP_CSDU_SET : Nat
  WSP_SSDU_SET : Nat
  WSP_PO_SET : Nat
  WSP_MMOR_SET : Nat
  WSP_PMOR_SET : Nat
  deriving DecidableEq, Repr

/-- A sample of the constants, to run the functions on concrete inputs: no
limit on the SDU sizes, one outstanding method and one outstanding push, and
one bit of `set_caps` per capability. -/
def sample_constants : WspConstants :=
  { WSP_MAX_CLIENT_SDU := 0, WSP_MAX_SERVER_SDU := 0, WSP_MAX_PROTOCOL_OPTIONS := 0,
    WSP_MAX_METHOD_MOR := 1, WSP_MAX_PUSH_MOR := 1,
    WSP_CSDU_SET := 1, WSP_SSDU_SET := 2, WSP_PO_SET := 4, WSP_MMOR_SET := 8,
    WSP_PMOR_SET := 16 }

def WSP_CAPS_CLIENT_SDU_SIZE : Int := 0x00
def WSP_CAPS_SERVER_SDU_SIZE : Int := 0x01
def WSP_CAPS_PROTOCOL_OPTIONS : Int := 0x02
def WSP_CAPS_METHOD_MOR : Int := 0x03
def WSP_CAPS_PUSH_MOR : Int := 0x04
def WSP_CAPS_EXTENDED_METHODS : Int := 0x05
def WSP_CAPS_HEADER_CODE_PAGES : Int := 0x06
def WSP_CAPS_ALIASES : Int := 0x07

def ConnectReply_PDU : Int := 0x02

/-- The fields of a session machine (`WSPMachine`) that capability negotiation
and the Connect PDU touch.  `H` is the type of a decoded header list. -/
structure WSPMachine (H : Type) where
  client_SDU_size : Int
  server_SDU_size : Int
  protocol_options : Int
  MOR_method : Int
  MOR_push : Int
  set_caps : Nat
  http_headers : Option H
  deriving DecidableEq, Repr

/-- The capability fields as `wsp_machine_create` leaves them. -/
def wsp_machine_create (H : Type) : WSPMachine H :=
  { client_SDU_size := 1400, server_SDU_size := 1400, protocol_options := 0,
    MOR_method := 1, MOR_push := 1, set_caps := 0, http_headers := none }

/-- One pass through the body of the `while` loop of `unpack_caps`, entered at
offset `off`: the offset and the machine at the end of the pass. -/
def unpack_caps_body {H : Type} (k : WspConstants) (caps : Octstr) (off : Nat)
    (m : WSPMachine H) : Nat × WSPMachine H :=
  let length := unpack_uintvar caps off
  let off1 := length.off + 1
  let id := octstr_get_char caps (off1 - 1)
  if id = WSP_CAPS_CLIENT_SDU_SIZE then
    let r := unpack_uintvar caps off1
    if r.ret = -1 then (r.off, m)
    else if k.WSP_MAX_CLIENT_SDU ≠ 0 ∧ r.u > k.WSP_MAX_CLIENT_SDU then (r.off, m)
    else if m.set_caps &&& k.WSP_CSDU_SET = 0 then
      let uiv := if r.u = 3 then 1350 else r.u
      (r.off, { m with client_SDU_size := to_long uiv,
                       set_caps := m.set_caps ||| k.WSP_CSDU_SET })
    else (r.off, m)
  else if id = WSP_CAPS_SERVER_SDU_SIZE then
    let r := unpack_uintvar caps off1
    if r.ret = -1 then (r.off, m)
    else if k.WSP_MAX_SERVER_SDU ≠ 0 ∧ r.u > k.WSP_MAX_SERVER_SDU then (r.off, m)
    else if m.set_caps &&& k.WSP_SSDU_SET = 0 then
      (r.off, { m with server_SDU_size := to_long r.u,
                       set_caps := m.set_caps ||| k.WSP_SSDU_SET })
    else (r.off, m)
  else if id = WSP_CAPS_PROTOCOL_OPTIONS then
    if m.set_caps &&& k.WSP_PO_SET = 0 then
      (off1, { m with protocol_options := k.WSP_MAX_PROTOCOL_OPTIONS,
                      set_caps := m.set_caps ||| k.WSP_PO_SET })
    else (off1, m)
  else if id = WSP_CAPS_METHOD_MOR then
    let r := unpack_uint8 0 caps off1
    if r.ret = -1 then (r.off, m)
    else if r.u > k.WSP_MAX_METHOD_MOR then (r.off, m)
    else if m.set_caps &&& k.WSP_MMOR_SET = 0 then
      (r.off, { m with MOR_method := to_long r.u,
                       set_caps := m.set_caps ||| k.WSP_MMOR_SET })
    else (r.off, m)
  else if id = WSP_CAPS_PUSH_MOR then
    let r := unpack_uint8 0 caps off1
    if r.ret = -1 then (r.off, m)
    else if r.u > k.WSP_MAX_PUSH_MOR then (r.off, m)
    else if m.set_caps &&& k.WSP_PMOR_SET = 0 then
      (r.off, { m with MOR_push := to_long r.u,
                       set_caps := m.set_caps ||| k.WSP_PMOR_SET })
    else (r.off, m)
  else if id = WSP_CAPS_EXTENDED_METHODS then (off1, m)
  else if id = WSP_CAPS_HEADER_CODE_PAGES then (off1, m)
  else if id = WSP_CAPS_ALIASES then (off1, m)
  else (off1, m)

/-- The `while` loop of `unpack_caps`.  The first argument bounds the number of
passes; every pass moves the offset forward, so the length of the block is
never met. -/
def unpack_caps_loop {H : Type} (k : WspConstants) (caps : Octstr) :
    Nat → Nat → WSPMachine H → WSPMachine H
  | 0, _, m => m
  | fuel + 1, off, m =>
    if off < octstr_len caps then
      unpack_caps_loop k caps fuel (unpack_caps_body k caps off m).1
        (unpack_caps_body k caps off m).2
    else m

/-- The function `unpack_caps`. -/
def unpack_caps {H : Type} (k : WspConstants) (caps : Octstr) (m : WSPMachine H) :
    WSPMachine H :=
  unpack_caps_loop k caps (octstr_len caps) 0 m

/-- The function `unpack_connect_pdu`: its return code and the machine when it
returns.  `unpack_headers` and `header_pack` belong to the header codec, which
is not part of the sources at hand. -/
def unpack_connect_pdu {H : Type} (k : WspConstants) (unpack_headers : Octstr → H)
    (header_pack : H → H) (m : WSPMachine H) (user_data : Octstr) : Int × WSPMachine H :=
  let version := unpack_uint8 0 user_data 1
  if version.ret = -1 then (-1, m) else
  let caps_len := unpack_uintvar user_data version.off
  if caps_len.ret = -1 then (-1, m) else
  let headers_len := unpack_uintvar user_data caps_len.off
  if headers_len.ret = -1 then (-1, m) else
  let caps := unpack_octstr [] (to_int caps_len.u) user_data headers_len.off
  if caps.ret = -1 then (-1, m) else
  let headers := unpack_octstr [] (to_int headers_len.u) user_data caps.off
  if headers.ret = -1 then (-1, m) else
  let m1 := if caps_len.u > 0 then unpack_caps k caps.str m else m
  let m2 := if headers_len.u > 0 then
      { m1 with http_headers := some (header_pack (unpack_headers headers.str)) }
    else m1
  (0, m2)

/-- The capability block `caps` that `make_connectreply_pdu` builds, `none` for
the `NULL` it keeps when `set_caps` is zero. -/
def make_connectreply_caps {H : Type} (k : WspConstants) (m : WSPMachine H) : Option Octstr :=
  if m.set_caps ≠ 0 then
    let caps : Octstr := []
    let caps :=
      if m.set_caps &&& k.WSP_CSDU_SET ≠ 0 then
        let tmp := append_uintvar (append_uint8 [] WSP_CAPS_SERVER_SDU_SIZE) m.client_SDU_size
        append_octstr (append_uintvar caps (octstr_len tmp)) tmp
      else caps
    let caps :=
      if m.set_caps &&& k.WSP_SSDU_SET ≠ 0 then
        let tmp := append_uintvar (append_uint8 [] WSP_CAPS_SERVER_SDU_SIZE) m.server_SDU_size
        append_octstr (append_uintvar caps (octstr_len tmp)) tmp
      else caps
    let caps :=
      if m.set_caps &&& k.WSP_MMOR_SET ≠ 0 then
        append_uint8 (append_uint8 (append_uintvar caps 2) WSP_CAPS_METHOD_MOR) m.MOR_method
      else caps
    let caps :=
      if m.set_caps &&& k.WSP_PMOR_SET ≠ 0 then
        append_uint8 (append_uint8 (append_uintvar caps 2) WSP_CAPS_PUSH_MOR) m.MOR_push
      else caps
    some caps
  else none

/-- The function `make_connectionmode_pdu`. -/
def make_connectionmode_pdu (type : Int) : Octstr := append_uint8 [] type

/-- The function `make_connectreply_pdu` (`hdrs` stays `NULL` throughout). -/
def make_connectreply_pdu {H : Type} (k : WspConstants) (m : WSPMachine H)
    (session_id : Int) : Octstr :=
  let pdu := append_uintvar (make_connectionmode_pdu ConnectReply_PDU) session_id
  let caps := make_connectreply_caps k m
  let pdu :=
    match caps with
    | some c => append_uintvar pdu (octstr_len c)
    | none => append_uintvar pdu 0
  let pdu := append_uintvar pdu 0
  match caps with
  | some c => append_octstr pdu c
  | none => pdu

/-- A capability entry as the spec words it: the length as a uintvar, covering
identifier plus payload, then the identifier octet, then the payload. -/
def caps_entry (id : Nat) (payload : Octstr) : Octstr :=
  append_uintvar [] (1 + payload.length) ++ [id] ++ payload

/-- What a call of `unpack_caps` keeps of the machine `m` it starts from, `r`
being the machine it ends with: the bits of `set_caps` (`r.set_caps` is
`m.set_caps` with further bits), and the value of every capability whose flag
is set in `m`. -/
def caps_kept {H : Type} (k : WspConstants) (m r : WSPMachine H) : Prop :=
  (∃ c, r.set_caps = m.set_caps ||| c) ∧
  (m.set_caps &&& k.WSP_CSDU_SET ≠ 0 → r.client_SDU_size = m.client_SDU_size) ∧
  (m.set_caps &&& k.WSP_SSDU_SET ≠ 0 → r.server_SDU_size = m.server_SDU_size) ∧
  (m.set_caps &&& k.WSP_PO_SET ≠ 0 → r.protocol_options = m.protocol_options) ∧
  (m.set_caps &&& k.WSP_MMOR_SET ≠ 0 → r.MOR_method = m.MOR_method) ∧
  (m.set_caps &&& k.WSP_PMOR_SET ≠ 0 → r.MOR_push = m.MOR_push)

/-- Reading of a uintvar from the octets that remain at the offset, as a
recursion over those octets; `unpack_uintvar_loop_eq_scan` shows that the loop of
`unpack_uintvar` computes it. -/
def uintvar_scan : Octstr → Nat → Nat → Unpacked
  | [], u, off => ⟨-1, u, off⟩
  | o :: rest, u, off =>
    if o / 128 % 2 = 1 then uintvar_scan rest ((u * 128 + o % 128) % 2 ^ 64) (off + 1)
    else ⟨0, (u * 128 + o % 128) % 2 ^ 64, off + 1⟩

/-- A minimum-length uintvar encoding as C3 words it: octets, at least one, the
continuation bit `0x80` set on every octet but the last and clear on the last,
and a first octet `0x80` only when the string is a single octet. -/
def is_minimal_uintvar (b : Octstr) : Prop :=
  is_octets b ∧ b ≠ [] ∧ (∀ o ∈ b.dropLast, o &&& 0x80 ≠ 0) ∧
  (∀ o ∈ b.getLast?, o &&& 0x80 = 0) ∧ (b.head? = some 0x80 → b.length = 1)

instance (b : Octstr) : Decidable (is_minimal_uintvar b) := by
  unfold is_minimal_uintvar; infer_instance

/-- A complete uintvar: at least one octet, the continuation bit `0x80` set on
every octet but the last and clear on the last. -/
def is_uintvar (b : Octstr) : Prop :=
  b ≠ [] ∧ (∀ o ∈ b.dropLast, o &&& 0x80 ≠ 0) ∧ (∀ o ∈ b.getLast?, o &&& 0x80 = 0)

instance (b : Octstr) : Decidable (is_uintvar b) := by
  unfold is_uintvar; infer_instance

/-- The accumulation `value = (value << 7) | (octet & 0x7F)` in `unsigned long`
arithmetic, started at 0 and carried over a run of octets. -/
def uintvar_accumulate (octets : Octstr) : Nat :=
  octets.foldl (fun v o => ((v <<< 7) % ULONG_RANGE) ||| (o &&& 0x7F)) 0

/-! Get, Post and Reply PDUs, PDU type, status conversion (gw/wsp.c) -/

def Bad_PDU : Int := -1
def Reply_PDU : Int := 0x04

/-- Conversion of a C `long` to `int` (32 bits, two's complement). -/
def long_to_int (x : Int) : Int :=
  if x % 4294967296 < 2147483648 then x % 4294967296 else x % 4294967296 - 4294967296

/-- Modelled from the spec: gwlib `octstr_insert` is not part of the sources at
hand; it puts the octets of `ostr2` into `ostr1` in front of position `pos`, at
the end when `pos` is the length of `ostr1` or beyond. -/
def octstr_insert (ostr1 ostr2 : Octstr) (pos : Nat) : Octstr :=
  ostr1.take pos ++ ostr2 ++ ostr1.drop pos

/-- The function `wsp_deduce_pdu_type`. -/
def wsp_deduce_pdu_type (pdu : Octstr) (connectionless : Int) : Int :=
  let off := if connectionless ≠ 0 then 1 else 0
  let r := unpack_uint8 0 pdu off
  let o := if r.ret = -1 then to_ulong Bad_PDU else r.u
  to_int o

/-- Outcome of `unpack_get_pdu`: its return code and the contents of `*url` and
`*headers` when it returns (`none` for a `NULL` header list). -/
structure UnpackedGet (H : Type) where
  ret : Int
  url : Octstr
  headers : Option H
  deriving DecidableEq, Repr

/-- The function `unpack_get_pdu`; `url` and `headers` are the contents of
`*url` and `*headers` before the call, `unpack_headers` belongs to the header
codec. -/
def unpack_get_pdu {H : Type} (unpack_headers : Octstr → H) (url : Octstr)
    (headers : Option H) (pdu : Octstr) : UnpackedGet H :=
  let url_len := unpack_uintvar pdu 1
  if url_len.ret = -1 then ⟨-1, url, headers⟩ else
  let u := unpack_octstr url (to_int url_len.u) pdu url_len.off
  if u.ret = -1 then ⟨-1, u.str, headers⟩ else
  if u.off < (octstr_len pdu : Int) then
    let h := octstr_copy pdu u.off ((octstr_len pdu : Int) - u.off)
    ⟨0, u.str, some (unpack_headers h)⟩
  else ⟨0, u.str, none⟩

/-- Outcome of `unpack_post_pdu`: its return code and the contents of `*url`
and `*headers` when it returns (`none` for `NULL`). -/
structure UnpackedPost where
  ret : Int
  url : Octstr
  headers : Option Octstr
  deriving DecidableEq, Repr

/-- The function `unpack_post_pdu`; `url` and `headers` are the contents of
`*url` and `*headers` before the call. -/
def unpack_post_pdu (url : Octstr) (headers : Option Octstr) (pdu : Octstr) : UnpackedPost :=
  let url_len := unpack_uintvar pdu 1
  if url_len.ret = -1 then ⟨-1, url, headers⟩ else
  let param_len := unpack_uintvar pdu url_len.off
  if param_len.ret = -1 then ⟨-1, url, headers⟩ else
  let u := unpack_octstr url (to_int url_len.u) pdu param_len.off
  if u.ret = -1 then ⟨-1, u.str, headers⟩ else
  let head := unpack_octstr [] (to_int param_len.u) pdu u.off
  if head.ret = -1 then ⟨-1, u.str, headers⟩ else
  let param := unpack_octstr [] (long_to_int ((octstr_len pdu : Int) - head.off)) pdu head.off
  if param.ret = -1 then ⟨-1, u.str, headers⟩ else
  let head1 : Octstr := [0x3F]
  let url1 := octstr_insert u.str head1 url_len.u
  let url2 := octstr_insert url1 param.str (octstr_len url1)
  ⟨0, url2, none⟩

/-- The table `tab` of `convert_http_status_to_wsp_status`. -/
def http_status_tab : List (Int × Int) :=
  [(200, 0x20), (413, 0x4D), (415, 0x4F), (500, 0x60)]

/-- The `for` loop of `convert_http_status_to_wsp_status` over the entries of
the table that are left, and the `return 0x60` after it. -/
def convert_http_status_loop (http_status : Int) : List (Int × Int) → Int
  | [] => 0x60
  | e :: rest => if e.1 = http_status then e.2 else convert_http_status_loop http_status rest

/-- The function `convert_http_status_to_wsp_status`. -/
def convert_http_status_to_wsp_status (http_status : Int) : Int :=
  convert_http_status_loop http_status http_status_tab

/-- The function `make_reply_pdu`; `none` stands for the abort of a failed
`assert`, and a `NULL` body is `none`. -/
def make_reply_pdu (status : Int) (type : Int) (body : Option Octstr) : Option Octstr :=
  let pdu := make_connectionmode_pdu Reply_PDU
  let pdu := append_uint8 pdu (convert_http_status_to_wsp_status status)
  let pdu := append_uintvar pdu 1
  if ¬ type ≥ 0x00 then none
  else if ¬ type < 0x80 then none
  else
    let pdu := append_uint8 pdu (Int.lor type 0x80)
    match body with
    | some b => some (append_octstr pdu b)
    | none => some pdu

/-! DLR store (gw/dlr_mem.c) -/

/-- Modelled from the spec: `struct dlr_entry` is declared in `dlr_p.h`, which
is not part of the sources at hand; a record of the SMSC identifier, the
timestamp and the destination address, with the sender, the service, the URL
and the mask as further metadata. -/
structure dlr_entry where
  smsc : Octstr
  timestamp : Octstr
  destination : Octstr
  source : Octstr
  service : Octstr
  url : Octstr
  mask : Int
  deriving DecidableEq, Repr

/-- An entry with the given SMSC identifier, timestamp and destination and empty
metadata, to run the store on concrete inputs. -/
def sample_dlr_entry (smsc timestamp destination : Octstr) : dlr_entry :=
  { smsc := smsc, timestamp := timestamp, destination := destination,
    source := [], service := [], url := [], mask := 0 }

/-- Modelled from the spec: gwlib `list_len` is not part of the sources at
hand; the number of items of the list. -/
def list_len {α : Type} (list : List α) : Nat := list.length

/-- Modelled from the spec: gwlib `list_delete` is not part of the sources at
hand; it removes the `count` items that start at position `pos`, and removes
nothing when these positions are not all inside the list. -/
def list_delete {α : Type} (list : List α) (pos count : Nat) : List α :=
  if pos + count ≤ list.length then list.take pos ++ list.drop (pos + count) else list

/-- The function `dlr_mem_messages`, on the list `dlr_waiting_list`. -/
def dlr_mem_messages (dlr_waiting_list : List dlr_entry) : Int :=
  (list_len dlr_waiting_list : Int)

/-- The `for` loop of `dlr_mem_flush`: the passes for `i`, `i + 1`, ... that are
left, `n` of them, on the list as it is by now. -/
def dlr_mem_flush_loop : Nat → Nat → List dlr_entry → List dlr_entry
  | 0, _, list => list
  | n + 1, i, list => dlr_mem_flush_loop n (i + 1) (list_delete list i 1)

/-- The function `dlr_mem_flush`: the list `dlr_waiting_list` after the call. -/
def dlr_mem_flush (dlr_waiting_list : List dlr_entry) : List dlr_entry :=
  dlr_mem_flush_loop (list_len dlr_waiting_list) 0 dlr_waiting_list

/-- Modelled from the spec: gwlib `octstr_compare` is not part of the sources at
hand; it yields 0 exactly when the two octet strings are equal, and -1 or 1 by
their order otherwise. -/
def octstr_compare (os1 os2 : Octstr) : Int :=
  if os1 = os2 then 0 else if os1 < os2 then -1 else 1

/-- Modelled from the spec: gwlib `list_get` is not part of the sources at hand;
the item at position `pos`, `none` (a `NULL` pointer) outside the list. -/
def list_get {α : Type} (list : List α) (pos : Nat) : Option α := list[pos]?

/-- Modelled from the spec: gwlib `list_append` is not part of the sources at
hand; it puts the item at the end of the list. -/
def list_append {α : Type} (list : List α) (item : α) : List α := list ++ [item]

/-- Modelled from the spec: `dlr_entry_duplicate` belongs to `dlr.c`, which is
not part of the sources at hand; a copy of the entry, equal to it field by
field. -/
def dlr_entry_duplicate (dlr : dlr_entry) : dlr_entry := dlr

/-- The function `dlr_mem_add`: the list `dlr_waiting_list` after the call. -/
def dlr_mem_add (dlr_waiting_list : List dlr_entry) (dlr : dlr_entry) : List dlr_entry :=
  list_append dlr_waiting_list dlr

/-- The function `dlr_mem_entry_match`: 0 if the entry matches and 1 if not. -/
def dlr_mem_entry_match (dlr : dlr_entry) (smsc ts _dst : Octstr) : Int :=
  if octstr_compare dlr.smsc smsc = 0 ∧ octstr_compare dlr.timestamp ts = 0 then 0 else 1

/-- The `for` loop of `dlr_mem_get`: the passes for `i`, `i + 1`, ... that are
left, `n` of them, and the value of `ret` after them.  `list_get` gives an item
on every pass, `i` being below the length of the list. -/
def dlr_mem_get_loop (list : List dlr_entry) (smsc ts dst : Octstr) :
    Nat → Nat → Option dlr_entry
  | 0, _ => none
  | n + 1, i =>
    match list_get list i with
    | some dlr =>
      if dlr_mem_entry_match dlr smsc ts dst = 0 then some (dlr_entry_duplicate dlr)
      else dlr_mem_get_loop list smsc ts dst n (i + 1)
    | none => none

/-- The function `dlr_mem_get`: the value it returns (`none` for `NULL`) and the
list `dlr_waiting_list` after the call. -/
def dlr_mem_get (dlr_waiting_list : List dlr_entry) (smsc ts dst : Octstr) :
    Option dlr_entry × List dlr_entry :=
  (dlr_mem_get_loop dlr_waiting_list smsc ts dst (list_len dlr_waiting_list) 0,
    dlr_waiting_list)

/-- The `for` loop of `dlr_mem_remove`: the passes for `i`, `i + 1`, ... that
are left, `n` of them, and the list after them. -/
def dlr_mem_remove_loop (smsc ts dst : Octstr) :
    Nat → Nat → List dlr_entry → List dlr_entry
  | 0, _, list => list
  | n + 1, i, list =>
    match list_get list i with
    | some dlr =>
      if dlr_mem_entry_match dlr smsc ts dst = 0 then list_delete list i 1
      else dlr_mem_remove_loop smsc ts dst n (i + 1) list
    | none => list

/-- The function `dlr_mem_remove`: the list `dlr_waiting_list` after the call. -/
def dlr_mem_remove (dlr_waiting_list : List dlr_entry) (smsc ts dst : Octstr) :
    List dlr_entry :=
  dlr_mem_remove_loop smsc ts dst (list_len dlr_waiting_list) 0 dlr_waiting_list

/-- One pass of the `while` loop of `unpack_caps` on the pair of the offset and
the machine, when the loop condition `off < octstr_len(caps)` holds, and no
change when it does not. -/
def unpack_caps_pass {H : Type} (k : WspConstants) (caps : Octstr)
    (p : Nat × WSPMachine H) : Nat × WSPMachine H :=
  if p.1 < octstr_len caps then unpack_caps_body k caps p.1 p.2 else p

/-! Msg wire format (gw/msg.c) -/

/-- Modelled from the spec: gwlib `encode_network_long` is not part of the
sources at hand; the four octets of a 32-bit value, the most significant one
first. -/
def encode_network_long (value : Int) : Octstr :=
  [(value % 4294967296).toNat / 16777216 % 256, (value % 4294967296).toNat / 65536 % 256,
    (value % 4294967296).toNat / 256 % 256, (value % 4294967296).toNat % 256]

/-- Modelled from the spec: gwlib `decode_network_long` is not part of the
sources at hand; the 32-bit signed integer that four octets, the most
significant one first, stand for. -/
def decode_network_long (data : Octstr) : Int :=
  to_int (data.getD 0 0 * 16777216 + data.getD 1 0 * 65536 + data.getD 2 0 * 256 +
    data.getD 3 0)

/-- Modelled from the spec: gwlib `octstr_append_data` is not part of the
sources at hand; it puts the first `len` octets of `data` at the end of the
octet string. -/
def octstr_append_data (ostr : Octstr) (data : Octstr) (len : Nat) : Octstr :=
  ostr ++ data.take len

/-- Modelled from the spec: gwlib `octstr_get_many_chars` is not part of the
sources at hand; the `len` octets that start at position `pos`. -/
def octstr_get_many_chars (ostr : Octstr) (pos len : Nat) : Octstr :=
  (ostr.drop pos).take len

/-- The function `append_integer`. -/
def append_integer (os : Octstr) (i : Int) : Octstr :=
  octstr_append_data os (encode_network_long i) 4

/-- The function `append_string`; a `NULL` field is `none`. -/
def append_string (os : Octstr) (field : Option Octstr) : Octstr :=
  match field with
  | none => append_integer os (-1)
  | some f =>
    let os1 := append_integer os (octstr_len f : Int)
    octstr_insert os1 f (octstr_len os1)

/-- Outcome of `parse_integer`: its return code and the contents of `*i` and
`*off` when it returns. -/
structure ParsedInteger where
  ret : Int
  i : Int
  off : Int
  deriving DecidableEq, Repr

/-- The function `parse_integer`; `i` is the content of `*i` before the call,
and `none` stands for the abort of the failed `gw_assert`. -/
def parse_integer (i : Int) (packed : Octstr) (off : Int) : Option ParsedInteger :=
  if ¬ off ≥ 0 then none
  else if off + 4 > (octstr_len packed : Int) then some ⟨-1, i, off⟩
  else some ⟨0, decode_network_long (octstr_get_many_chars packed off.toNat 4), off + 4⟩

/-- Outcome of `parse_string`: its return code and the contents of `*os` (`none`
for `NULL`) and `*off` when it returns. -/
structure ParsedString where
  ret : Int
  os : Option Octstr
  off : Int
  deriving DecidableEq, Repr

/-- The function `parse_string`; `os` is the content of `*os` before the call.
The copy that `octstr_copy` returns is never `NULL` here, and `*off += len`
stores a `long` sum into an `int`. -/
def parse_string (os : Option Octstr) (packed : Octstr) (off : Int) : Option ParsedString :=
  match parse_integer 0 packed off with
  | none => none
  | some len =>
    if len.ret = -1 then some ⟨-1, os, len.off⟩
    else if len.i = -1 then some ⟨0, none, len.off⟩
    else some ⟨0, some (octstr_copy packed len.off len.i), long_to_int (len.off + len.i)⟩

/-! Session machines, events, dispatch and event handling (gw/wsp.c) -/

def Connect_PDU : Int := 0x01

/-- Modelled from the spec: the states of a session come from
`wsp_state-decl.h`, which is not part of the sources at hand; the six states
the specification names. -/
inductive WSPState where
  | NULL_STATE
  | CONNECTING
  | CONNECTED
  | TERMINATING
  | RESUMING
  | SUSPENDED
  deriving DecidableEq, Repr

/-- Modelled from the spec: the kinds of WSP events come from
`wsp_events-decl.h`, which is not part of the sources at hand; the kinds the
specification names, and one for the housekeeping events. -/
inductive WSPEventType where
  | TRInvokeIndication
  | TRResultConfirmation
  | TRAbortIndication
  | HTTPFetchCompleted
  | Release
  | SDisconnectRequest
  | Housekeeping
  deriving DecidableEq, Repr

/-- The fields of a WTP machine that `wsp.c` reads. -/
structure WTPMachine where
  tid : Int
  source_address : Octstr
  source_port : Int
  destination_address : Octstr
  destination_port : Int
  deriving DecidableEq, Repr

/-- A WSP event: its type and the fields of its member `TRInvokeIndication`
that `wsp.c` reads.  For an event of that type `machine` is the WTP machine
that delivered it. -/
structure WSPEvent where
  type : WSPEventType
  machine : WTPMachine
  tcl : Int
  user_data : Octstr
  deriving DecidableEq, Repr

/-- The WTP events handed to `wtp_handle_event`: the `TRAbort` that
`wsp_handle_event` builds, with its fields `tid`, `abort_type` and
`abort_reason`, and whatever the actions of the transition table send. -/
inductive WTPEvent where
  | TRAbort (tid : Int) (abort_type : Int) (abort_reason : Int)
  | other (code : Nat) (data : Octstr)
  deriving DecidableEq, Repr

/-- A session machine with the fields that dispatch and event handling touch,
on top of the capability fields: the state and the 4-tuple of the peer (`none`
for an address that is `NULL`). -/
structure WSPSessionMachine (H : Type) extends WSPMachine H where
  state : WSPState
  client_address : Option Octstr
  client_port : Int
  server_address : Option Octstr
  server_port : Int
  deriving DecidableEq, Repr

/-- The machine that `wsp_machine_create` returns: every field zero or `NULL`,
the state `NULL_STATE`, the capabilities at their defaults. -/
def wsp_session_machine_create (H : Type) : WSPSessionMachine H :=
  { toWSPMachine := wsp_machine_create H, state := WSPState.NULL_STATE,
    client_address := none, client_port := 0, server_address := none, server_port := 0 }

/-- The function `transaction_belongs_to_session`.  A machine with a `NULL`
address is taken not to match. -/
def transaction_belongs_to_session {H : Type} (wtp : WTPMachine)
    (session : WSPSessionMachine H) : Bool :=
  match session.client_address, session.server_address with
  | some client_address, some server_address =>
    decide (octstr_compare wtp.source_address client_address = 0 ∧
      wtp.source_port = session.client_port ∧
      octstr_compare wtp.destination_address server_address = 0 ∧
      wtp.destination_port = session.server_port)
  | _, _ => false

/-- The `for` loop of `wsp_dispatch_event` over the list `session_machines`,
from the machine at position `i` on: the position of the machine it stops at,
`none` when it runs off the end with `sm == NULL`. -/
def wsp_dispatch_scan {H : Type} (wtp_sm : WTPMachine) :
    List (WSPSessionMachine H) → Nat → Option Nat
  | [], _ => none
  | sm :: next, i =>
    if transaction_belongs_to_session wtp_sm sm then some i
    else wsp_dispatch_scan wtp_sm next (i + 1)

/-- The machine that `wsp_dispatch_event` creates: the one of
`wsp_machine_create` with the 4-tuple of the WTP machine. -/
def wsp_dispatch_new_machine (H : Type) (wtp_sm : WTPMachine) : WSPSessionMachine H :=
  { wsp_session_machine_create H with
    client_address := some wtp_sm.source_address,
    client_port := wtp_sm.source_port,
    server_address := some wtp_sm.destination_address,
    server_port := wtp_sm.destination_port }

/-- Outcome of `wsp_dispatch_event` at its call of `wsp_handle_event`: the list
`session_machines`, the newest machine first, and the position in it of the
machine `sm` that is handed on. -/
structure Dispatched (H : Type) where
  session_machines : List (WSPSessionMachine H)
  sm : Nat
  deriving DecidableEq, Repr

/-- The function `wsp_dispatch_event`, up to its call of `wsp_handle_event`;
`wsp_machine_create` puts the new machine in front of the list. -/
def wsp_dispatch_event {H : Type} (session_machines : List (WSPSessionMachine H))
    (wtp_sm : WTPMachine) (event : WSPEvent) : Dispatched H :=
  let sm : Option Nat :=
    if event.type = WSPEventType.TRInvokeIndication ∧ event.tcl = 2 ∧
        wsp_deduce_pdu_type event.user_data 0 = Connect_PDU then none
    else wsp_dispatch_scan wtp_sm session_machines 0
  match sm with
  | some i => ⟨session_machines, i⟩
  | none => ⟨wsp_dispatch_new_machine H wtp_sm :: session_machines, 0⟩

/-- A row of the transition table (`ROW` in `wsp_state-decl.h`, which is not
part of the sources at hand): state, event, condition, action and next state.
An action changes the machine and hands events to WTP machines. -/
structure WSPRow (H : Type) where
  state : WSPState
  event : WSPEventType
  condition : WSPSessionMachine H → WSPEvent → Bool
  action : WSPSessionMachine H → WSPEvent → WSPSessionMachine H × List (WTPMachine × WTPEvent)
  next_state : WSPState

/-- The rows of the table as `wsp_handle_event` expands them, in their order:
the first row whose state, event and condition hold runs its action and sets
the state; `none` when no row does. -/
def wsp_handle_rows {H : Type} :
    List (WSPRow H) → WSPSessionMachine H → WSPEvent →
      Option (WSPSessionMachine H × List (WTPMachine × WTPEvent))
  | [], _, _ => none
  | row :: rest, sm, current_event =>
    if sm.state = row.state ∧ current_event.type = row.event ∧
        row.condition sm current_event = true then
      some ({ (row.action sm current_event).1 with state := row.next_state },
        (row.action sm current_event).2)
    else wsp_handle_rows rest sm current_event

/-- The body of the `do ... while` loop of `wsp_handle_event` up to the label
`end`: the machine afterwards and the events handed to WTP machines. -/
def wsp_handle_current {H : Type} (rows : List (WSPRow H)) (sm : WSPSessionMachine H)
    (current_event : WSPEvent) : WSPSessionMachine H × List (WTPMachine × WTPEvent) :=
  match wsp_handle_rows rows sm current_event with
  | some r => r
  | none =>
    if current_event.type = WSPEventType.TRInvokeIndication then
      ({ sm with client_port := -1 },
        [(current_event.machine, WTPEvent.TRAbort current_event.machine.tid 0x01 0x01)])
    else (sm, [])

/-- The function `append_to_event_queue`, on the queue as the list of the events
from `event_queue_head` on. -/
def append_to_event_queue (event_queue : List WSPEvent) (event : WSPEvent) : List WSPEvent :=
  event_queue ++ [event]

/-- The function `remove_from_event_queue`: the event it returns (`none` for
`NULL`) and the queue afterwards. -/
def remove_from_event_queue (event_queue : List WSPEvent) :
    Option WSPEvent × List WSPEvent :=
  match event_queue with
  | [] => (none, [])
  | event :: next => (some event, next)

/-! Threads in `wsp_handle_event` on one session machine -/

/-- Modelled from the spec: `mutex_try_lock` of gwlib, the non-blocking acquire
of a mutex, on the flag that says whether the mutex is held: on a held mutex it
returns -1 and changes nothing, on a free one it returns 0 and takes it. -/
def mutex_try_lock (locked : Bool) : Int × Bool :=
  if locked then (-1, true) else (0, true)

/-- Modelled from the spec: `mutex_unlock` of gwlib releases the mutex. -/
def mutex_unlock (_locked : Bool) : Bool := false

/-- Where a thread stands in its call of `wsp_handle_event`: at
`mutex_try_lock`; at `append_to_event_queue`, after `mutex_try_lock` returned
-1; at the top of the loop body with its current event, holding the mutex; at
`remove_from_event_queue` behind the label `end`; at `mutex_unlock`, after the
queue gave `NULL`; or back from the call. -/
inductive HandlerPc where
  | try_lock (current_event : WSPEvent)
  | append (current_event : WSPEvent)
  | handle (current_event : WSPEvent)
  | remove
  | unlock
  | returned
  deriving DecidableEq, Repr

/-- What the threads share of a session machine: its mutex, the machine, its
event queue, the events handed to WTP machines so far and, as a record, the
events for which the loop body has run, in the order in which it ran. -/
structure SharedSession (H : Type) where
  mutex_locked : Bool
  sm : WSPSessionMachine H
  event_queue : List WSPEvent
  wtp : List (WTPMachine × WTPEvent)
  handled : List WSPEvent

/-- One step of a thread in `wsp_handle_event`.  The steps are the calls on the
mutex and on the queue, each of them atomic (the queue has its own lock), and
the run of the loop body for the current event, which only the thread that
holds the mutex does. -/
def handler_step {H : Type} (rows : List (WSPRow H)) (s : SharedSession H) (pc : HandlerPc) :
    SharedSession H × HandlerPc :=
  match pc with
  | HandlerPc.try_lock current_event =>
    if (mutex_try_lock s.mutex_locked).1 = -1 then
      ({ s with mutex_locked := (mutex_try_lock s.mutex_locked).2 },
        HandlerPc.append current_event)
    else
      ({ s with mutex_locked := (mutex_try_lock s.mutex_locked).2 },
        HandlerPc.handle current_event)
  | HandlerPc.append current_event =>
    ({ s with event_queue := append_to_event_queue s.event_queue current_event },
      HandlerPc.returned)
  | HandlerPc.handle current_event =>
    ({ s with
        sm := (wsp_handle_current rows s.sm current_event).1
        wtp := s.wtp ++ (wsp_handle_current rows s.sm current_event).2
        handled := s.handled ++ [current_event] },
      HandlerPc.remove)
  | HandlerPc.remove =>
    match (remove_from_event_queue s.event_queue).1 with
    | some next_event =>
      ({ s with event_queue := (remove_from_event_queue s.event_queue).2 },
        HandlerPc.handle next_event)
    | none =>
      ({ s with event_queue := (remove_from_event_queue s.event_queue).2 }, HandlerPc.unlock)
  | HandlerPc.unlock =>
    ({ s with mutex_locked := mutex_unlock s.mutex_locked }, HandlerPc.returned)
  | HandlerPc.returned => (s, HandlerPc.returned)

/-- A run of the threads under a schedule, the list of the numbers of the
threads that take the next steps. -/
def run_threads {H : Type} (rows : List (WSPRow H)) :
    List Nat → SharedSession H × List HandlerPc → SharedSession H × List HandlerPc
  | [], c => c
  | t :: schedule, c =>
    match c.2[t]? with
    | some pc =>
      run_threads rows schedule
        ((handler_step rows c.1 pc).1, c.2.set t (handler_step rows c.1 pc).2)
    | none => run_threads rows schedule c

/-- The number of threads that stand between a successful `mutex_try_lock` and
their `mutex_unlock`. -/
def threads_inside : List HandlerPc → Nat
  | [] => 0
  | HandlerPc.handle _ :: pcs => threads_inside pcs + 1
  | HandlerPc.remove :: pcs => threads_inside pcs + 1
  | HandlerPc.unlock :: pcs => threads_inside pcs + 1
  | _ :: pcs => threads_inside pcs

/-! The event queue as `wsp.c` links it, and the loop of `wsp_handle_event` -/

/-- The memory that `append_to_event_queue` and `remove_from_event_queue` work
on: the fields `event_queue_head` and `event_queue_tail` of the machine and the
field `next` of every event.  An event is named by its address, and `none`
stands for `NULL`. -/
structure EventQueue where
  event_queue_head : Option Nat
  event_queue_tail : Option Nat
  next : Nat → Option Nat

/-- The function `append_to_event_queue` on the linked events; `none` when it
would write through an `event_queue_tail` that is `NULL`. -/
def EventQueue.append_to_event_queue (machine : EventQueue) (event : Nat) : Option EventQueue :=
  match machine.event_queue_head with
  | none =>
    some { event_queue_head := some event, event_queue_tail := some event,
           next := fun a => if a = event then none else machine.next a }
  | some _ =>
    match machine.event_queue_tail with
    | none => none
    | some tail =>
      some { event_queue_head := machine.event_queue_head, event_queue_tail := some event,
             next := fun a =>
               if a = event then none else if a = tail then some event else machine.next a }

/-- The function `remove_from_event_queue` on the linked events: the event it
returns (`none` for `NULL`) and the memory afterwards. -/
def EventQueue.remove_from_event_queue (machine : EventQueue) : Option Nat × EventQueue :=
  match machine.event_queue_head with
  | none => (none, machine)
  | some event =>
    (some event,
      { event_queue_head := machine.next event, event_queue_tail := machine.event_queue_tail,
        next := fun a => if a = event then none else machine.next a })

/-- The events reached from the pointer `p` through the fields `next` are those
of the list, in its order, and the last of them has `next = NULL`. -/
def queue_linked (next : Nat → Option Nat) : Option Nat → List Nat → Prop
  | p, [] => p = none
  | p, event :: l => p = some event ∧ queue_linked next (next event) l

instance queue_linked_decidable (next : Nat → Option Nat) :
    ∀ (p : Option Nat) (l : List Nat), Decidable (queue_linked next p l)
  | p, [] => inferInstanceAs (Decidable (p = none))
  | p, event :: l =>
    have := queue_linked_decidable next (next event) l
    inferInstanceAs (Decidable (p = some event ∧ queue_linked next (next event) l))

/-- The queue of the machine holds the events of the list, in its order: they
are linked from `event_queue_head` on, they are distinct events, and
`event_queue_tail` points to the last of them when there is one. -/
def queue_holds (machine : EventQueue) (l : List Nat) : Prop :=
  queue_linked machine.next machine.event_queue_head l ∧ l.Nodup ∧
  (l ≠ [] → machine.event_queue_tail = l.getLast?)

instance (machine : EventQueue) (l : List Nat) : Decidable (queue_holds machine l) := by
  unfold queue_holds; infer_instance

/-- A call on the event queue of a machine: `append_to_event_queue` with an
event, or `remove_from_event_queue`. -/
inductive QueueCall where
  | append (event : Nat)
  | remove
  deriving DecidableEq, Repr

/-- A sequence of calls run on the linked events: the events that the calls of
`remove_from_event_queue` returned, in the order of the calls, after those in
`returned`, and the memory at the end. -/
def queue_calls : List QueueCall → EventQueue → List Nat → Option (List Nat × EventQueue)
  | [], machine, returned => some (returned, machine)
  | QueueCall.append event :: calls, machine, returned =>
    match machine.append_to_event_queue event with
    | some machine1 => queue_calls calls machine1 returned
    | none => none
  | QueueCall.remove :: calls, machine, returned =>
    match machine.remove_from_event_queue.1 with
    | some event => queue_calls calls machine.remove_from_event_queue.2 (returned ++ [event])
    | none => queue_calls calls machine.remove_from_event_queue.2 returned

/-- The events that a sequence of calls appends, in the order of the calls. -/
def appended_events : List QueueCall → List Nat
  | [] => []
  | QueueCall.append event :: calls => event :: appended_events calls
  | QueueCall.remove :: calls => appended_events calls

/-- Outcome of `wsp_handle_event`: the mutex, the machine, its event queue, the
events handed to WTP machines, the events that `wsp_event_dump` printed at the
top of the passes of the loop, and the events that actions handed to
`wsp_handle_event` for this machine while the loop ran, each in its order. -/
structure Handled (H : Type) where
  mutex_locked : Bool
  sm : WSPSessionMachine H
  event_queue : List WSPEvent
  wtp : List (WTPMachine × WTPEvent)
  dumped : List WSPEvent
  enqueued : List WSPEvent

/-- The `do ... while` loop of `wsp_handle_event`.  The actions of the
transition table are in `wsp_state-decl.h`, which is not part of the sources at
hand; `own_events` gives the events that the action run in a pass hands to
`wsp_handle_event` for the machine itself, calls that find the mutex taken and
so append the event to the queue.  The first argument bounds the number of
passes, and the result is `none` when the bound is met. -/
def wsp_handle_event_loop {H : Type} (rows : List (WSPRow H))
    (own_events : WSPSessionMachine H → WSPEvent → List WSPEvent) :
    Nat → WSPEvent → Handled H → Option (Handled H)
  | 0, _, _ => none
  | fuel + 1, current_event, h =>
    let r := wsp_handle_current rows h.sm current_event
    let own := own_events h.sm current_event
    let q := remove_from_event_queue (own.foldl append_to_event_queue h.event_queue)
    let h1 : Handled H :=
      { mutex_locked := h.mutex_locked, sm := r.1, event_queue := q.2, wtp := h.wtp ++ r.2,
        dumped := h.dumped ++ [current_event], enqueued := h.enqueued ++ own }
    match q.1 with
    | some next_event => wsp_handle_event_loop rows own_events fuel next_event h1
    | none => some h1

/-- The function `wsp_handle_event` as one thread runs it, `mutex_locked` telling
whether the mutex of the machine is taken when it is called. -/
def wsp_handle_event {H : Type} (rows : List (WSPRow H))
    (own_events : WSPSessionMachine H → WSPEvent → List WSPEvent) (fuel : Nat)
    (mutex_locked : Bool) (sm : WSPSessionMachine H) (event_queue : List WSPEvent)
    (current_event : WSPEvent) : Option (Handled H) :=
  if (mutex_try_lock mutex_locked).1 = -1 then
    some { mutex_locked := (mutex_try_lock mutex_locked).2, sm := sm,
           event_queue := append_to_event_queue event_queue current_event,
           wtp := [], dumped := [], enqueued := [] }
  else
    match wsp_handle_event_loop rows own_events fuel current_event
        { mutex_locked := (mutex_try_lock mutex_locked).2, sm := sm, event_queue := event_queue,
          wtp := [], dumped := [], enqueued := [] } with
    | some h => some { h with mutex_locked := mutex_unlock h.mutex_locked }
    | none => none

/-- Handling a list of events one after the other, in the order of the list,
from a machine, a list of events handed to WTP machines and a list of events
handed to `wsp_handle_event` for the machine itself: the three at the end. -/
def wsp_handle_in_order {H : Type} (rows : List (WSPRow H))
    (own_events : WSPSessionMachine H → WSPEvent → List WSPEvent) :
    List WSPEvent →
      WSPSessionMachine H × List (WTPMachine × WTPEvent) × List WSPEvent →
      WSPSessionMachine H × List (WTPMachine × WTPEvent) × List WSPEvent
  | [], p => p
  | event :: rest, p =>
    wsp_handle_in_order rows own_events rest
      ((wsp_handle_current rows p.1 event).1, p.2.1 ++ (wsp_handle_current rows p.1 event).2,
        p.2.2 ++ own_events p.1 event)

/-! # Theorems -/

/-! ## Bit operations as arithmetic -/

theorem and_7F_eq_mod (o : Nat) : o &&& 0x7F = o % 128 := by
  have h := Nat.and_pow_two_sub_one_eq_mod o 7
  simpa using h

theorem and_80_eq (o : Nat) : o &&& 0x80 = 128 * (o / 128 % 2) := by
  have h := Nat.and_two_pow o 7
  simp only [Nat.testBit_to_div_mod] at h
  have h2 : (2 : Nat) ^ 7 = 128 := by norm_num
  rw [h2] at h
  rw [h]
  by_cases hb : o / 128 % 2 = 1
  · simp [hb]
  · have h0 : o / 128 % 2 = 0 := by omega
    simp [h0]

theorem or_80_eq_add (b : Nat) (hb : b < 128) : 0x80 ||| b = 128 + b := by
  have h := Nat.mul_add_lt_is_or (i := 7) (b := b) (by simpa using hb) 1
  simpa using h.symm

theorem shift_or_eq (u o : Nat) :
    ((u <<< 7) % ULONG_RANGE) ||| (o &&& 0x7F) = (u * 128 + o % 128) % 2 ^ 64 := by
  rw [and_7F_eq_mod, Nat.shiftLeft_eq]
  have hb : o % 128 < 2 ^ 7 := by
    have : o % 128 < 128 := Nat.mod_lt _ (by norm_num)
    simpa using this
  have h1 : u * 2 ^ 7 % ULONG_RANGE = 2 ^ 7 * (u % 2 ^ 57) := by
    simp only [ULONG_RANGE]
    norm_num
    omega
  rw [h1, ← Nat.mul_add_lt_is_or hb]
  norm_num
  omega

/-! ## The octets `append_uintvar` writes -/

theorem or_80_mod (x : Nat) : 0x80 ||| (x % 128) = 128 + x % 128 :=
  or_80_eq_add _ (Nat.mod_lt _ (by norm_num))

theorem append_uint8_nat (pdu : Octstr) (b : Nat) (h : b < 256) :
    append_uint8 pdu (b : Int) = pdu ++ [b] := by
  unfold append_uint8
  congr 2
  omega

theorem append_uint8_low (pdu : Octstr) (x : Nat) :
    append_uint8 pdu ((x % 128 : Nat) : Int) = pdu ++ [x % 128] :=
  append_uint8_nat _ _ (by omega)

theorem append_uint8_high (pdu : Octstr) (x : Nat) :
    append_uint8 pdu ((128 + x % 128 : Nat) : Int) = pdu ++ [128 + x % 128] :=
  append_uint8_nat _ _ (by omega)

theorem uintvar_fill_five (u : Nat) :
    uintvar_fill 5 u [] =
      [u / 268435456 % 128, u / 2097152 % 128, u / 16384 % 128, u / 128 % 128, u % 128] := by
  simp only [uintvar_fill, and_7F_eq_mod, Nat.shiftRight_eq_div_pow, Nat.div_div_eq_div_mul]

theorem append_uintvar_eq (pdu : Octstr) (n : Int) :
    append_uintvar pdu n = pdu ++
      (if to_ulong n / 268435456 % 128 ≠ 0 then
        [128 + to_ulong n / 268435456 % 128, 128 + to_ulong n / 2097152 % 128,
          128 + to_ulong n / 16384 % 128, 128 + to_ulong n / 128 % 128, to_ulong n % 128]
      else if to_ulong n / 2097152 % 128 ≠ 0 then
        [128 + to_ulong n / 2097152 % 128,
          128 + to_ulong n / 16384 % 128, 128 + to_ulong n / 128 % 128, to_ulong n % 128]
      else if to_ulong n / 16384 % 128 ≠ 0 then
        [128 + to_ulong n / 16384 % 128, 128 + to_ulong n / 128 % 128, to_ulong n % 128]
      else if to_ulong n / 128 % 128 ≠ 0 then
        [128 + to_ulong n / 128 % 128, to_ulong n % 128]
      else [to_ulong n % 128]) := by
  unfold append_uintvar
  simp only []
  generalize to_ulong n = u
  rw [uintvar_fill_five]
  have low : ∀ (q : Octstr), append_uint8 q ((u : Int) % 128) = q ++ [u % 128] := by
    intro q
    have h := append_uint8_low q u
    push_cast at h
    exact h
  have high : ∀ (q : Octstr) (k : Nat),
      append_uint8 q (128 + (u : Int) / (k : Int) % 128) = q ++ [128 + u / k % 128] := by
    intro q k
    have h := append_uint8_high q (u / k)
    push_cast at h
    exact h
  have high1 := fun q => high q 128
  have high2 := fun q => high q 16384
  have high3 := fun q => high q 2097152
  have high4 := fun q => high q 268435456
  simp only [Nat.cast_ofNat] at high1 high2 high3 high4
  by_cases h4 : u / 268435456 % 128 = 0
  · by_cases h3 : u / 2097152 % 128 = 0
    · by_cases h2 : u / 16384 % 128 = 0
      · by_cases h1 : u / 128 % 128 = 0
        · simp [uintvar_skip, uintvar_emit, h4, h3, h2, h1, or_80_mod, low]
        · simp [uintvar_skip, uintvar_emit, h4, h3, h2, h1, or_80_mod, low, high1]
      · simp [uintvar_skip, uintvar_emit, h4, h3, h2, or_80_mod, low, high1, high2]
    · simp [uintvar_skip, uintvar_emit, h4, h3, or_80_mod, low, high1, high2, high3]
  · simp [uintvar_skip, uintvar_emit, h4, or_80_mod, low, high1, high2, high3, high4]

/-! ## The octets `unpack_uintvar` reads -/

theorem to_ulong_nat (o : Nat) : to_ulong (o : Int) = o % 2 ^ 64 := by
  unfold to_ulong
  omega

theorem unpack_uint8_ge (u : Nat) (os : Octstr) (off : Nat) (h : os.length ≤ off) :
    unpack_uint8 u os off = ⟨-1, u, off⟩ := by
  simp [unpack_uint8, octstr_len, h]

theorem unpack_uint8_lt (u : Nat) (os : Octstr) (off : Nat) (h : off < os.length) :
    unpack_uint8 u os off = ⟨0, os[off] % 2 ^ 64, off + 1⟩ := by
  simp [unpack_uint8, octstr_len, h, octstr_get_char, to_ulong_nat]

theorem unpack_uintvar_loop_eq_scan (os : Octstr) :
    ∀ (fuel u off : Nat), os.length < off + fuel →
      unpack_uintvar_loop os fuel u off = uintvar_scan (os.drop off) u off := by
  intro fuel
  induction fuel with
  | zero =>
    intro u off h
    have hd : os.drop off = [] := List.drop_eq_nil_of_le (by omega)
    simp [unpack_uintvar_loop, hd, uintvar_scan]
  | succ fuel ih =>
    intro u off h
    by_cases hlt : off < os.length
    · have hd : os.drop off = os[off] :: os.drop (off + 1) := List.drop_eq_getElem_cons hlt
      have hrec := ih ((u * 128 + os[off] % 128) % 2 ^ 64) (off + 1) (by omega)
      have h7 : (os[off] % 2 ^ 64) % 128 = os[off] % 128 := by omega
      have h8 : (os[off] % 2 ^ 64) / 128 % 2 = os[off] / 128 % 2 := by omega
      rw [hd]
      simp only [unpack_uintvar_loop, unpack_uint8_lt 0 os off hlt, shift_or_eq, and_80_eq,
        uintvar_scan, h7, h8]
      by_cases hc : os[off] / 128 % 2 = 1
      · norm_num at hrec
        simp [hc, hrec]
      · have h0 : os[off] / 128 % 2 = 0 := by omega
        simp [h0]
    · have hd : os.drop off = [] := List.drop_eq_nil_of_le (by omega)
      simp [unpack_uintvar_loop, unpack_uint8_ge 0 os off (by omega), hd, uintvar_scan]

theorem unpack_uintvar_eq_scan (os : Octstr) (off : Nat) :
    unpack_uintvar os off = uintvar_scan (os.drop off) 0 off := by
  unfold unpack_uintvar octstr_len
  exact unpack_uintvar_loop_eq_scan os _ 0 off (by omega)

theorem uintvar_scan_high (x : Nat) (rest : Octstr) (u off : Nat) :
    uintvar_scan ((128 + x % 128) :: rest) u off =
      uintvar_scan rest ((u * 128 + x % 128) % 2 ^ 64) (off + 1) := by
  have h1 : (128 + x % 128) / 128 % 2 = 1 := by omega
  have h2 : (128 + x % 128) % 128 = x % 128 := by omega
  simp [uintvar_scan, h1, h2]

theorem uintvar_scan_low (x : Nat) (rest : Octstr) (u off : Nat) :
    uintvar_scan ((x % 128) :: rest) u off = ⟨0, (u * 128 + x % 128) % 2 ^ 64, off + 1⟩ := by
  have h1 : (x % 128) / 128 % 2 = 0 := by omega
  simp [uintvar_scan, h1]

/-! ## Round trip of values -/

/-- C1: for every integer `n` with `0 ≤ n ≤ 2^35 - 1`, `unpack_uintvar` from
offset 0 on the octets that `append_uintvar` appends to an empty octet string
returns 0, yields exactly `n`, and leaves the offset at the number of octets
written. -/
theorem uintvar_value_roundtrip (n : Int) (h0 : 0 ≤ n) (h1 : n ≤ 2 ^ 35 - 1) :
    (unpack_uintvar (append_uintvar [] n) 0).ret = 0 ∧
    ((unpack_uintvar (append_uintvar [] n) 0).u : Int) = n ∧
    (unpack_uintvar (append_uintvar [] n) 0).off = octstr_len (append_uintvar [] n) := by
  obtain ⟨u, rfl⟩ := Int.eq_ofNat_of_zero_le h0
  have hu : u < 2 ^ 35 := by omega
  have ht : to_ulong (u : Int) = u := by rw [to_ulong_nat]; omega
  rw [unpack_uintvar_eq_scan, append_uintvar_eq, ht]
  simp only [List.nil_append, List.drop_zero, octstr_len]
  split_ifs <;>
    simp only [uintvar_scan_high, uintvar_scan_low, List.length_cons, List.length_nil,
      Nat.cast_inj] <;>
    refine ⟨trivial, ?_, trivial⟩ <;> omega

/-- C1 at the value 300, whose encoding is the two octets `82 2C`. -/
theorem uintvar_value_roundtrip_witness :
    (0 : Int) ≤ 300 ∧ (300 : Int) ≤ 2 ^ 35 - 1 ∧
    (unpack_uintvar (append_uintvar [] 300) 0).ret = 0 ∧
    ((unpack_uintvar (append_uintvar [] 300) 0).u : Int) = 300 ∧
    (unpack_uintvar (append_uintvar [] 300) 0).off = octstr_len (append_uintvar [] 300) :=
  ⟨by decide, by decide, uintvar_value_roundtrip 300 (by decide) (by decide)⟩

/-! ## Shape of the encoding -/

theorem and_80_high (x : Nat) : (128 + x % 128) &&& 0x80 = 0x80 := by
  rw [and_80_eq]; omega

theorem and_80_low (x : Nat) : (x % 128) &&& 0x80 = 0 := by
  rw [and_80_eq]; omega

theorem size_le_iff_lt (u : Nat) :
    (Nat.size u ≤ 7 ↔ u < 128) ∧ (Nat.size u ≤ 14 ↔ u < 16384) ∧
    (Nat.size u ≤ 21 ↔ u < 2097152) ∧ (Nat.size u ≤ 28 ↔ u < 268435456) ∧
    (Nat.size u ≤ 35 ↔ u < 34359738368) := by
  refine ⟨?_, ?_, ?_, ?_, ?_⟩ <;> rw [Nat.size_le] <;> norm_num

/-- C2: for `0 ≤ n ≤ 2^35 - 1` the octets `append_uintvar` emits are
`max 1 (ceil (bitlength n / 7))` many (so at least one), every octet but the
last carries the continuation bit `0x80` and the last one does not; and for
every `n` whatsoever the output is never more than one octet long with a first
octet `0x80`. -/
theorem append_uintvar_minimal :
    (∀ n : Int, 0 ≤ n → n ≤ 2 ^ 35 - 1 →
      1 ≤ (append_uintvar [] n).length ∧
      (append_uintvar [] n).length = max 1 ((Nat.size n.toNat + 6) / 7) ∧
      (∀ o ∈ (append_uintvar [] n).dropLast, o &&& 0x80 = 0x80) ∧
      (∀ o ∈ (append_uintvar [] n).getLast?, o &&& 0x80 = 0)) ∧
    (∀ n : Int, ¬ (1 < (append_uintvar [] n).length ∧
      (append_uintvar [] n).head? = some 0x80)) ∧
    unpack_uintvar [0x80, 0x00] 0 = ⟨0, 0, 2⟩ := by
  refine ⟨?_, ?_, by decide⟩
  · intro n h0 h1
    obtain ⟨u, rfl⟩ := Int.eq_ofNat_of_zero_le h0
    have hu : u < 2 ^ 35 := by omega
    have ht : to_ulong (u : Int) = u := by rw [to_ulong_nat]; omega
    obtain ⟨s7, s14, s21, s28, s35⟩ := size_le_iff_lt u
    rw [append_uintvar_eq, ht]
    simp only [List.nil_append, Int.toNat_ofNat]
    split_ifs <;>
      simp only [List.length_cons, List.length_nil, List.dropLast, List.getLast?,
        List.getLast, List.mem_cons, List.mem_singleton, forall_eq_or_imp, forall_eq,
        Option.mem_def, Option.some.injEq, and_80_high, and_80_low, List.not_mem_nil,
        false_imp_iff, implies_true, and_true, true_and] <;>
      refine ⟨by omega, by omega, ?_⟩ <;>
      rintro o rfl <;>
      exact and_80_low u
  · intro n
    rw [append_uintvar_eq]
    simp only [List.nil_append]
    split_ifs <;>
      simp only [List.length_cons, List.length_nil, List.head?, Option.some.injEq] <;>
      omega

/-- C2 at the value 300: two octets, `82 2C`. -/
theorem append_uintvar_minimal_witness :
    (0 : Int) ≤ 300 ∧ (300 : Int) ≤ 2 ^ 35 - 1 ∧
    (append_uintvar [] 300).length = max 1 ((Nat.size (300 : Int).toNat + 6) / 7) :=
  ⟨by decide, by decide, (append_uintvar_minimal.1 300 (by decide) (by decide)).2.1⟩

/-! ## Round trip of encodings -/

theorem to_ulong_to_long (u : Nat) : to_ulong (to_long u) = u % 2 ^ 64 := by
  unfold to_ulong to_long
  split <;> omega

/-- C3, as stated, fails: the six octets `81 80 80 80 80 00` have the
continuation bit on every octet but the last and do not start with `0x80`;
`unpack_uintvar` reads the value `2^35` from them, for which `append_uintvar`
writes the single octet `00`. -/
theorem uintvar_encoding_roundtrip_six_octets :
    is_minimal_uintvar [0x81, 0x80, 0x80, 0x80, 0x80, 0x00] ∧
    unpack_uintvar [0x81, 0x80, 0x80, 0x80, 0x80, 0x00] 0 = ⟨0, 2 ^ 35, 6⟩ ∧
    append_uintvar [] (to_long (unpack_uintvar [0x81, 0x80, 0x80, 0x80, 0x80, 0x00] 0).u)
      = [0x00] := by
  decide

theorem groups_of_sum (y0 y1 y2 y3 y4 : Nat) (h0 : y0 < 128) (h1 : y1 < 128)
    (h2 : y2 < 128) (h3 : y3 < 128) (h4 : y4 < 128) :
    (y0 * 268435456 + y1 * 2097152 + y2 * 16384 + y3 * 128 + y4) % 2 ^ 64 / 268435456 % 128
      = y0 ∧
    (y0 * 268435456 + y1 * 2097152 + y2 * 16384 + y3 * 128 + y4) % 2 ^ 64 / 2097152 % 128
      = y1 ∧
    (y0 * 268435456 + y1 * 2097152 + y2 * 16384 + y3 * 128 + y4) % 2 ^ 64 / 16384 % 128
      = y2 ∧
    (y0 * 268435456 + y1 * 2097152 + y2 * 16384 + y3 * 128 + y4) % 2 ^ 64 / 128 % 128
      = y3 ∧
    (y0 * 268435456 + y1 * 2097152 + y2 * 16384 + y3 * 128 + y4) % 2 ^ 64 % 128 = y4 := by
  have e : (y0 * 268435456 + y1 * 2097152 + y2 * 16384 + y3 * 128 + y4) % 2 ^ 64 =
      y0 * 268435456 + y1 * 2097152 + y2 * 16384 + y3 * 128 + y4 := by omega
  rw [e]
  refine ⟨?_, ?_, ?_, ?_, ?_⟩ <;> omega

theorem append_uintvar_groups (y0 y1 y2 y3 y4 : Nat) (h0 : y0 < 128) (h1 : y1 < 128)
    (h2 : y2 < 128) (h3 : y3 < 128) (h4 : y4 < 128) :
    append_uintvar []
        (to_long (y0 * 268435456 + y1 * 2097152 + y2 * 16384 + y3 * 128 + y4)) =
      if y0 ≠ 0 then [128 + y0, 128 + y1, 128 + y2, 128 + y3, y4]
      else if y1 ≠ 0 then [128 + y1, 128 + y2, 128 + y3, y4]
      else if y2 ≠ 0 then [128 + y2, 128 + y3, y4]
      else if y3 ≠ 0 then [128 + y3, y4]
      else [y4] := by
  obtain ⟨g0, g1, g2, g3, g4⟩ := groups_of_sum y0 y1 y2 y3 y4 h0 h1 h2 h3 h4
  rw [append_uintvar_eq, to_ulong_to_long, g0, g1, g2, g3, g4]
  rfl

theorem acc_small (u y : Nat) (hu : u < 2 ^ 28) (hy : y < 128) :
    (u * 128 + y) % 2 ^ 64 = u * 128 + y := by
  omega

theorem uintvar_scan_hi (y : Nat) (hy : y < 128) (rest : Octstr) (u off : Nat) :
    uintvar_scan ((128 + y) :: rest) u off =
      uintvar_scan rest ((u * 128 + y) % 2 ^ 64) (off + 1) := by
  have h := uintvar_scan_high y rest u off
  rwa [Nat.mod_eq_of_lt hy] at h

theorem uintvar_scan_lo (y : Nat) (hy : y < 128) (rest : Octstr) (u off : Nat) :
    uintvar_scan (y :: rest) u off = ⟨0, (u * 128 + y) % 2 ^ 64, off + 1⟩ := by
  have h := uintvar_scan_low y rest u off
  rwa [Nat.mod_eq_of_lt hy] at h

theorem uintvar_scan_five (y0 y1 y2 y3 y4 : Nat) (h0 : y0 < 128) (h1 : y1 < 128)
    (h2 : y2 < 128) (h3 : y3 < 128) (h4 : y4 < 128) :
    uintvar_scan [128 + y0, 128 + y1, 128 + y2, 128 + y3, y4] 0 0 =
      ⟨0, y0 * 268435456 + y1 * 2097152 + y2 * 16384 + y3 * 128 + y4, 5⟩ := by
  have s0 : (0 * 128 + y0) % 2 ^ 64 = y0 := by omega
  have s1 : (y0 * 128 + y1) % 2 ^ 64 = y0 * 128 + y1 := by omega
  have s2 : ((y0 * 128 + y1) * 128 + y2) % 2 ^ 64 = (y0 * 128 + y1) * 128 + y2 := by omega
  have s3 : (((y0 * 128 + y1) * 128 + y2) * 128 + y3) % 2 ^ 64 =
      ((y0 * 128 + y1) * 128 + y2) * 128 + y3 := by omega
  have s4 : ((((y0 * 128 + y1) * 128 + y2) * 128 + y3) * 128 + y4) % 2 ^ 64 =
      y0 * 268435456 + y1 * 2097152 + y2 * 16384 + y3 * 128 + y4 := by omega
  rw [uintvar_scan_hi y0 h0, s0, uintvar_scan_hi y1 h1, s1, uintvar_scan_hi y2 h2, s2,
    uintvar_scan_hi y3 h3, s3, uintvar_scan_lo y4 h4, s4]

theorem uintvar_scan_four (y1 y2 y3 y4 : Nat) (h1 : y1 < 128)
    (h2 : y2 < 128) (h3 : y3 < 128) (h4 : y4 < 128) :
    uintvar_scan [128 + y1, 128 + y2, 128 + y3, y4] 0 0 =
      ⟨0, 0 * 268435456 + y1 * 2097152 + y2 * 16384 + y3 * 128 + y4, 4⟩ := by
  have s1 : (0 * 128 + y1) % 2 ^ 64 = y1 := by omega
  have s2 : (y1 * 128 + y2) % 2 ^ 64 = y1 * 128 + y2 := by omega
  have s3 : ((y1 * 128 + y2) * 128 + y3) % 2 ^ 64 = (y1 * 128 + y2) * 128 + y3 := by omega
  have s4 : (((y1 * 128 + y2) * 128 + y3) * 128 + y4) % 2 ^ 64 =
      0 * 268435456 + y1 * 2097152 + y2 * 16384 + y3 * 128 + y4 := by omega
  rw [uintvar_scan_hi y1 h1, s1, uintvar_scan_hi y2 h2, s2,
    uintvar_scan_hi y3 h3, s3, uintvar_scan_lo y4 h4, s4]

theorem uintvar_scan_three (y2 y3 y4 : Nat) (h2 : y2 < 128) (h3 : y3 < 128) (h4 : y4 < 128) :
    uintvar_scan [128 + y2, 128 + y3, y4] 0 0 =
      ⟨0, 0 * 268435456 + 0 * 2097152 + y2 * 16384 + y3 * 128 + y4, 3⟩ := by
  have s2 : (0 * 128 + y2) % 2 ^ 64 = y2 := by omega
  have s3 : (y2 * 128 + y3) % 2 ^ 64 = y2 * 128 + y3 := by omega
  have s4 : ((y2 * 128 + y3) * 128 + y4) % 2 ^ 64 =
      0 * 268435456 + 0 * 2097152 + y2 * 16384 + y3 * 128 + y4 := by omega
  rw [uintvar_scan_hi y2 h2, s2, uintvar_scan_hi y3 h3, s3, uintvar_scan_lo y4 h4, s4]

theorem uintvar_scan_two (y3 y4 : Nat) (h3 : y3 < 128) (h4 : y4 < 128) :
    uintvar_scan [128 + y3, y4] 0 0 =
      ⟨0, 0 * 268435456 + 0 * 2097152 + 0 * 16384 + y3 * 128 + y4, 2⟩ := by
  have s3 : (0 * 128 + y3) % 2 ^ 64 = y3 := by omega
  have s4 : (y3 * 128 + y4) % 2 ^ 64 =
      0 * 268435456 + 0 * 2097152 + 0 * 16384 + y3 * 128 + y4 := by omega
  rw [uintvar_scan_hi y3 h3, s3, uintvar_scan_lo y4 h4, s4]

theorem uintvar_scan_one (y4 : Nat) (h4 : y4 < 128) :
    uintvar_scan [y4] 0 0 =
      ⟨0, 0 * 268435456 + 0 * 2097152 + 0 * 16384 + 0 * 128 + y4, 1⟩ := by
  have s4 : (0 * 128 + y4) % 2 ^ 64 =
      0 * 268435456 + 0 * 2097152 + 0 * 16384 + 0 * 128 + y4 := by omega
  rw [uintvar_scan_lo y4 h4, s4]

/-- C3, amended: for every minimum-length uintvar encoding `b` of at most five
octets, `unpack_uintvar` succeeds on `b`, consuming it whole, and
`append_uintvar` applied to the value read reproduces `b` exactly. -/
theorem uintvar_encoding_roundtrip (b : Octstr) (hb : is_minimal_uintvar b)
    (hlen : b.length ≤ 5) :
    (unpack_uintvar b 0).ret = 0 ∧ (unpack_uintvar b 0).off = octstr_len b ∧
    append_uintvar [] (to_long (unpack_uintvar b 0).u) = b := by
  rw [unpack_uintvar_eq_scan, List.drop_zero]
  obtain ⟨ho, hne, hd, hl, hh⟩ := hb
  rcases b with _ | ⟨a0, _ | ⟨a1, _ | ⟨a2, _ | ⟨a3, _ | ⟨a4, _ | ⟨a5, t⟩⟩⟩⟩⟩⟩
  · exact absurd rfl hne
  all_goals
    simp only [is_octets, List.mem_cons, List.mem_singleton, forall_eq_or_imp, forall_eq,
      List.dropLast, List.getLast?, List.getLast, Option.mem_def, Option.some.injEq,
      List.not_mem_nil, false_imp_iff, implies_true, and_true, and_80_eq, List.head?,
      List.length_cons, List.length_nil, forall_eq'] at ho hd hl hh hlen
  · rw [uintvar_scan_one a0 (by omega), append_uintvar_groups 0 0 0 0 a0 (by omega)
      (by omega) (by omega) (by omega) (by omega)]
    simp [octstr_len]
  · obtain ⟨y0, rfl⟩ : ∃ y, a0 = 128 + y := ⟨a0 - 128, by omega⟩
    rw [uintvar_scan_two y0 a1 (by omega) (by omega), append_uintvar_groups 0 0 0 y0 a1
      (by omega) (by omega) (by omega) (by omega) (by omega)]
    have : y0 ≠ 0 := by omega
    simp [octstr_len, this]
  · obtain ⟨y0, rfl⟩ : ∃ y, a0 = 128 + y := ⟨a0 - 128, by omega⟩
    obtain ⟨y1, rfl⟩ : ∃ y, a1 = 128 + y := ⟨a1 - 128, by omega⟩
    rw [uintvar_scan_three y0 y1 a2 (by omega) (by omega) (by omega),
      append_uintvar_groups 0 0 y0 y1 a2
      (by omega) (by omega) (by omega) (by omega) (by omega)]
    have : y0 ≠ 0 := by omega
    simp [octstr_len, this]
  · obtain ⟨y0, rfl⟩ : ∃ y, a0 = 128 + y := ⟨a0 - 128, by omega⟩
    obtain ⟨y1, rfl⟩ : ∃ y, a1 = 128 + y := ⟨a1 - 128, by omega⟩
    obtain ⟨y2, rfl⟩ : ∃ y, a2 = 128 + y := ⟨a2 - 128, by omega⟩
    rw [uintvar_scan_four y0 y1 y2 a3 (by omega) (by omega) (by omega) (by omega),
      append_uintvar_groups 0 y0 y1 y2 a3
      (by omega) (by omega) (by omega) (by omega) (by omega)]
    have : y0 ≠ 0 := by omega
    simp [octstr_len, this]
  · obtain ⟨y0, rfl⟩ : ∃ y, a0 = 128 + y := ⟨a0 - 128, by omega⟩
    obtain ⟨y1, rfl⟩ : ∃ y, a1 = 128 + y := ⟨a1 - 128, by omega⟩
    obtain ⟨y2, rfl⟩ : ∃ y, a2 = 128 + y := ⟨a2 - 128, by omega⟩
    obtain ⟨y3, rfl⟩ : ∃ y, a3 = 128 + y := ⟨a3 - 128, by omega⟩
    rw [uintvar_scan_five y0 y1 y2 y3 a4 (by omega) (by omega) (by omega) (by omega)
      (by omega), append_uintvar_groups y0 y1 y2 y3 a4
      (by omega) (by omega) (by omega) (by omega) (by omega)]
    have : y0 ≠ 0 := by omega
    simp [octstr_len, this]
  · omega

/-- C3, amended, at the two octets `82 2C` (the value 300). -/
theorem uintvar_encoding_roundtrip_witness :
    is_minimal_uintvar [0x82, 0x2C] ∧ [0x82, 0x2C].length ≤ 5 ∧
    (unpack_uintvar [0x82, 0x2C] 0).ret = 0 ∧
    (unpack_uintvar [0x82, 0x2C] 0).off = octstr_len [0x82, 0x2C] ∧
    append_uintvar [] (to_long (unpack_uintvar [0x82, 0x2C] 0).u) = [0x82, 0x2C] :=
  ⟨by decide, by decide, uintvar_encoding_roundtrip [0x82, 0x2C] (by decide) (by decide)⟩

/-! ## How many octets `unpack_uintvar` reads -/

theorem cont_bit_iff (o : Nat) : o &&& 0x80 ≠ 0 ↔ o / 128 % 2 = 1 := by
  rw [and_80_eq]; omega

theorem uintvar_scan_spec (l : Octstr) :
    ∀ (u off : Nat),
      off ≤ (uintvar_scan l u off).off ∧
      (uintvar_scan l u off).off ≤ off + l.length ∧
      (uintvar_scan l u off).u =
        (l.take ((uintvar_scan l u off).off - off)).foldl
          (fun v o => ((v <<< 7) % ULONG_RANGE) ||| (o &&& 0x7F)) u ∧
      (∀ o ∈ l.take ((uintvar_scan l u off).off - off - 1), o &&& 0x80 ≠ 0) ∧
      (((uintvar_scan l u off).ret = 0 ∧ off < (uintvar_scan l u off).off ∧
          ∃ o, l[(uintvar_scan l u off).off - off - 1]? = some o ∧ o &&& 0x80 = 0) ∨
        ((uintvar_scan l u off).ret = -1 ∧ (uintvar_scan l u off).off = off + l.length ∧
          ∀ o ∈ l, o &&& 0x80 ≠ 0)) := by
  induction l with
  | nil =>
    intro u off
    simp [uintvar_scan]
  | cons o rest ih =>
    intro u off
    have hstep : ((u <<< 7) % ULONG_RANGE) ||| (o &&& 0x7F) = (u * 128 + o % 128) % 2 ^ 64 :=
      shift_or_eq u o
    by_cases hc : o / 128 % 2 = 1
    · have hbit : o &&& 0x80 ≠ 0 := (cont_bit_iff o).2 hc
      obtain ⟨i1, i2, i3, i4, i5⟩ := ih ((u * 128 + o % 128) % 2 ^ 64) (off + 1)
      have hs : uintvar_scan (o :: rest) u off =
          uintvar_scan rest ((u * 128 + o % 128) % 2 ^ 64) (off + 1) := by
        simp [uintvar_scan, hc]
      rw [hs]
      generalize uintvar_scan rest ((u * 128 + o % 128) % 2 ^ 64) (off + 1) = r at i1 i2 i3 i4 i5
      have hk : r.off - off = (r.off - (off + 1)) + 1 := by omega
      refine ⟨by omega, by simp only [List.length_cons]; omega, ?_, ?_, ?_⟩
      · rw [hk, List.take_succ_cons, List.foldl_cons, hstep]
        exact i3
      · rcases i5 with ⟨_, hlt, _⟩ | ⟨_, hoff, _⟩
        · have hk2 : r.off - off - 1 = (r.off - (off + 1) - 1) + 1 := by omega
          rw [hk2, List.take_succ_cons]
          intro x hx
          rcases List.mem_cons.1 hx with rfl | hx
          · exact hbit
          · exact i4 x hx
        · by_cases hr : rest = []
          · subst hr
            simp at hoff
            simp [hoff]
          · have hpos : 0 < rest.length := List.length_pos.2 hr
            have hk2 : r.off - off - 1 = (r.off - (off + 1) - 1) + 1 := by omega
            rw [hk2, List.take_succ_cons]
            intro x hx
            rcases List.mem_cons.1 hx with rfl | hx
            · exact hbit
            · exact i4 x hx
      · rcases i5 with ⟨hret, hlt, o2, ho2, hb2⟩ | ⟨hret, hoff, hall⟩
        · left
          refine ⟨hret, by omega, o2, ?_, hb2⟩
          have hk2 : r.off - off - 1 = (r.off - (off + 1) - 1) + 1 := by omega
          rw [hk2, List.getElem?_cons_succ]
          exact ho2
        · right
          refine ⟨hret, by simp only [List.length_cons]; omega, ?_⟩
          intro x hx
          rcases List.mem_cons.1 hx with rfl | hx
          · exact hbit
          · exact hall x hx
    · have hbit : o &&& 0x80 = 0 := by
        by_contra hne
        exact hc ((cont_bit_iff o).1 hne)
      have hs : uintvar_scan (o :: rest) u off = ⟨0, (u * 128 + o % 128) % 2 ^ 64, off + 1⟩ := by
        simp [uintvar_scan, hc]
      rw [hs]
      simp [hstep, hbit]

/-- C4, as stated, fails: on the seven octets `80 80 80 80 80 80 00` the call
from offset 0 succeeds and leaves the offset at 7, beyond offset plus 5. -/
theorem unpack_uintvar_reads_seven :
    (unpack_uintvar [0x80, 0x80, 0x80, 0x80, 0x80, 0x80, 0x00] 0).ret = 0 ∧
    (unpack_uintvar [0x80, 0x80, 0x80, 0x80, 0x80, 0x80, 0x00] 0).off = 7 ∧
    ¬ ((unpack_uintvar [0x80, 0x80, 0x80, 0x80, 0x80, 0x80, 0x00] 0).off ≤ 0 + 5) := by
  decide

/-- C4, amended: `unpack_uintvar` reads octets up to and including the first one
with the continuation bit clear, however many they are.  For every octet string
and starting offset the offset only moves forward and stays within the octet
string (or where it started), the value is the accumulation
`value = (value << 7) | (octet & 0x7F)` over the octets read, every octet read
before the last has the continuation bit set, and the call either returns 0 on
an octet with the bit clear or returns -1 having run to the end of the octet
string through octets that all have the bit set. -/
theorem unpack_uintvar_reads (os : Octstr) (off : Nat) :
    off ≤ (unpack_uintvar os off).off ∧
    (unpack_uintvar os off).off ≤ max off (octstr_len os) ∧
    (unpack_uintvar os off).u =
      uintvar_accumulate ((os.drop off).take ((unpack_uintvar os off).off - off)) ∧
    (∀ o ∈ (os.drop off).take ((unpack_uintvar os off).off - off - 1), o &&& 0x80 ≠ 0) ∧
    (((unpack_uintvar os off).ret = 0 ∧ off < (unpack_uintvar os off).off ∧
        ∃ o, os[(unpack_uintvar os off).off - 1]? = some o ∧ o &&& 0x80 = 0) ∨
      ((unpack_uintvar os off).ret = -1 ∧
        (unpack_uintvar os off).off = max off (octstr_len os) ∧
        ∀ o ∈ os.drop off, o &&& 0x80 ≠ 0)) := by
  obtain ⟨h1, h2, h3, h4, h5⟩ := uintvar_scan_spec (os.drop off) 0 off
  rw [unpack_uintvar_eq_scan]
  generalize uintvar_scan (os.drop off) 0 off = r at h1 h2 h3 h4 h5
  have hmax : off + (os.length - off) = max off os.length := by
    rw [Nat.max_def]
    split <;> omega
  simp only [List.length_drop, hmax] at h2 h5
  unfold octstr_len uintvar_accumulate
  refine ⟨h1, h2, h3, h4, ?_⟩
  rcases h5 with ⟨hret, hlt, o, ho, hb⟩ | ⟨hret, hoff, hall⟩
  · left
    refine ⟨hret, hlt, o, ?_, hb⟩
    rw [List.getElem?_drop] at ho
    have e : off + (r.off - off - 1) = r.off - 1 := by omega
    rwa [e] at ho
  · right
    exact ⟨hret, hoff, hall⟩

/-! ## Connect PDU -/

/-- C5 at the Connect PDU `01 10 90 80 80 80 00 00`: the capability length it
carries is `2^32`, no octet remains after the two length fields, and
`unpack_connect_pdu` returns 0, because `unpack_octstr` receives the length as
an `int`, which is 0.  The one-octet PDU `01` is refused and `01 10 00 00` is
accepted. -/
theorem unpack_connect_pdu_long_caps_len {H : Type} (k : WspConstants)
    (unpack_headers : Octstr → H) (header_pack : H → H) (m : WSPMachine H) :
    unpack_uintvar [0x01, 0x10, 0x90, 0x80, 0x80, 0x80, 0x00, 0x00] 2 = ⟨0, 2 ^ 32, 7⟩ ∧
    unpack_uintvar [0x01, 0x10, 0x90, 0x80, 0x80, 0x80, 0x00, 0x00] 7 = ⟨0, 0, 8⟩ ∧
    to_int (2 ^ 32) = 0 ∧
    unpack_connect_pdu k unpack_headers header_pack m
      [0x01, 0x10, 0x90, 0x80, 0x80, 0x80, 0x00, 0x00] = (0, m) ∧
    unpack_connect_pdu k unpack_headers header_pack m [0x01] = (-1, m) ∧
    unpack_connect_pdu k unpack_headers header_pack m [0x01, 0x10, 0x00, 0x00] = (0, m) := by
  refine ⟨by decide, by decide, by decide, ?_, ?_, ?_⟩ <;> rfl

/-! ## Capability negotiation -/

theorem append_uintvar_length_le (n : Int) :
    1 ≤ (append_uintvar [] n).length ∧ (append_uintvar [] n).length ≤ 5 := by
  rw [append_uintvar_eq]
  simp only [List.nil_append]
  split_ifs <;> simp

theorem uintvar_scan_append_uintvar (n : Nat) (hn : n < 2 ^ 35) (rest : Octstr) (off : Nat) :
    uintvar_scan (append_uintvar [] (n : Int) ++ rest) 0 off =
      ⟨0, n, off + (append_uintvar [] (n : Int)).length⟩ := by
  have ht : to_ulong (n : Int) = n := by rw [to_ulong_nat]; omega
  rw [append_uintvar_eq, ht]
  simp only [List.nil_append]
  split_ifs <;>
    simp only [uintvar_scan_high, uintvar_scan_low, List.length_cons, List.length_nil,
      List.cons_append, List.nil_append, Unpacked.mk.injEq, true_and, and_true] <;>
    omega

theorem unpack_uintvar_framed (pre rest : Octstr) (n : Nat) (hn : n < 2 ^ 35) :
    unpack_uintvar (pre ++ (append_uintvar [] (n : Int) ++ rest)) pre.length =
      ⟨0, n, pre.length + (append_uintvar [] (n : Int)).length⟩ := by
  rw [unpack_uintvar_eq_scan, List.drop_left]
  exact uintvar_scan_append_uintvar n hn rest pre.length

theorem octstr_get_char_framed (pre rest : Octstr) (c : Nat) :
    octstr_get_char (pre ++ c :: rest) pre.length = (c : Int) := by
  have h : (pre ++ c :: rest)[pre.length]? = some c := by
    rw [List.getElem?_append_right (Nat.le_refl _)]
    simp
  simp [octstr_get_char, h]

theorem unpack_caps_loop_done {H : Type} (k : WspConstants) (caps : Octstr) (fuel off : Nat)
    (m : WSPMachine H) (h : octstr_len caps ≤ off) : unpack_caps_loop k caps fuel off m = m := by
  cases fuel with
  | zero => rfl
  | succ fuel =>
    have : ¬ off < octstr_len caps := by omega
    simp [unpack_caps_loop, this]

theorem unpack_caps_loop_step {H : Type} (k : WspConstants) (caps : Octstr) (fuel off : Nat)
    (m : WSPMachine H) (h : off < octstr_len caps) :
    unpack_caps_loop k caps (fuel + 1) off m =
      unpack_caps_loop k caps fuel (unpack_caps_body k caps off m).1
        (unpack_caps_body k caps off m).2 := by
  simp [unpack_caps_loop, h]

theorem to_long_small (u : Nat) (h : u < 2 ^ 63) : to_long u = (u : Int) := by
  unfold to_long
  have h1 : u % 2 ^ 64 = u := by omega
  rw [h1, if_pos h]

theorem caps_entry_uintvar_parts (id v : Nat) (hv : v < 2 ^ 35) :
    ∃ A B : Octstr, caps_entry id (append_uintvar [] (v : Int)) = A ++ id :: B ∧
      0 < A.length ∧
      unpack_uintvar (A ++ id :: B) 0 = ⟨0, 1 + B.length, A.length⟩ ∧
      octstr_get_char (A ++ id :: B) A.length = (id : Int) ∧
      unpack_uintvar (A ++ id :: B) (A.length + 1) = ⟨0, v, (A ++ id :: B).length⟩ := by
  refine ⟨append_uintvar [] ((1 + (append_uintvar [] (v : Int)).length : Nat) : Int),
    append_uintvar [] (v : Int), ?_, ?_, ?_, ?_, ?_⟩
  · simp [caps_entry]
  · exact (append_uintvar_length_le _).1
  · have hl := (append_uintvar_length_le (v : Int)).2
    have h := unpack_uintvar_framed [] (id :: append_uintvar [] (v : Int))
      (1 + (append_uintvar [] (v : Int)).length) (by omega)
    simpa using h
  · exact octstr_get_char_framed _ _ _
  · have h := unpack_uintvar_framed
      (append_uintvar [] ((1 + (append_uintvar [] (v : Int)).length : Nat) : Int) ++ [id]) [] v hv
    simpa [Nat.add_assoc, Nat.add_comm 1] using h

theorem unpack_caps_single {H : Type} (k : WspConstants) (caps : Octstr) (m : WSPMachine H)
    (hpos : 0 < octstr_len caps)
    (hoff : octstr_len caps ≤ (unpack_caps_body k caps 0 m).1) :
    unpack_caps k caps m = (unpack_caps_body k caps 0 m).2 := by
  unfold unpack_caps
  obtain ⟨f, hf⟩ : ∃ f, octstr_len caps = f + 1 := ⟨octstr_len caps - 1, by omega⟩
  rw [hf, unpack_caps_loop_step k caps f 0 m hpos]
  exact unpack_caps_loop_done k caps f _ _ hoff

theorem unpack_caps_body_client_sdu {H : Type} (k : WspConstants) (m : WSPMachine H) (v : Nat)
    (hv : v < 2 ^ 35) :
    unpack_caps_body k (caps_entry 0x00 (append_uintvar [] (v : Int))) 0 m =
      (octstr_len (caps_entry 0x00 (append_uintvar [] (v : Int))),
        if k.WSP_MAX_CLIENT_SDU ≠ 0 ∧ v > k.WSP_MAX_CLIENT_SDU then m
        else if m.set_caps &&& k.WSP_CSDU_SET = 0 then
          { m with client_SDU_size := if v = 3 then 1350 else (v : Int),
                   set_caps := m.set_caps ||| k.WSP_CSDU_SET }
        else m) := by
  obtain ⟨A, B, hc, hA, h1, h2, h3⟩ := caps_entry_uintvar_parts 0x00 v hv
  rw [hc]
  have h2' : octstr_get_char (A ++ 0 :: B) (A.length + 1 - 1) = 0 := by
    simpa using h2
  unfold unpack_caps_body
  simp only [h1, h2', h3, WSP_CAPS_CLIENT_SDU_SIZE, octstr_len]
  rw [if_pos trivial, if_neg (by decide)]
  have hl : to_long (if v = 3 then 1350 else v) = if v = 3 then 1350 else (v : Int) := by
    split
    · rfl
    · exact to_long_small v (by omega)
  rw [hl]
  split_ifs <;> rfl

theorem unpack_uintvar_off_ge (os : Octstr) (off : Nat) : off ≤ (unpack_uintvar os off).off := by
  rw [unpack_uintvar_eq_scan]
  exact (uintvar_scan_spec (os.drop off) 0 off).1

theorem unpack_uint8_off_ge (u : Nat) (os : Octstr) (off : Nat) :
    off ≤ (unpack_uint8 u os off).off := by
  unfold unpack_uint8
  split <;> simp

theorem unpack_caps_body_advances {H : Type} (k : WspConstants) (caps : Octstr) (off : Nat)
    (m : WSPMachine H) : off < (unpack_caps_body k caps off m).1 := by
  have h1 := unpack_uintvar_off_ge caps off
  have h2 := unpack_uintvar_off_ge caps ((unpack_uintvar caps off).off + 1)
  have h3 := unpack_uint8_off_ge 0 caps ((unpack_uintvar caps off).off + 1)
  unfold unpack_caps_body
  simp only []
  split_ifs <;> simp only [] <;> omega

theorem unpack_caps_loop_fuel {H : Type} (k : WspConstants) (caps : Octstr) :
    ∀ (fuel off : Nat) (m : WSPMachine H), octstr_len caps ≤ off + fuel →
      ∀ more, unpack_caps_loop k caps (fuel + more) off m = unpack_caps_loop k caps fuel off m := by
  intro fuel
  induction fuel with
  | zero =>
    intro off m h more
    rw [unpack_caps_loop_done k caps _ off m (by omega),
      unpack_caps_loop_done k caps _ off m (by omega)]
  | succ fuel ih =>
    intro off m h more
    by_cases hlt : off < octstr_len caps
    · have ha := unpack_caps_body_advances k caps off m
      rw [Nat.add_right_comm, unpack_caps_loop_step k caps _ off m hlt,
        unpack_caps_loop_step k caps _ off m hlt]
      exact ih _ _ (by omega) more
    · rw [unpack_caps_loop_done k caps _ off m (by omega),
        unpack_caps_loop_done k caps _ off m (by omega)]

/-- C6 at the block `04 05 02 03 00`, the single entry Extended methods
(identifier `0x05`) with the payload `02 03 00`: the first pass of `unpack_caps`
ends at offset 2, inside the payload, which the next pass reads as an entry
Method MOR with the value 0.  Whatever the constants of `wsp.h`, the fresh
machine comes out with `MOR_method = 0` and the method-MOR flag in `set_caps`. -/
theorem unpack_caps_reads_ignored_payload (k : WspConstants) :
    caps_entry 0x05 [0x02, 0x03, 0x00] = [0x04, 0x05, 0x02, 0x03, 0x00] ∧
    unpack_caps_body k [0x04, 0x05, 0x02, 0x03, 0x00] 0
      (wsp_machine_create Octstr) = (2, wsp_machine_create Octstr) ∧
    unpack_caps k [0x04, 0x05, 0x02, 0x03, 0x00] (wsp_machine_create Octstr) =
      { wsp_machine_create Octstr with MOR_method := 0, set_caps := 0 ||| k.WSP_MMOR_SET } ∧
    (unpack_caps k [0x04, 0x05, 0x02, 0x03, 0x00] (wsp_machine_create Octstr)).MOR_method ≠
      (wsp_machine_create Octstr).MOR_method := by
  have hb0 : unpack_caps_body k [0x04, 0x05, 0x02, 0x03, 0x00] 0 (wsp_machine_create Octstr) =
      (2, wsp_machine_create Octstr) := rfl
  have hu : unpack_uintvar [0x04, 0x05, 0x02, 0x03, 0x00] 2 = ⟨0, 2, 3⟩ := by decide
  have hi : octstr_get_char [0x04, 0x05, 0x02, 0x03, 0x00] (3 + 1 - 1) = 3 := by decide
  have h8 : unpack_uint8 0 [0x04, 0x05, 0x02, 0x03, 0x00] (3 + 1) = ⟨0, 0, 5⟩ := by decide
  have hb2 : unpack_caps_body k [0x04, 0x05, 0x02, 0x03, 0x00] 2 (wsp_machine_create Octstr) =
      (5, { wsp_machine_create Octstr with
              MOR_method := 0, set_caps := 0 ||| k.WSP_MMOR_SET }) := by
    unfold unpack_caps_body
    simp only [hu, hi, h8]
    simp [WSP_CAPS_CLIENT_SDU_SIZE, WSP_CAPS_SERVER_SDU_SIZE, WSP_CAPS_PROTOCOL_OPTIONS,
      WSP_CAPS_METHOD_MOR, wsp_machine_create, to_long]
  have hr : unpack_caps k [0x04, 0x05, 0x02, 0x03, 0x00] (wsp_machine_create Octstr) =
      { wsp_machine_create Octstr with MOR_method := 0, set_caps := 0 ||| k.WSP_MMOR_SET } := by
    unfold unpack_caps
    rw [show octstr_len [0x04, 0x05, 0x02, 0x03, 0x00] = 3 + 1 + 1 from rfl,
      unpack_caps_loop_step k _ _ 0 _ (by decide), hb0,
      unpack_caps_loop_step k _ _ 2 _ (by decide), hb2]
    exact unpack_caps_loop_done k _ _ _ _ (Nat.le_refl 5)
  refine ⟨by decide, hb0, hr, ?_⟩
  rw [hr]
  simp [wsp_machine_create]

/-- C8, as stated, fails: with a server maximum of 1 and the client value 5 for
Method MOR the fresh machine is left as it was, the capability not recorded in
`set_caps`; with a server maximum of 4 and the client value 9, `MOR_method`
stays at 1 and does not become 4.  The same holds for Push MOR. -/
theorem unpack_caps_mor_not_clamped :
    5 > sample_constants.WSP_MAX_METHOD_MOR ∧
    (unpack_caps sample_constants (caps_entry 0x03 [5]) (wsp_machine_create Octstr)).set_caps
      &&& sample_constants.WSP_MMOR_SET = 0 ∧
    (unpack_caps { sample_constants with WSP_MAX_METHOD_MOR := 4 } (caps_entry 0x03 [9])
      (wsp_machine_create Octstr)).MOR_method = 1 ∧
    (unpack_caps sample_constants (caps_entry 0x04 [5]) (wsp_machine_create Octstr)).set_caps
      &&& sample_constants.WSP_PMOR_SET = 0 ∧
    (unpack_caps { sample_constants with WSP_MAX_PUSH_MOR := 4 } (caps_entry 0x04 [9])
      (wsp_machine_create Octstr)).MOR_push = 1 := by
  decide

theorem caps_entry_octet (id v : Nat) : caps_entry id [v] = [2, id, v] := by
  simp [caps_entry]
  rfl

theorem unpack_caps_three {H : Type} (k : WspConstants) (a b c : Nat) (m : WSPMachine H)
    (h : 3 ≤ (unpack_caps_body k [a, b, c] 0 m).1) :
    unpack_caps k [a, b, c] m = (unpack_caps_body k [a, b, c] 0 m).2 :=
  unpack_caps_single k [a, b, c] m (by simp [octstr_len]) h

/-- C8, amended: when the client's Method MOR (identifier `0x03`) or Push MOR
(identifier `0x04`) value exceeds the server maximum, the negotiator ignores it:
`unpack_caps` leaves the machine as it was, so `MOR_method` (respectively
`MOR_push`) keeps its value and nothing is recorded in `set_caps`. -/
theorem unpack_caps_mor_over_max {H : Type} (k : WspConstants) (m : WSPMachine H) (v : Nat)
    (hv : v < 256) :
    (v > k.WSP_MAX_METHOD_MOR → unpack_caps k (caps_entry 0x03 [v]) m = m) ∧
    (v > k.WSP_MAX_PUSH_MOR → unpack_caps k (caps_entry 0x04 [v]) m = m) := by
  have hu : unpack_uintvar [2, 3, v] 0 = ⟨0, 2, 1⟩ := by
    rw [unpack_uintvar_eq_scan]; simp [uintvar_scan]
  have hu' : unpack_uintvar [2, 4, v] 0 = ⟨0, 2, 1⟩ := by
    rw [unpack_uintvar_eq_scan]; simp [uintvar_scan]
  have h8 : unpack_uint8 0 [2, 3, v] 2 = ⟨0, v, 3⟩ := by
    rw [unpack_uint8_lt 0 [2, 3, v] 2 (by simp)]
    simp only [List.getElem_cons_succ, List.getElem_cons_zero, Unpacked.mk.injEq, true_and,
      and_true]
    omega
  have h8' : unpack_uint8 0 [2, 4, v] 2 = ⟨0, v, 3⟩ := by
    rw [unpack_uint8_lt 0 [2, 4, v] 2 (by simp)]
    simp only [List.getElem_cons_succ, List.getElem_cons_zero, Unpacked.mk.injEq, true_and,
      and_true]
    omega
  constructor
  · intro hgt
    have hb : unpack_caps_body k [2, 3, v] 0 m = (3, m) := by
      unfold unpack_caps_body
      simp only [hu, h8]
      simp [octstr_get_char, WSP_CAPS_CLIENT_SDU_SIZE, WSP_CAPS_SERVER_SDU_SIZE,
        WSP_CAPS_PROTOCOL_OPTIONS, WSP_CAPS_METHOD_MOR, hgt]
    rw [caps_entry_octet, unpack_caps_three k 2 3 v m (by rw [hb]), hb]
  · intro hgt
    have hb : unpack_caps_body k [2, 4, v] 0 m = (3, m) := by
      unfold unpack_caps_body
      simp only [hu', h8']
      simp [octstr_get_char, WSP_CAPS_CLIENT_SDU_SIZE, WSP_CAPS_SERVER_SDU_SIZE,
        WSP_CAPS_PROTOCOL_OPTIONS, WSP_CAPS_METHOD_MOR, WSP_CAPS_PUSH_MOR, hgt]
    rw [caps_entry_octet, unpack_caps_three k 2 4 v m (by rw [hb]), hb]

/-- C8, amended, at the client value 5 against the server maximum 1. -/
theorem unpack_caps_mor_over_max_witness :
    (5 < 256 ∧ 5 > sample_constants.WSP_MAX_METHOD_MOR) ∧
    unpack_caps sample_constants (caps_entry 0x03 [5]) (wsp_machine_create Octstr) =
      wsp_machine_create Octstr :=
  ⟨by decide, (unpack_caps_mor_over_max sample_constants (wsp_machine_create Octstr) 5
    (by decide)).1 (by decide)⟩

theorem and_flag_of_or (a c f : Nat) (h : a &&& f ≠ 0) : (a ||| c) &&& f ≠ 0 := by
  intro h0
  apply h
  apply Nat.eq_of_testBit_eq
  intro i
  have := congrArg (fun x => x.testBit i) h0
  simp only [Nat.testBit_and, Nat.testBit_or, Nat.zero_testBit] at this ⊢
  cases ha : a.testBit i <;> cases hf : f.testBit i <;> simp_all

theorem caps_kept_refl {H : Type} (k : WspConstants) (m : WSPMachine H) : caps_kept k m m :=
  ⟨⟨0, (Nat.or_zero _).symm⟩, fun _ => rfl, fun _ => rfl, fun _ => rfl, fun _ => rfl,
    fun _ => rfl⟩

theorem caps_kept_trans {H : Type} (k : WspConstants) (m r s : WSPMachine H)
    (h1 : caps_kept k m r) (h2 : caps_kept k r s) : caps_kept k m s := by
  obtain ⟨⟨c, hc⟩, a1, a2, a3, a4, a5⟩ := h1
  obtain ⟨⟨d, hd⟩, b1, b2, b3, b4, b5⟩ := h2
  refine ⟨⟨c ||| d, by rw [hd, hc, Nat.or_assoc]⟩, ?_, ?_, ?_, ?_, ?_⟩
  · intro h
    rw [b1 (by rw [hc]; exact and_flag_of_or _ _ _ h), a1 h]
  · intro h
    rw [b2 (by rw [hc]; exact and_flag_of_or _ _ _ h), a2 h]
  · intro h
    rw [b3 (by rw [hc]; exact and_flag_of_or _ _ _ h), a3 h]
  · intro h
    rw [b4 (by rw [hc]; exact and_flag_of_or _ _ _ h), a4 h]
  · intro h
    rw [b5 (by rw [hc]; exact and_flag_of_or _ _ _ h), a5 h]

theorem caps_kept_body {H : Type} (k : WspConstants) (caps : Octstr) (off : Nat)
    (m : WSPMachine H) : caps_kept k m (unpack_caps_body k caps off m).2 := by
  unfold unpack_caps_body
  simp only []
  split_ifs <;>
    first
    | exact caps_kept_refl k m
    | (refine ⟨⟨_, rfl⟩, ?_, ?_, ?_, ?_, ?_⟩ <;> intro h <;> first | rfl | exact absurd ‹_› h)

theorem caps_kept_loop {H : Type} (k : WspConstants) (caps : Octstr) :
    ∀ (fuel off : Nat) (m : WSPMachine H), caps_kept k m (unpack_caps_loop k caps fuel off m) := by
  intro fuel
  induction fuel with
  | zero => intro off m; exact caps_kept_refl k m
  | succ fuel ih =>
    intro off m
    by_cases h : off < octstr_len caps
    · rw [unpack_caps_loop_step k caps fuel off m h]
      exact caps_kept_trans k _ _ _ (caps_kept_body k caps off m) (ih _ _)
    · rw [unpack_caps_loop_done k caps _ off m (by omega)]
      exact caps_kept_refl k m

theorem append_uintvar_append (pdu : Octstr) (n : Int) :
    append_uintvar pdu n = pdu ++ append_uintvar [] n := by
  rw [append_uintvar_eq pdu n, append_uintvar_eq [] n, List.nil_append]

/-- C10, as stated, fails.  A machine that accepted only Client SDU size, with
the value 1204, gets the block `03 01 89 34`: one entry, under the identifier
`0x01` of Server SDU size, and none under `0x00`.  A machine that accepted only
Protocol options gets an empty block. -/
theorem make_connectreply_caps_not_own_identifier :
    make_connectreply_caps sample_constants
        ({ wsp_machine_create Octstr with client_SDU_size := 1204, set_caps := 1 } :
          WSPMachine Octstr) = some [0x03, 0x01, 0x89, 0x34] ∧
    [0x03, 0x01, 0x89, 0x34] = caps_entry 0x01 (append_uintvar [] 1204) ∧
    caps_entry 0x00 (append_uintvar [] 1204) = [0x03, 0x00, 0x89, 0x34] ∧
    make_connectreply_caps sample_constants
        ({ wsp_machine_create Octstr with set_caps := 4 } : WSPMachine Octstr) = some [] := by
  decide

/-! ## ConnectReply PDU -/

theorem make_connectreply_caps_eq {H : Type} (k : WspConstants) (m : WSPMachine H) :
    make_connectreply_caps k m =
      if m.set_caps ≠ 0 then
        some ((if m.set_caps &&& k.WSP_CSDU_SET ≠ 0 then
                caps_entry 0x01 (append_uintvar [] m.client_SDU_size) else []) ++
              ((if m.set_caps &&& k.WSP_SSDU_SET ≠ 0 then
                caps_entry 0x01 (append_uintvar [] m.server_SDU_size) else []) ++
              ((if m.set_caps &&& k.WSP_MMOR_SET ≠ 0 then
                caps_entry 0x03 [(m.MOR_method % 256).toNat] else []) ++
              (if m.set_caps &&& k.WSP_PMOR_SET ≠ 0 then
                caps_entry 0x04 [(m.MOR_push % 256).toNat] else []))))
      else none := by
  have e2 : ∀ c : Octstr, append_uintvar c 2 = c ++ [2] := by
    intro c
    rw [append_uintvar_append]
    rfl
  have e1 : ∀ n : Int, append_uintvar (append_uint8 [] WSP_CAPS_SERVER_SDU_SIZE) n =
      1 :: append_uintvar [] n := by
    intro n
    rw [append_uintvar_append]
    rfl
  have e3 : ∀ c P : Octstr, append_octstr (append_uintvar c ((octstr_len (1 :: P) : Nat) : Int))
      (1 :: P) = c ++ caps_entry 0x01 P := by
    intro c P
    have hl : ((octstr_len (1 :: P) : Nat) : Int) = 1 + (P.length : Int) := by
      simp only [octstr_len, List.length_cons]
      push_cast
      omega
    rw [hl, append_uintvar_append]
    simp [append_octstr, caps_entry]
  have e4 : ∀ (c : Octstr) (v : Int), append_uint8 (append_uint8 (c ++ [2]) WSP_CAPS_METHOD_MOR) v
      = c ++ [2, 3, (v % 256).toNat] := by
    intro c v
    simp [append_uint8, WSP_CAPS_METHOD_MOR]
  have e5 : ∀ (c : Octstr) (v : Int), append_uint8 (append_uint8 (c ++ [2]) WSP_CAPS_PUSH_MOR) v
      = c ++ [2, 4, (v % 256).toNat] := by
    intro c v
    simp [append_uint8, WSP_CAPS_PUSH_MOR]
  unfold make_connectreply_caps
  simp only [ne_eq, e1, e2, e3, e4, e5, caps_entry_octet]
  by_cases h0 : m.set_caps = 0
  · simp [h0]
  · simp only [h0, not_false_eq_true, if_true, Option.some.injEq]
    by_cases hc : m.set_caps &&& k.WSP_CSDU_SET = 0 <;>
    by_cases hs : m.set_caps &&& k.WSP_SSDU_SET = 0 <;>
    by_cases hm : m.set_caps &&& k.WSP_MMOR_SET = 0 <;>
    by_cases hp : m.set_caps &&& k.WSP_PMOR_SET = 0 <;>
    simp only [hc, hs, hm, hp, not_true_eq_false, not_false_eq_true, if_true, if_false,
      List.append_nil, List.nil_append, List.append_assoc]

theorem caps_entry_length_le (id : Nat) (n : Int) :
    (caps_entry id (append_uintvar [] n)).length ≤ 11 := by
  have h1 := (append_uintvar_length_le n).2
  have h2 := (append_uintvar_length_le (1 + ((append_uintvar [] n).length : Int))).2
  simp only [caps_entry, List.length_append, List.length_cons, List.length_nil]
  omega

theorem make_connectreply_caps_length_le {H : Type} (k : WspConstants) (m : WSPMachine H) :
    ((make_connectreply_caps k m).getD []).length ≤ 28 := by
  have hc := caps_entry_length_le 0x01 m.client_SDU_size
  have hs := caps_entry_length_le 0x01 m.server_SDU_size
  rw [make_connectreply_caps_eq]
  split_ifs <;>
    simp only [Option.getD_some, Option.getD_none, List.length_nil, List.length_append,
      caps_entry_octet, List.length_cons] <;>
    omega

/-- C11: for every session machine `m` and session id `s`, in particular every
`s` in `0..2^35 - 1`, `make_connectreply_pdu` gives the octet `0x02`, then the
uintvar of `s`, then the uintvar of `L`, then the uintvar of 0 for the headers
length, then the capability block, which has exactly `L` octets (at most 28);
when `set_caps` is 0, `L` is 0 and there is no block, and a fresh machine with
`s = 1` gives exactly `02 01 00 00`. -/
theorem make_connectreply_pdu_layout {H : Type} (k : WspConstants) (m : WSPMachine H)
    (s : Int) :
    make_connectreply_pdu k m s =
      [0x02] ++ append_uintvar [] s ++
        append_uintvar [] (((make_connectreply_caps k m).getD []).length : Nat) ++
        append_uintvar [] 0 ++ (make_connectreply_caps k m).getD [] ∧
    ((make_connectreply_caps k m).getD []).length ≤ 28 ∧
    (m.set_caps = 0 → make_connectreply_caps k m = none ∧
      make_connectreply_pdu k m s = [0x02] ++ append_uintvar [] s ++ [0x00, 0x00]) ∧
    make_connectreply_pdu k (wsp_machine_create H) 1 = [0x02, 0x01, 0x00, 0x00] := by
  have h0 : append_uintvar [] 0 = [0] := rfl
  have hp : ∀ (c : Option Octstr), (match c with
      | some c1 => append_octstr (append_uintvar (match c with
          | some c2 => append_uintvar (append_uintvar (make_connectionmode_pdu ConnectReply_PDU) s)
              (octstr_len c2 : Nat)
          | none => append_uintvar (append_uintvar (make_connectionmode_pdu ConnectReply_PDU) s) 0)
          0) c1
      | none => append_uintvar (match c with
          | some c2 => append_uintvar (append_uintvar (make_connectionmode_pdu ConnectReply_PDU) s)
              (octstr_len c2 : Nat)
          | none => append_uintvar (append_uintvar (make_connectionmode_pdu ConnectReply_PDU) s) 0)
          0) =
      [0x02] ++ append_uintvar [] s ++ append_uintvar [] ((c.getD []).length : Nat) ++
        append_uintvar [] 0 ++ c.getD [] := by
    intro c
    have hm : make_connectionmode_pdu ConnectReply_PDU = [0x02] := rfl
    cases c with
    | none =>
      simp only [Option.getD_none, List.length_nil, List.append_nil, hm]
      rw [append_uintvar_append _ 0, append_uintvar_append _ 0, append_uintvar_append _ s]
      rfl
    | some c =>
      simp only [Option.getD_some, append_octstr, octstr_len, hm]
      rw [append_uintvar_append _ 0, append_uintvar_append _ (c.length : Int),
        append_uintvar_append _ s]
  have hmain : make_connectreply_pdu k m s =
      [0x02] ++ append_uintvar [] s ++
        append_uintvar [] (((make_connectreply_caps k m).getD []).length : Nat) ++
        append_uintvar [] 0 ++ (make_connectreply_caps k m).getD [] :=
    hp (make_connectreply_caps k m)
  refine ⟨hmain, make_connectreply_caps_length_le k m, ?_, rfl⟩
  intro hz
  have hn : make_connectreply_caps k m = none := by
    simp [make_connectreply_caps, hz]
  refine ⟨hn, ?_⟩
  rw [hmain, hn]
  simp [h0]

/-- C11 on a fresh machine, whose `set_caps` is 0, with the session id 1. -/
theorem make_connectreply_pdu_layout_witness :
    (wsp_machine_create Octstr).set_caps = 0 ∧
    make_connectreply_pdu sample_constants (wsp_machine_create Octstr) 1 =
      [0x02] ++ append_uintvar [] 1 ++ [0x00, 0x00] :=
  ⟨rfl, ((make_connectreply_pdu_layout sample_constants (wsp_machine_create Octstr) 1).2.2.1
    rfl).2⟩

/-! ## Get and Post PDUs -/

theorem to_int_small (u : Nat) (h : u < 2 ^ 31) : to_int u = (u : Int) := by
  unfold to_int
  have h1 : u % 2 ^ 32 = u := by omega
  rw [h1, if_pos h]

theorem long_to_int_small (x : Int) (h0 : 0 ≤ x) (h : x < 2 ^ 31) : long_to_int x = x := by
  unfold long_to_int
  have h1 : x % 4294967296 = x := by omega
  rw [h1, if_pos (by omega)]

theorem unpack_octstr_framed (str pre mid post : Octstr) (h : mid.length < 2 ^ 31) :
    unpack_octstr str (to_int mid.length) (pre ++ (mid ++ post)) (pre.length : Int) =
      ⟨0, mid, ((pre.length + mid.length : Nat) : Int)⟩ := by
  rw [to_int_small _ h]
  unfold unpack_octstr octstr_len octstr_copy
  have h1 : ¬ ((pre.length : Int) + (mid.length : Int) >
      ((pre ++ (mid ++ post)).length : Int)) := by
    simp only [List.length_append]
    push_cast
    omega
  have h2 : ¬ ((pre.length : Int) < 0 ∨ (mid.length : Int) < 0) := by omega
  rw [if_neg h1, if_neg h2]
  simp

/-- C12 at the Get PDU `40 90 80 80 80 00`: the URL length it carries is the
complete uintvar `90 80 80 80 00`, the value `2^32`, and no octet follows it, yet
`unpack_get_pdu` returns 0, with an empty URL and a null header list, because
`unpack_octstr` receives the length as an `int`, which is 0. -/
theorem unpack_get_pdu_long_url_len {H : Type} (unpack_headers : Octstr → H) (url : Octstr)
    (headers : Option H) :
    unpack_uintvar [0x40, 0x90, 0x80, 0x80, 0x80, 0x00] 1 = ⟨0, 2 ^ 32, 6⟩ ∧
    octstr_len [0x40, 0x90, 0x80, 0x80, 0x80, 0x00] = 6 ∧
    to_int (2 ^ 32) = 0 ∧
    unpack_get_pdu unpack_headers url headers [0x40, 0x90, 0x80, 0x80, 0x80, 0x00] =
      ⟨0, [], none⟩ := by
  refine ⟨by decide, rfl, by decide, rfl⟩

theorem unpack_get_pdu_well_formed {H : Type} (unpack_headers : Octstr → H) (url0 : Octstr)
    (headers0 : Option H) (t : Nat) (url rest : Octstr) (h : url.length < 2 ^ 31) :
    unpack_get_pdu unpack_headers url0 headers0
        (t :: (append_uintvar [] (url.length : Int) ++ (url ++ rest))) =
      ⟨0, url, if rest = [] then none else some (unpack_headers rest)⟩ := by
  generalize hA : append_uintvar [] (url.length : Int) = A
  have h1 : unpack_uintvar (t :: (A ++ (url ++ rest))) 1 = ⟨0, url.length, 1 + A.length⟩ := by
    have := unpack_uintvar_framed [t] (url ++ rest) url.length (by omega)
    rw [hA] at this
    exact this
  have h2 : unpack_octstr url0 (to_int url.length) (t :: (A ++ (url ++ rest)))
      ((1 + A.length : Nat) : Int) = ⟨0, url, ((1 + A.length + url.length : Nat) : Int)⟩ := by
    have := unpack_octstr_framed url0 (t :: A) url rest h
    simp only [List.length_cons, List.cons_append] at this
    rw [Nat.add_comm 1 A.length]
    exact this
  unfold unpack_get_pdu
  simp only [h1, h2]
  have hcopy : octstr_copy (t :: (A ++ (url ++ rest))) ((1 + A.length + url.length : Nat) : Int)
      ((octstr_len (t :: (A ++ (url ++ rest))) : Int) - ((1 + A.length + url.length : Nat) : Int))
      = rest := by
    unfold octstr_copy octstr_len
    have hl : (((t :: (A ++ (url ++ rest))).length : Nat) : Int) -
        ((1 + A.length + url.length : Nat) : Int) = (rest.length : Int) := by
      simp only [List.length_cons, List.length_append]
      push_cast
      omega
    rw [hl, if_neg (by omega)]
    have hd : (t :: (A ++ (url ++ rest))).drop (1 + A.length + url.length) = rest := by
      have e : t :: (A ++ (url ++ rest)) = (t :: A ++ url) ++ rest := by simp
      rw [e]
      have e2 : 1 + A.length + url.length = (t :: A ++ url).length := by
        simp only [List.length_cons, List.length_append]
        omega
      rw [e2, List.drop_left]
    rw [Int.toNat_ofNat, Int.toNat_ofNat, hd, List.take_length]
  rw [hcopy]
  have hlen : (octstr_len (t :: (A ++ (url ++ rest))) : Int) =
      ((1 + A.length + url.length : Nat) : Int) + (rest.length : Int) := by
    simp only [octstr_len, List.length_cons, List.length_append]
    push_cast
    omega
  rw [hlen]
  by_cases hr : rest = []
  · subst hr
    simp
  · have hp : 0 < rest.length := List.length_pos.2 hr
    have hlt : ((1 + A.length + url.length : Nat) : Int) <
        ((1 + A.length + url.length : Nat) : Int) + (rest.length : Int) := by omega
    simp [hr, hlt]

theorem unpack_uintvar_at (os pre rest : Octstr) (n off : Nat) (hn : n < 2 ^ 35)
    (hos : os = pre ++ (append_uintvar [] (n : Int) ++ rest)) (hoff : off = pre.length) :
    unpack_uintvar os off = ⟨0, n, off + (append_uintvar [] (n : Int)).length⟩ := by
  subst hos hoff
  exact unpack_uintvar_framed pre rest n hn

theorem unpack_octstr_at (str os pre mid post : Octstr) (n off : Int)
    (hos : os = pre ++ (mid ++ post)) (hoff : off = (pre.length : Int))
    (hn : n = (mid.length : Int)) :
    unpack_octstr str n os off = ⟨0, mid, off + n⟩ := by
  subst hos hoff hn
  unfold unpack_octstr octstr_len octstr_copy
  have h1 : ¬ ((pre.length : Int) + (mid.length : Int) >
      ((pre ++ (mid ++ post)).length : Int)) := by
    simp only [List.length_append]
    push_cast
    omega
  have h2 : ¬ ((pre.length : Int) < 0 ∨ (mid.length : Int) < 0) := by omega
  rw [if_neg h1, if_neg h2]
  simp

theorem octstr_insert_end (ostr1 ostr2 : Octstr) (pos : Nat) (h : pos = ostr1.length) :
    octstr_insert ostr1 ostr2 pos = ostr1 ++ ostr2 := by
  subst h
  simp [octstr_insert]

/-- C13: for every well-formed Post PDU (type octet, uintvar `url_len`, uintvar
`param_len`, `url_len` octets of URL, `param_len` octets of headers, then the
body as all remaining octets) whose offsets fit a C `int`, `unpack_post_pdu`
returns 0, sets the header output to `NULL`, and returns as URL the URL octets,
then the octet `?`, then the body octets; the header block is not in the
result. -/
theorem unpack_post_pdu_well_formed (url0 : Octstr) (headers0 : Option Octstr) (t : Nat)
    (url hdr body : Octstr)
    (h : octstr_len (t :: (append_uintvar [] (url.length : Int) ++
      (append_uintvar [] (hdr.length : Int) ++ (url ++ (hdr ++ body))))) < 2 ^ 31) :
    unpack_post_pdu url0 headers0
        (t :: (append_uintvar [] (url.length : Int) ++
          (append_uintvar [] (hdr.length : Int) ++ (url ++ (hdr ++ body))))) =
      ⟨0, url ++ [0x3F] ++ body, none⟩ := by
  generalize hA : append_uintvar [] (url.length : Int) = A at h ⊢
  generalize hB : append_uintvar [] (hdr.length : Int) = B at h ⊢
  generalize hpdu : t :: (A ++ (B ++ (url ++ (hdr ++ body)))) = pdu at h ⊢
  have hlen : octstr_len pdu =
      1 + A.length + B.length + url.length + hdr.length + body.length := by
    rw [← hpdu]
    simp only [octstr_len, List.length_cons, List.length_append]
    omega
  have h1 : unpack_uintvar pdu 1 = ⟨0, url.length, 1 + A.length⟩ := by
    rw [← hA]
    exact unpack_uintvar_at pdu [t] (B ++ (url ++ (hdr ++ body))) url.length 1 (by omega)
      (by rw [← hpdu, hA]; rfl) rfl
  have h2 : unpack_uintvar pdu (1 + A.length) = ⟨0, hdr.length, 1 + A.length + B.length⟩ := by
    rw [← hB]
    exact unpack_uintvar_at pdu (t :: A) (url ++ (hdr ++ body)) hdr.length (1 + A.length)
      (by omega) (by rw [← hpdu, hB]; simp) (by simp [Nat.add_comm])
  have h3 : unpack_octstr url0 (to_int url.length) pdu ((1 + A.length + B.length : Nat) : Int) =
      ⟨0, url, ((1 + A.length + B.length : Nat) : Int) + to_int url.length⟩ :=
    unpack_octstr_at url0 pdu (t :: A ++ B) url (hdr ++ body) _ _
      (by rw [← hpdu]; simp) (by simp only [List.length_cons, List.length_append]; omega)
      (to_int_small _ (by omega))
  have e3 : ((1 + A.length + B.length : Nat) : Int) + to_int url.length =
      ((1 + A.length + B.length + url.length : Nat) : Int) := by
    rw [to_int_small _ (by omega)]
    push_cast
    rfl
  rw [e3] at h3
  have h4 : unpack_octstr [] (to_int hdr.length) pdu
      ((1 + A.length + B.length + url.length : Nat) : Int) =
      ⟨0, hdr, ((1 + A.length + B.length + url.length : Nat) : Int) + to_int hdr.length⟩ :=
    unpack_octstr_at [] pdu (t :: A ++ B ++ url) hdr body _ _
      (by rw [← hpdu]; simp) (by simp only [List.length_cons, List.length_append]; omega)
      (to_int_small _ (by omega))
  have e4 : ((1 + A.length + B.length + url.length : Nat) : Int) + to_int hdr.length =
      ((1 + A.length + B.length + url.length + hdr.length : Nat) : Int) := by
    rw [to_int_small _ (by omega)]
    push_cast
    rfl
  rw [e4] at h4
  have e5 : long_to_int ((octstr_len pdu : Int) -
      ((1 + A.length + B.length + url.length + hdr.length : Nat) : Int)) = (body.length : Int) := by
    rw [hlen, long_to_int_small] <;> push_cast <;> omega
  have h5 : unpack_octstr [] (body.length : Int) pdu
      ((1 + A.length + B.length + url.length + hdr.length : Nat) : Int) =
      ⟨0, body, ((1 + A.length + B.length + url.length + hdr.length : Nat) : Int) +
        (body.length : Int)⟩ :=
    unpack_octstr_at [] pdu (t :: A ++ B ++ url ++ hdr) body [] _ _
      (by rw [← hpdu]; simp) (by simp only [List.length_cons, List.length_append]; omega) rfl
  unfold unpack_post_pdu
  simp only [h1, h2, h3, h4, e5, h5]
  rw [octstr_insert_end url [0x3F] url.length rfl,
    octstr_insert_end (url ++ [0x3F]) body (octstr_len (url ++ [0x3F])) rfl]
  simp

/-- C13 at the Post PDU `60 04 00 2F 66 6F 6F 61 3D 31`: URL `/foo`, no headers,
body `a=1`. -/
theorem unpack_post_pdu_well_formed_witness :
    octstr_len (0x60 :: (append_uintvar [] (([0x2F, 0x66, 0x6F, 0x6F] : Octstr).length : Int) ++
      (append_uintvar [] (([] : Octstr).length : Int) ++
        ([0x2F, 0x66, 0x6F, 0x6F] ++ ([] ++ [0x61, 0x3D, 0x31]))))) < 2 ^ 31 ∧
    unpack_post_pdu [] none
        (0x60 :: (append_uintvar [] (([0x2F, 0x66, 0x6F, 0x6F] : Octstr).length : Int) ++
          (append_uintvar [] (([] : Octstr).length : Int) ++
            ([0x2F, 0x66, 0x6F, 0x6F] ++ ([] ++ [0x61, 0x3D, 0x31]))))) =
      ⟨0, [0x2F, 0x66, 0x6F, 0x6F] ++ [0x3F] ++ [0x61, 0x3D, 0x31], none⟩ :=
  ⟨by decide, unpack_post_pdu_well_formed [] none 0x60 [0x2F, 0x66, 0x6F, 0x6F] []
    [0x61, 0x3D, 0x31] (by decide)⟩

/-! ## Status conversion, Reply PDU, PDU type -/

/-- C14: `convert_http_status_to_wsp_status` maps 200 to `0x20`, 413 to `0x4D`,
415 to `0x4F` and 500 to `0x60`, and every other HTTP status to `0x60`. -/
theorem convert_http_status_table :
    convert_http_status_to_wsp_status 200 = 0x20 ∧
    convert_http_status_to_wsp_status 413 = 0x4D ∧
    convert_http_status_to_wsp_status 415 = 0x4F ∧
    convert_http_status_to_wsp_status 500 = 0x60 ∧
    ∀ h : Int, h ≠ 200 → h ≠ 413 → h ≠ 415 → h ≠ 500 →
      convert_http_status_to_wsp_status h = 0x60 := by
  refine ⟨rfl, rfl, rfl, rfl, ?_⟩
  intro h h1 h2 h3 h4
  simp [convert_http_status_to_wsp_status, http_status_tab, convert_http_status_loop,
    Ne.symm h1, Ne.symm h2, Ne.symm h3, Ne.symm h4]

/-- C14 at the HTTP status 404. -/
theorem convert_http_status_table_witness :
    (404 : Int) ≠ 200 ∧ (404 : Int) ≠ 413 ∧ (404 : Int) ≠ 415 ∧ (404 : Int) ≠ 500 ∧
    convert_http_status_to_wsp_status 404 = 0x60 :=
  ⟨by decide, by decide, by decide, by decide,
    convert_http_status_table.2.2.2.2 404 (by decide) (by decide) (by decide) (by decide)⟩

theorem convert_http_status_cases (h : Int) :
    convert_http_status_to_wsp_status h = 0x20 ∨ convert_http_status_to_wsp_status h = 0x4D ∨
    convert_http_status_to_wsp_status h = 0x4F ∨ convert_http_status_to_wsp_status h = 0x60 := by
  simp only [convert_http_status_to_wsp_status, http_status_tab, convert_http_status_loop]
  split_ifs <;> simp

theorem lor_80 (t : Int) (h0 : 0 ≤ t) (h1 : t < 0x80) : Int.lor t 0x80 = t + 128 := by
  obtain ⟨n, rfl⟩ := Int.eq_ofNat_of_zero_le h0
  have hn : n < 128 := by omega
  have e : Int.lor (n : Int) 0x80 = ((n ||| 0x80 : Nat) : Int) := rfl
  rw [e, Nat.lor_comm, or_80_eq_add n hn]
  push_cast
  omega

theorem make_reply_pdu_eq (h t : Int) (body : Option Octstr) (h0 : 0 ≤ t) (h1 : t < 0x80) :
    make_reply_pdu h t body =
      some ([0x04, (convert_http_status_to_wsp_status h).toNat, 0x01, (Int.lor t 0x80).toNat]
        ++ body.getD []) := by
  have hs : append_uint8 (make_connectionmode_pdu Reply_PDU) (convert_http_status_to_wsp_status h)
      = [0x04, (convert_http_status_to_wsp_status h).toNat] := by
    rcases convert_http_status_cases h with e | e | e | e <;> rw [e] <;> rfl
  have hl : append_uintvar [0x04, (convert_http_status_to_wsp_status h).toNat] 1 =
      [0x04, (convert_http_status_to_wsp_status h).toNat, 0x01] := by
    rw [append_uintvar_append]
    rfl
  have ht : ∀ p : Octstr, append_uint8 p (Int.lor t 0x80) = p ++ [(Int.lor t 0x80).toNat] := by
    intro p
    rw [lor_80 t h0 h1]
    unfold append_uint8
    congr 2
    omega
  unfold make_reply_pdu
  simp only [hs, hl, ht]
  rw [if_neg (by omega), if_neg (by omega)]
  cases body <;> simp [append_octstr]

/-- C15: for every HTTP status `h`, every content type `t` with `0 ≤ t < 0x80`
and every body, `make_reply_pdu` gives the octets `0x04`, the converted status,
`0x01`, `t | 0x80` (which is `t + 128`), and then the octets of the body,
nothing when the body is `NULL`. -/
theorem make_reply_pdu_layout (h t : Int) (body : Option Octstr) (h0 : 0 ≤ t) (h1 : t < 0x80) :
    make_reply_pdu h t body =
      some ([0x04, (convert_http_status_to_wsp_status h).toNat, 0x01, (Int.lor t 0x80).toNat]
        ++ body.getD []) ∧
    ((convert_http_status_to_wsp_status h).toNat : Int) = convert_http_status_to_wsp_status h ∧
    ((Int.lor t 0x80).toNat : Int) = t + 128 ∧
    make_reply_pdu h t none =
      some [0x04, (convert_http_status_to_wsp_status h).toNat, 0x01, (Int.lor t 0x80).toNat] := by
  refine ⟨make_reply_pdu_eq h t body h0 h1, ?_, ?_, ?_⟩
  · rcases convert_http_status_cases h with e | e | e | e <;> rw [e] <;> rfl
  · rw [lor_80 t h0 h1]
    omega
  · rw [make_reply_pdu_eq h t none h0 h1]
    simp

/-- C15 at the status 200, the content type 2 and the body `X`. -/
theorem make_reply_pdu_layout_witness :
    (0 : Int) ≤ 2 ∧ (2 : Int) < 0x80 ∧
    make_reply_pdu 200 2 (some [0x58]) =
      some ([0x04, (convert_http_status_to_wsp_status 200).toNat, 0x01, (Int.lor 2 0x80).toNat]
        ++ (some [0x58] : Option Octstr).getD []) :=
  ⟨by decide, by decide, (make_reply_pdu_layout 200 2 (some [0x58]) (by decide) (by decide)).1⟩

theorem wsp_deduce_pdu_type_at (pdu : Octstr) (connectionless : Int) (off : Nat)
    (hoff : off = if connectionless = 0 then 0 else 1) (ho : is_octets pdu) :
    wsp_deduce_pdu_type pdu connectionless =
      match pdu[off]? with
      | some o => (o : Int)
      | none => -1 := by
  have hoff2 : (if connectionless ≠ 0 then 1 else 0) = off := by
    by_cases hc : connectionless = 0 <;> simp [hc, hoff]
  unfold wsp_deduce_pdu_type
  simp only [hoff2]
  by_cases hlt : off < pdu.length
  · have hb : pdu[off] < 256 := ho _ (List.getElem_mem _)
    have e : pdu[off] % 2 ^ 64 = pdu[off] := by omega
    rw [unpack_uint8_lt 0 pdu off hlt, List.getElem?_eq_getElem hlt, e]
    simp only []
    rw [if_neg (by decide)]
    exact to_int_small _ (by omega)
  · rw [unpack_uint8_ge 0 pdu off (by omega), List.getElem?_eq_none (by omega)]
    simp only []
    rw [if_pos trivial]
    decide

/-- C16: for every octet string `pdu` and flag `connectionless`,
`wsp_deduce_pdu_type` returns the value of the octet at offset 0 when the flag
is 0 and at offset 1 otherwise, and returns `Bad_PDU`, which is -1, exactly when
that offset is not inside `pdu`, as on the empty octet string. -/
theorem wsp_deduce_pdu_type_octet (pdu : Octstr) (connectionless : Int) (ho : is_octets pdu) :
    (∀ o : Nat, pdu[(if connectionless = 0 then 0 else 1 : Nat)]? = some o →
      wsp_deduce_pdu_type pdu connectionless = (o : Int)) ∧
    (wsp_deduce_pdu_type pdu connectionless = Bad_PDU ↔
      octstr_len pdu ≤ (if connectionless = 0 then 0 else 1 : Nat)) ∧
    wsp_deduce_pdu_type [] connectionless = Bad_PDU := by
  have h := wsp_deduce_pdu_type_at pdu connectionless _ rfl ho
  have hnil := wsp_deduce_pdu_type_at [] connectionless _ rfl (by decide)
  generalize (if connectionless = 0 then 0 else 1 : Nat) = off at h hnil ⊢
  refine ⟨?_, ?_, ?_⟩
  · intro o ho2
    rw [h, ho2]
  · rw [h]
    unfold octstr_len Bad_PDU
    by_cases hlt : off < pdu.length
    · rw [List.getElem?_eq_getElem hlt]
      constructor
      · intro hx
        have hx2 : (pdu[off] : Int) = -1 := hx
        omega
      · intro hx
        omega
    · rw [List.getElem?_eq_none (by omega)]
      constructor
      · intro _
        omega
      · intro _
        rfl
  · rw [hnil]
    rfl

/-- C16 on the octet string `40 60`, read connectionless. -/
theorem wsp_deduce_pdu_type_octet_witness :
    is_octets [0x40, 0x60] ∧ wsp_deduce_pdu_type [0x40, 0x60] 1 = 0x60 :=
  ⟨by decide, (wsp_deduce_pdu_type_octet [0x40, 0x60] 1 (by decide)).1 0x60 rfl⟩

/-! ## The scenarios of the specification -/

/-- C17, as stated, fails: in the Connect PDU `01 10 04 02 00 04 B4 00` the
capability length is 4 and the headers length is 2, the four octets
`00 04 B4 00` are the capability block and no octet is left for the headers, so
`unpack_connect_pdu` returns -1 and the fresh machine keeps its
`client_SDU_size` of 1400. -/
theorem unpack_connect_pdu_scenario_two_fails :
    unpack_uintvar [0x01, 0x10, 0x04, 0x02, 0x00, 0x04, 0xB4, 0x00] 2 = ⟨0, 4, 3⟩ ∧
    unpack_uintvar [0x01, 0x10, 0x04, 0x02, 0x00, 0x04, 0xB4, 0x00] 3 = ⟨0, 2, 4⟩ ∧
    unpack_connect_pdu sample_constants (fun x => x) (fun x => x) (wsp_machine_create Octstr)
      [0x01, 0x10, 0x04, 0x02, 0x00, 0x04, 0xB4, 0x00] = (-1, wsp_machine_create Octstr) ∧
    (wsp_machine_create Octstr).client_SDU_size = 1400 := by
  decide

/-- C17, amended: for a freshly created machine, `unpack_connect_pdu` refuses
the Connect PDU `01 10 04 02 00 04 B4 00` with -1 and leaves the machine as it
was; on the Connect PDU `01 10 04 00 03 00 89 34` (capability length 4, headers
length 0, the entry Client SDU size with the uintvar `89 34`, which is 1204) it
returns 0 and leaves `client_SDU_size = 1204`, and the capability block of the
ConnectReply built from that machine starts with the entry `03 01 89 34`, of
identifier `0x01` and value 1204.  The server maximum must admit 1204 and the
client-SDU flag must not be zero. -/
theorem unpack_connect_pdu_scenario_two {H : Type} (k : WspConstants)
    (unpack_headers : Octstr → H) (header_pack : H → H)
    (hmax : k.WSP_MAX_CLIENT_SDU = 0 ∨ 1204 ≤ k.WSP_MAX_CLIENT_SDU)
    (hflag : k.WSP_CSDU_SET ≠ 0) :
    unpack_connect_pdu k unpack_headers header_pack (wsp_machine_create H)
      [0x01, 0x10, 0x04, 0x02, 0x00, 0x04, 0xB4, 0x00] = (-1, wsp_machine_create H) ∧
    unpack_connect_pdu k unpack_headers header_pack (wsp_machine_create H)
      [0x01, 0x10, 0x04, 0x00, 0x03, 0x00, 0x89, 0x34] =
      (0, { wsp_machine_create H with client_SDU_size := 1204,
                                      set_caps := 0 ||| k.WSP_CSDU_SET }) ∧
    (∃ rest, make_connectreply_caps k
        ({ wsp_machine_create H with client_SDU_size := 1204,
                                     set_caps := 0 ||| k.WSP_CSDU_SET } : WSPMachine H) =
      some ([0x03, 0x01, 0x89, 0x34] ++ rest)) ∧
    caps_entry 0x01 (append_uintvar [] 1204) = [0x03, 0x01, 0x89, 0x34] := by
  have hentry : caps_entry 0x00 (append_uintvar [] ((1204 : Nat) : Int)) =
      [0x03, 0x00, 0x89, 0x34] := by decide
  have hbody := unpack_caps_body_client_sdu k (wsp_machine_create H) 1204 (by norm_num)
  have hcaps : unpack_caps k [0x03, 0x00, 0x89, 0x34] (wsp_machine_create H) =
      { wsp_machine_create H with client_SDU_size := 1204,
                                  set_caps := 0 ||| k.WSP_CSDU_SET } := by
    have hs := unpack_caps_single k (caps_entry 0x00 (append_uintvar [] ((1204 : Nat) : Int)))
      (wsp_machine_create H) (by rw [hentry]; decide) (by rw [hbody])
    rw [hbody, hentry] at hs
    rw [hs]
    have hn : ¬ (k.WSP_MAX_CLIENT_SDU ≠ 0 ∧ 1204 > k.WSP_MAX_CLIENT_SDU) := by omega
    have hz : (wsp_machine_create H).set_caps &&& k.WSP_CSDU_SET = 0 := by
      simp [wsp_machine_create]
    simp only [if_neg hn, if_pos hz]
    rfl
  refine ⟨rfl, ?_, ?_, by decide⟩
  · have hv : unpack_uint8 0 [0x01, 0x10, 0x04, 0x00, 0x03, 0x00, 0x89, 0x34] 1 = ⟨0, 0x10, 2⟩ := by
      decide
    have hc : unpack_uintvar [0x01, 0x10, 0x04, 0x00, 0x03, 0x00, 0x89, 0x34] 2 = ⟨0, 4, 3⟩ := by
      decide
    have hh : unpack_uintvar [0x01, 0x10, 0x04, 0x00, 0x03, 0x00, 0x89, 0x34] 3 = ⟨0, 0, 4⟩ := by
      decide
    have ho1 : unpack_octstr [] (to_int 4) [0x01, 0x10, 0x04, 0x00, 0x03, 0x00, 0x89, 0x34]
        ((4 : Nat) : Int) = ⟨0, [0x03, 0x00, 0x89, 0x34], 8⟩ := by decide
    have ho2 : unpack_octstr [] (to_int 0) [0x01, 0x10, 0x04, 0x00, 0x03, 0x00, 0x89, 0x34] 8 =
        ⟨0, [], 8⟩ := by decide
    unfold unpack_connect_pdu
    simp only [hv, hc, hh, ho1, ho2, hcaps]
    simp
  · have h := make_connectreply_caps_eq k
      ({ wsp_machine_create H with client_SDU_size := 1204,
                                   set_caps := 0 ||| k.WSP_CSDU_SET } : WSPMachine H)
    have hset : (0 ||| k.WSP_CSDU_SET) = k.WSP_CSDU_SET := Nat.zero_or _
    have hand : k.WSP_CSDU_SET &&& k.WSP_CSDU_SET = k.WSP_CSDU_SET := Nat.and_self _
    simp only [hset, hand, ne_eq, hflag, not_false_eq_true, if_true] at h
    have he : caps_entry 0x01 (append_uintvar [] 1204) = [0x03, 0x01, 0x89, 0x34] := by decide
    rw [he] at h
    simp only [hset]
    exact ⟨_, h⟩

/-- C17, amended, with no limit on the client SDU size and the flag 1. -/
theorem unpack_connect_pdu_scenario_two_witness :
    (sample_constants.WSP_MAX_CLIENT_SDU = 0 ∨ 1204 ≤ sample_constants.WSP_MAX_CLIENT_SDU) ∧
    sample_constants.WSP_CSDU_SET ≠ 0 ∧
    unpack_connect_pdu sample_constants (fun x => x) (fun x => x) (wsp_machine_create Octstr)
      [0x01, 0x10, 0x04, 0x00, 0x03, 0x00, 0x89, 0x34] =
      (0, { wsp_machine_create Octstr with client_SDU_size := 1204,
                                           set_caps := 0 ||| sample_constants.WSP_CSDU_SET }) :=
  ⟨by decide, by decide, (unpack_connect_pdu_scenario_two sample_constants (fun x => x)
    (fun x => x) (by decide) (by decide)).2.1⟩

/-- C18, as stated, fails: in the Get PDU `40 0B 68 74 74 70 3A 2F 2F 61 2F 62`
the URL length is `0x0B`, 11, and only the ten octets of `http://a/b` follow, so
`unpack_get_pdu` returns -1. -/
theorem unpack_get_pdu_scenario_four_fails :
    unpack_uintvar [0x40, 0x0B, 0x68, 0x74, 0x74, 0x70, 0x3A, 0x2F, 0x2F, 0x61, 0x2F, 0x62] 1 =
      ⟨0, 11, 2⟩ ∧
    octstr_len [0x40, 0x0B, 0x68, 0x74, 0x74, 0x70, 0x3A, 0x2F, 0x2F, 0x61, 0x2F, 0x62] = 12 ∧
    unpack_get_pdu (fun x : Octstr => x) [] none
      [0x40, 0x0B, 0x68, 0x74, 0x74, 0x70, 0x3A, 0x2F, 0x2F, 0x61, 0x2F, 0x62] =
      ⟨-1, [], none⟩ := by
  decide

/-- C18, amended: `unpack_get_pdu` returns -1 on the Get PDU
`40 0B 68 74 74 70 3A 2F 2F 61 2F 62`, leaving its outputs as they were; on
`40 0A 68 74 74 70 3A 2F 2F 61 2F 62`, with the URL length 10, it returns 0 with
the URL equal to the ten octets of `http://a/b` and a null header list; and the
Reply that `make_reply_pdu` builds for the HTTP status 200, a content type `t`
with `0 ≤ t < 0x80` and the body `X` is `04 20 01`, `t + 128`, `58`. -/
theorem unpack_get_pdu_scenario_four {H : Type} (unpack_headers : Octstr → H) (url0 : Octstr)
    (headers0 : Option H) (t : Int) (h0 : 0 ≤ t) (h1 : t < 0x80) :
    unpack_get_pdu unpack_headers url0 headers0
      [0x40, 0x0B, 0x68, 0x74, 0x74, 0x70, 0x3A, 0x2F, 0x2F, 0x61, 0x2F, 0x62] =
      ⟨-1, url0, headers0⟩ ∧
    unpack_get_pdu unpack_headers url0 headers0
      [0x40, 0x0A, 0x68, 0x74, 0x74, 0x70, 0x3A, 0x2F, 0x2F, 0x61, 0x2F, 0x62] =
      ⟨0, [0x68, 0x74, 0x74, 0x70, 0x3A, 0x2F, 0x2F, 0x61, 0x2F, 0x62], none⟩ ∧
    make_reply_pdu 200 t (some [0x58]) = some [0x04, 0x20, 0x01, (t + 128).toNat, 0x58] := by
  refine ⟨rfl, rfl, ?_⟩
  rw [make_reply_pdu_eq 200 t (some [0x58]) h0 h1, lor_80 t h0 h1]
  rfl

/-- C18, amended, with the content type 2. -/
theorem unpack_get_pdu_scenario_four_witness :
    (0 : Int) ≤ 2 ∧ (2 : Int) < 0x80 ∧
    make_reply_pdu 200 2 (some [0x58]) = some [0x04, 0x20, 0x01, ((2 : Int) + 128).toNat, 0x58] :=
  ⟨by decide, by decide, (unpack_get_pdu_scenario_four (fun x : Octstr => x) [] none 2
    (by decide) (by decide)).2.2⟩

/-- C19, as stated, fails: in the Post PDU `60 05 03 2F 66 6F 6F 61 3D 31` the
URL length is 5 and the headers length is 3; the URL takes `2F 66 6F 6F 61` and
two octets are left for the headers, so `unpack_post_pdu` returns -1. -/
theorem unpack_post_pdu_scenario_five_fails :
    unpack_uintvar [0x60, 0x05, 0x03, 0x2F, 0x66, 0x6F, 0x6F, 0x61, 0x3D, 0x31] 1 = ⟨0, 5, 2⟩ ∧
    unpack_uintvar [0x60, 0x05, 0x03, 0x2F, 0x66, 0x6F, 0x6F, 0x61, 0x3D, 0x31] 2 = ⟨0, 3, 3⟩ ∧
    unpack_post_pdu [] none [0x60, 0x05, 0x03, 0x2F, 0x66, 0x6F, 0x6F, 0x61, 0x3D, 0x31] =
      ⟨-1, [0x2F, 0x66, 0x6F, 0x6F, 0x61], none⟩ := by
  decide

/-- C19, amended: `unpack_post_pdu` returns -1 on the Post PDU
`60 05 03 2F 66 6F 6F 61 3D 31`, having taken `2F 66 6F 6F 61` as the URL; on
`60 04 00 2F 66 6F 6F 61 3D 31`, with the URL length 4 and no headers, it
returns 0 and yields the request URL `/foo?a=1`, the octets
`2F 66 6F 6F 3F 61 3D 31`. -/
theorem unpack_post_pdu_scenario_five (url0 : Octstr) (headers0 : Option Octstr) :
    unpack_post_pdu url0 headers0 [0x60, 0x05, 0x03, 0x2F, 0x66, 0x6F, 0x6F, 0x61, 0x3D, 0x31] =
      ⟨-1, [0x2F, 0x66, 0x6F, 0x6F, 0x61], headers0⟩ ∧
    unpack_post_pdu url0 headers0 [0x60, 0x04, 0x00, 0x2F, 0x66, 0x6F, 0x6F, 0x61, 0x3D, 0x31] =
      ⟨0, [0x2F, 0x66, 0x6F, 0x6F, 0x3F, 0x61, 0x3D, 0x31], none⟩ :=
  ⟨rfl, rfl⟩

/-! ## DLR store -/

theorem dlr_mem_flush_loop_length :
    ∀ (n i : Nat) (list : List dlr_entry),
      (dlr_mem_flush_loop n i list).length =
        list.length - (if n ≤ (list.length - i + 1) / 2 then n else (list.length - i + 1) / 2) := by
  intro n
  induction n with
  | zero =>
    intro i list
    simp [dlr_mem_flush_loop]
  | succ n ih =>
    intro i list
    rw [dlr_mem_flush_loop, ih]
    unfold list_delete
    by_cases h : i + 1 ≤ list.length
    · rw [if_pos h]
      have hl : (list.take i ++ list.drop (i + 1)).length = list.length - 1 := by
        simp only [List.length_append, List.length_take, List.length_drop]
        omega
      rw [hl]
      split_ifs <;> omega
    · rw [if_neg h]
      split_ifs <;> omega

/-- C20 on a store of two entries: the pass for `i = 0` deletes the first
entry, the pass for `i = 1` asks for position 1 of a list of one item and
deletes nothing, and `dlr_mem_messages` returns 1 after `dlr_mem_flush`.  On
every store the loop leaves half of the entries, rounded down. -/
theorem dlr_mem_flush_leaves_entries :
    dlr_mem_flush
        [sample_dlr_entry [0x41] [0x31] [0x44], sample_dlr_entry [0x41] [0x32] [0x44]] =
      [sample_dlr_entry [0x41] [0x32] [0x44]] ∧
    dlr_mem_messages (dlr_mem_flush
      [sample_dlr_entry [0x41] [0x31] [0x44], sample_dlr_entry [0x41] [0x32] [0x44]]) = 1 ∧
    ∀ store : List dlr_entry,
      dlr_mem_messages (dlr_mem_flush store) = ((store.length / 2 : Nat) : Int) := by
  refine ⟨by decide, by decide, ?_⟩
  intro store
  unfold dlr_mem_messages dlr_mem_flush list_len
  rw [dlr_mem_flush_loop_length]
  congr 1
  split_ifs <;> omega

/-! ## DLR store: lookup and removal -/

theorem octstr_compare_eq_zero (os1 os2 : Octstr) : octstr_compare os1 os2 = 0 ↔ os1 = os2 := by
  unfold octstr_compare
  split_ifs <;> simp [*]

theorem dlr_mem_entry_match_eq_zero (dlr : dlr_entry) (smsc ts dst : Octstr) :
    dlr_mem_entry_match dlr smsc ts dst = 0 ↔ dlr.smsc = smsc ∧ dlr.timestamp = ts := by
  unfold dlr_mem_entry_match
  split_ifs with h
  · simpa [octstr_compare_eq_zero] using h
  · simpa [octstr_compare_eq_zero] using h

theorem dlr_mem_get_loop_eq_find (list : List dlr_entry) (smsc ts dst : Octstr) :
    ∀ (n i : Nat), i + n = list.length →
      dlr_mem_get_loop list smsc ts dst n i =
        (list.drop i).find? (fun d => decide (d.smsc = smsc ∧ d.timestamp = ts)) := by
  intro n
  induction n with
  | zero =>
    intro i h
    have hd : list.drop i = [] := List.drop_eq_nil_of_le (by omega)
    simp [dlr_mem_get_loop, hd]
  | succ n ih =>
    intro i h
    have hlt : i < list.length := by omega
    have hd : list.drop i = list[i] :: list.drop (i + 1) := List.drop_eq_getElem_cons hlt
    have hg : list_get list i = some list[i] := by
      simp [list_get, List.getElem?_eq_getElem hlt]
    rw [dlr_mem_get_loop, hg, hd, List.find?_cons]
    simp only []
    by_cases hm : list[i].smsc = smsc ∧ list[i].timestamp = ts
    · have h0 := (dlr_mem_entry_match_eq_zero list[i] smsc ts dst).2 hm
      simp [h0, hm, dlr_entry_duplicate]
    · have h0 : ¬ dlr_mem_entry_match list[i] smsc ts dst = 0 := fun hh =>
        hm ((dlr_mem_entry_match_eq_zero list[i] smsc ts dst).1 hh)
      rw [if_neg h0, ih (i + 1) (by omega)]
      simp [hm]

theorem dlr_mem_get_eq_find (store : List dlr_entry) (smsc ts dst : Octstr) :
    (dlr_mem_get store smsc ts dst).1 =
      store.find? (fun d => decide (d.smsc = smsc ∧ d.timestamp = ts)) := by
  unfold dlr_mem_get list_len
  simp only []
  rw [dlr_mem_get_loop_eq_find store smsc ts dst store.length 0 (by omega), List.drop_zero]

/-- C21: for every store and every `smsc`, `ts` and `dst`, `dlr_mem_get` leaves
the store as it is, gives a result that does not depend on `dst`, returns a copy
of the entry `e` exactly when `e` has this `smsc` and this timestamp and stands
in the store behind entries that do not match, and returns `NULL` exactly when
no entry matches.  After adding `(A,T1,D1)` and `(A,T2,D1)`, the lookup of
`(A,T1)` returns the first entry and the lookup of `(A,T3)` returns `NULL`. -/
theorem dlr_mem_get_first_match (store : List dlr_entry) (smsc ts dst : Octstr) :
    (dlr_mem_get store smsc ts dst).2 = store ∧
    (∀ dst2, (dlr_mem_get store smsc ts dst2).1 = (dlr_mem_get store smsc ts dst).1) ∧
    (∀ e, (dlr_mem_get store smsc ts dst).1 = some e ↔
      (e.smsc = smsc ∧ e.timestamp = ts) ∧
        ∃ pre post, store = pre ++ e :: post ∧
          ∀ d ∈ pre, ¬ (d.smsc = smsc ∧ d.timestamp = ts)) ∧
    ((dlr_mem_get store smsc ts dst).1 = none ↔
      ∀ d ∈ store, ¬ (d.smsc = smsc ∧ d.timestamp = ts)) ∧
    (dlr_mem_get (dlr_mem_add (dlr_mem_add [] (sample_dlr_entry [0x41] [0x54, 0x31] [0x44, 0x31]))
        (sample_dlr_entry [0x41] [0x54, 0x32] [0x44, 0x31])) [0x41] [0x54, 0x31] dst).1 =
      some (sample_dlr_entry [0x41] [0x54, 0x31] [0x44, 0x31]) ∧
    (dlr_mem_get (dlr_mem_add (dlr_mem_add [] (sample_dlr_entry [0x41] [0x54, 0x31] [0x44, 0x31]))
        (sample_dlr_entry [0x41] [0x54, 0x32] [0x44, 0x31])) [0x41] [0x54, 0x33] dst).1 =
      none := by
  refine ⟨rfl, ?_, ?_, ?_, ?_, ?_⟩
  · intro dst2
    rw [dlr_mem_get_eq_find, dlr_mem_get_eq_find]
  · intro e
    rw [dlr_mem_get_eq_find, List.find?_eq_some]
    simp only [decide_eq_true_eq, Bool.not_eq_true', decide_eq_false_iff_not]
  · rw [dlr_mem_get_eq_find, List.find?_eq_none]
    simp
  · rw [dlr_mem_get_eq_find]
    decide
  · rw [dlr_mem_get_eq_find]
    decide

theorem dlr_mem_remove_loop_eq_erase (smsc ts dst : Octstr) (list : List dlr_entry) :
    ∀ (n i : Nat), i + n = list.length →
      dlr_mem_remove_loop smsc ts dst n i list =
        list.take i ++
          (list.drop i).eraseP (fun d => decide (d.smsc = smsc ∧ d.timestamp = ts)) := by
  intro n
  induction n with
  | zero =>
    intro i h
    have hd : list.drop i = [] := List.drop_eq_nil_of_le (by omega)
    have ht : list.take i = list := List.take_of_length_le (by omega)
    simp [dlr_mem_remove_loop, hd, ht]
  | succ n ih =>
    intro i h
    have hlt : i < list.length := by omega
    have hd : list.drop i = list[i] :: list.drop (i + 1) := List.drop_eq_getElem_cons hlt
    have hg : list_get list i = some list[i] := by
      simp [list_get, List.getElem?_eq_getElem hlt]
    rw [dlr_mem_remove_loop, hg, hd, List.eraseP_cons]
    simp only []
    by_cases hm : list[i].smsc = smsc ∧ list[i].timestamp = ts
    · have h0 := (dlr_mem_entry_match_eq_zero list[i] smsc ts dst).2 hm
      have hdel : list_delete list i 1 = list.take i ++ list.drop (i + 1) := by
        unfold list_delete
        rw [if_pos (by omega)]
      rw [if_pos h0, hdel, decide_eq_true hm, cond_true]
    · have h0 : ¬ dlr_mem_entry_match list[i] smsc ts dst = 0 := fun hh =>
        hm ((dlr_mem_entry_match_eq_zero list[i] smsc ts dst).1 hh)
      rw [if_neg h0, ih (i + 1) (by omega)]
      have ht : list.take (i + 1) = list.take i ++ [list[i]] := by
        rw [List.take_succ, List.getElem?_eq_getElem hlt]
        rfl
      rw [decide_eq_false hm, cond_false, ht, List.append_assoc, List.singleton_append]

theorem dlr_mem_remove_eq_erase (store : List dlr_entry) (smsc ts dst : Octstr) :
    dlr_mem_remove store smsc ts dst =
      store.eraseP (fun d => decide (d.smsc = smsc ∧ d.timestamp = ts)) := by
  unfold dlr_mem_remove list_len
  rw [dlr_mem_remove_loop_eq_erase smsc ts dst store store.length 0 (by omega)]
  simp

/-- C22: for every store and every `smsc`, `ts` and `dst`, `dlr_mem_remove`
deletes the first entry whose `smsc` and timestamp match and keeps all other
entries in their order, the count dropping by one, and leaves the store as it
is when no entry matches.  After adding `(A,T1,D1)` and `(A,T2,D1)`, removing
`(A,T1)` leaves the one entry `(A,T2,D1)`. -/
theorem dlr_mem_remove_first_match (store : List dlr_entry) (smsc ts dst : Octstr) :
    (∀ pre e post, store = pre ++ e :: post → (e.smsc = smsc ∧ e.timestamp = ts) →
      (∀ d ∈ pre, ¬ (d.smsc = smsc ∧ d.timestamp = ts)) →
      dlr_mem_remove store smsc ts dst = pre ++ post ∧
        list_len (dlr_mem_remove store smsc ts dst) + 1 = list_len store) ∧
    ((∀ d ∈ store, ¬ (d.smsc = smsc ∧ d.timestamp = ts)) →
      dlr_mem_remove store smsc ts dst = store) ∧
    dlr_mem_remove (dlr_mem_add (dlr_mem_add [] (sample_dlr_entry [0x41] [0x54, 0x31] [0x44, 0x31]))
        (sample_dlr_entry [0x41] [0x54, 0x32] [0x44, 0x31])) [0x41] [0x54, 0x31] dst =
      [sample_dlr_entry [0x41] [0x54, 0x32] [0x44, 0x31]] := by
  refine ⟨?_, ?_, ?_⟩
  · intro pre e post hs hm hpre
    have he : dlr_mem_remove store smsc ts dst = pre ++ post := by
      rw [dlr_mem_remove_eq_erase, hs, List.eraseP_append_right _ (by simpa using hpre),
        List.eraseP_cons]
      simp [hm]
    refine ⟨he, ?_⟩
    rw [he, hs]
    simp only [list_len, List.length_append, List.length_cons]
    omega
  · intro hn
    rw [dlr_mem_remove_eq_erase]
    exact List.eraseP_of_forall_not (by simpa using hn)
  · rw [dlr_mem_remove_eq_erase]
    decide

/-- C22 on the store of the two entries `(A,T1,D1)` and `(A,T2,D1)`. -/
theorem dlr_mem_remove_first_match_witness :
    ([sample_dlr_entry [0x41] [0x54, 0x31] [0x44, 0x31],
        sample_dlr_entry [0x41] [0x54, 0x32] [0x44, 0x31]] : List dlr_entry) =
      [] ++ sample_dlr_entry [0x41] [0x54, 0x31] [0x44, 0x31] ::
        [sample_dlr_entry [0x41] [0x54, 0x32] [0x44, 0x31]] ∧
    dlr_mem_remove [sample_dlr_entry [0x41] [0x54, 0x31] [0x44, 0x31],
        sample_dlr_entry [0x41] [0x54, 0x32] [0x44, 0x31]] [0x41] [0x54, 0x31] [0x44, 0x31] =
      [] ++ [sample_dlr_entry [0x41] [0x54, 0x32] [0x44, 0x31]] :=
  ⟨rfl, ((dlr_mem_remove_first_match _ [0x41] [0x54, 0x31] [0x44, 0x31]).1 []
    (sample_dlr_entry [0x41] [0x54, 0x31] [0x44, 0x31])
    [sample_dlr_entry [0x41] [0x54, 0x32] [0x44, 0x31]] rfl (by decide)
    (by intro d hd; cases hd)).1⟩

/-! ## Termination of `unpack_caps` -/

theorem unpack_caps_pass_fixed {H : Type} (k : WspConstants) (caps : Octstr) (n off : Nat)
    (m : WSPMachine H) (h : octstr_len caps ≤ off) :
    (unpack_caps_pass k caps)^[n] (off, m) = (off, m) := by
  apply Function.iterate_fixed
  unfold unpack_caps_pass
  rw [if_neg (by simp only []; omega)]

theorem unpack_caps_loop_eq_iterate {H : Type} (k : WspConstants) (caps : Octstr) :
    ∀ (fuel off : Nat) (m : WSPMachine H),
      unpack_caps_loop k caps fuel off m = ((unpack_caps_pass k caps)^[fuel] (off, m)).2 := by
  intro fuel
  induction fuel with
  | zero => intro off m; rfl
  | succ fuel ih =>
    intro off m
    rw [Function.iterate_succ_apply]
    by_cases h : off < octstr_len caps
    · rw [unpack_caps_loop_step k caps fuel off m h, ih]
      have hp : unpack_caps_pass k caps (off, m) = unpack_caps_body k caps off m := by
        unfold unpack_caps_pass
        rw [if_pos h]
      rw [hp]
    · rw [unpack_caps_loop_done k caps _ off m (by omega)]
      have hp : unpack_caps_pass k caps (off, m) = (off, m) := by
        unfold unpack_caps_pass
        rw [if_neg h]
      rw [hp, unpack_caps_pass_fixed k caps fuel off m (by omega)]

theorem unpack_caps_pass_progress {H : Type} (k : WspConstants) (caps : Octstr) :
    ∀ (n off : Nat) (m : WSPMachine H),
      octstr_len caps ≤ off + n → octstr_len caps ≤ ((unpack_caps_pass k caps)^[n] (off, m)).1 := by
  intro n
  induction n with
  | zero => intro off m h; simpa using h
  | succ n ih =>
    intro off m h
    rw [Function.iterate_succ_apply]
    by_cases hlt : off < octstr_len caps
    · have hp : unpack_caps_pass k caps (off, m) = unpack_caps_body k caps off m := by
        unfold unpack_caps_pass
        rw [if_pos hlt]
      have ha := unpack_caps_body_advances k caps off m
      rw [hp]
      exact ih (unpack_caps_body k caps off m).1 (unpack_caps_body k caps off m).2 (by omega)
    · have hp : unpack_caps_pass k caps (off, m) = (off, m) := by
        unfold unpack_caps_pass
        rw [if_neg hlt]
      rw [hp]
      exact ih off m (by omega)

/-- C27: `unpack_caps` terminates on every capability octet string.  Every pass
of the loop ends at a larger offset than it started from; after at most as many
passes as the block has octets the offset has reached the length of the block,
where the loop exits, and `unpack_caps` returns the machine of that moment; and
a call of `unpack_uintvar` on the block never moves the offset beyond its end. -/
theorem unpack_caps_terminates {H : Type} (k : WspConstants) (caps : Octstr)
    (m : WSPMachine H) :
    (∀ (off : Nat) (m1 : WSPMachine H), off < (unpack_caps_body k caps off m1).1) ∧
    octstr_len caps ≤ ((unpack_caps_pass k caps)^[octstr_len caps] (0, m)).1 ∧
    unpack_caps k caps m = ((unpack_caps_pass k caps)^[octstr_len caps] (0, m)).2 ∧
    (∀ (off fuel : Nat) (m1 : WSPMachine H), octstr_len caps ≤ off →
      unpack_caps_loop k caps fuel off m1 = m1) ∧
    (∀ more, unpack_caps_loop k caps (octstr_len caps + more) 0 m = unpack_caps k caps m) ∧
    (∀ off, off ≤ (unpack_uintvar caps off).off ∧
      (unpack_uintvar caps off).off ≤ max off (octstr_len caps)) := by
  refine ⟨unpack_caps_body_advances k caps, unpack_caps_pass_progress k caps _ 0 m (by omega),
    unpack_caps_loop_eq_iterate k caps _ 0 m, ?_, ?_, ?_⟩
  · intro off fuel m1 h
    exact unpack_caps_loop_done k caps fuel off m1 h
  · intro more
    exact unpack_caps_loop_fuel k caps (octstr_len caps) 0 m (by omega) more
  · intro off
    obtain ⟨h1, h2, _⟩ := uintvar_scan_spec (caps.drop off) 0 off
    rw [unpack_uintvar_eq_scan]
    refine ⟨h1, ?_⟩
    rw [List.length_drop] at h2
    unfold octstr_len
    rw [Nat.max_def]
    split <;> omega

/-- C27 on the block `85`, a truncated uintvar: one pass, which ends at offset
2, beyond the single octet. -/
theorem unpack_caps_terminates_witness :
    octstr_len [0x85] ≤ 1 ∧
    unpack_caps_loop sample_constants [0x85] 7 1 (wsp_machine_create Octstr) =
      wsp_machine_create Octstr :=
  ⟨by decide, (unpack_caps_terminates sample_constants [0x85] (wsp_machine_create Octstr)).2.2.2.1
    1 7 (wsp_machine_create Octstr) (by decide)⟩

/-! ## Msg wire format -/

theorem decode_encode_network_long (i : Int) (h0 : -2147483648 ≤ i) (h1 : i < 2147483648) :
    decode_network_long (encode_network_long i) = i := by
  unfold decode_network_long encode_network_long
  simp only [List.getD_cons_zero, List.getD_cons_succ]
  generalize hu : (i % 4294967296).toNat = u
  have hb : u < 4294967296 := by omega
  have hs : u / 16777216 % 256 * 16777216 + u / 65536 % 256 * 65536 + u / 256 % 256 * 256 +
      u % 256 = u := by omega
  rw [hs]
  unfold to_int
  have hm : u % 2 ^ 32 = u := by omega
  rw [hm]
  split <;> omega

theorem encode_network_long_length (i : Int) : (encode_network_long i).length = 4 := rfl

theorem append_integer_eq (os : Octstr) (i : Int) :
    append_integer os i = os ++ encode_network_long i := by
  unfold append_integer octstr_append_data
  rw [List.take_of_length_le (by rw [encode_network_long_length])]

theorem parse_integer_append_integer (i0 : Int) (os rest : Octstr) (i : Int)
    (h0 : -2147483648 ≤ i) (h1 : i < 2147483648) :
    parse_integer i0 (append_integer os i ++ rest) (octstr_len os : Int) =
      some ⟨0, i, (octstr_len os : Int) + 4⟩ := by
  rw [append_integer_eq]
  unfold parse_integer octstr_len
  have hl := encode_network_long_length i
  have hge : ¬ ¬ ((os.length : Int) ≥ 0) := by omega
  have hfit : ¬ ((os.length : Int) + 4 > (((os ++ encode_network_long i ++ rest).length : Nat) : Int)) := by
    simp only [List.length_append, hl]
    push_cast
    omega
  rw [if_neg hge, if_neg hfit]
  have hget : octstr_get_many_chars (os ++ encode_network_long i ++ rest)
      ((os.length : Int)).toNat 4 = encode_network_long i := by
    unfold octstr_get_many_chars
    rw [Int.toNat_ofNat, List.append_assoc, List.drop_left, ← hl, List.take_left]
  rw [hget, decode_encode_network_long i h0 h1]

/-- C28: for every packed prefix `os` and every string field `f`, `NULL` or an
octet string, such that the offsets of the packed result fit a C `int`,
`parse_string` applied to `append_string(os, f)` at the offset `len(os)` returns
0, yields a field equal to `f`, and moves the offset to the end of the buffer;
`NULL` is written as the length -1 and the empty string as the length 0; and
`parse_integer` recovers every 32-bit signed integer that `append_integer`
wrote. -/
theorem parse_string_append_string (os0 : Option Octstr) (os : Octstr) (f : Option Octstr)
    (h : octstr_len (append_string os f) < 2 ^ 31) :
    parse_string os0 (append_string os f) (octstr_len os : Int) =
      some ⟨0, f, (octstr_len (append_string os f) : Int)⟩ ∧
    append_string os none = os ++ [0xFF, 0xFF, 0xFF, 0xFF] ∧
    append_string os (some []) = os ++ [0x00, 0x00, 0x00, 0x00] ∧
    (∀ (i0 i : Int), -2147483648 ≤ i → i < 2147483648 →
      parse_integer i0 (append_integer os i) (octstr_len os : Int) =
        some ⟨0, i, (octstr_len (append_integer os i) : Int)⟩) := by
  have hint : ∀ (i0 i : Int), -2147483648 ≤ i → i < 2147483648 →
      parse_integer i0 (append_integer os i) (octstr_len os : Int) =
        some ⟨0, i, (octstr_len (append_integer os i) : Int)⟩ := by
    intro i0 i h0 h1
    have hp := parse_integer_append_integer i0 os [] i h0 h1
    rw [List.append_nil] at hp
    rw [hp, append_integer_eq]
    simp only [octstr_len, List.length_append, encode_network_long_length]
    push_cast
    rfl
  refine ⟨?_, ?_, ?_, hint⟩
  · cases f with
    | none =>
      have hp := parse_integer_append_integer 0 os [] (-1) (by decide) (by decide)
      rw [List.append_nil] at hp
      unfold parse_string append_string
      simp only [hp]
      rw [if_neg (by decide), if_pos trivial, append_integer_eq]
      simp only [octstr_len, List.length_append, encode_network_long_length]
      push_cast
      rfl
    | some f =>
      have hs : append_string os (some f) = append_integer os (f.length : Int) ++ f := by
        unfold append_string
        simp only [octstr_len]
        exact octstr_insert_end _ _ _ rfl
      rw [hs] at h ⊢
      have hlen : (append_integer os (f.length : Int) ++ f).length = os.length + 4 + f.length := by
        rw [append_integer_eq]
        simp only [List.length_append, encode_network_long_length]
      unfold octstr_len at h
      rw [hlen] at h
      have hp := parse_integer_append_integer 0 os f (f.length : Int) (by omega) (by omega)
      unfold parse_string
      simp only [hp]
      rw [if_neg (by decide), if_neg (by omega)]
      have hcopy : octstr_copy (append_integer os (f.length : Int) ++ f)
          ((octstr_len os : Int) + 4) (f.length : Int) = f := by
        unfold octstr_copy octstr_len
        rw [if_neg (by omega)]
        have e : ((os.length : Int) + 4).toNat = (append_integer os (f.length : Int)).length := by
          rw [append_integer_eq]
          simp only [List.length_append, encode_network_long_length]
          omega
        rw [e, List.drop_left, Int.toNat_ofNat, List.take_length]
      rw [hcopy, long_to_int_small _ (by unfold octstr_len; omega) (by unfold octstr_len; omega)]
      simp only [octstr_len, hlen]
      push_cast
      rfl
  · rw [show append_string os none = append_integer os (-1) from rfl, append_integer_eq]
    rfl
  · have hs : append_string os (some []) = append_integer os 0 ++ [] := by
      unfold append_string
      simp only [octstr_len]
      exact octstr_insert_end _ _ _ rfl
    rw [hs, append_integer_eq, List.append_nil]
    rfl

/-- C28 on the prefix `01 02` and the field `07 08 09`. -/
theorem parse_string_append_string_witness :
    octstr_len (append_string [0x01, 0x02] (some [0x07, 0x08, 0x09])) < 2 ^ 31 ∧
    parse_string none (append_string [0x01, 0x02] (some [0x07, 0x08, 0x09]))
        (octstr_len [0x01, 0x02] : Int) =
      some ⟨0, some [0x07, 0x08, 0x09],
        (octstr_len (append_string [0x01, 0x02] (some [0x07, 0x08, 0x09])) : Int)⟩ :=
  ⟨by decide, (parse_string_append_string none [0x01, 0x02] (some [0x07, 0x08, 0x09])
    (by decide)).1⟩

/-! ## Dispatch -/

theorem transaction_belongs_iff {H : Type} (wtp : WTPMachine) (session : WSPSessionMachine H) :
    transaction_belongs_to_session wtp session = true ↔
      session.client_address = some wtp.source_address ∧
      session.client_port = wtp.source_port ∧
      session.server_address = some wtp.destination_address ∧
      session.server_port = wtp.destination_port := by
  unfold transaction_belongs_to_session
  cases hc : session.client_address with
  | none => simp
  | some ca =>
    cases hs : session.server_address with
    | none => simp
    | some sa =>
      simp only [decide_eq_true_eq, octstr_compare_eq_zero, Option.some.injEq]
      constructor <;> rintro ⟨a, b, c, d⟩ <;> exact ⟨a.symm, b.symm, c.symm, d.symm⟩

theorem wsp_dispatch_scan_first {H : Type} (wtp : WTPMachine) :
    ∀ (pre : List (WSPSessionMachine H)) (s : WSPSessionMachine H)
      (post : List (WSPSessionMachine H)) (i : Nat),
      transaction_belongs_to_session wtp s = true →
      (∀ d ∈ pre, transaction_belongs_to_session wtp d = false) →
      wsp_dispatch_scan wtp (pre ++ s :: post) i = some (i + pre.length) := by
  intro pre
  induction pre with
  | nil =>
    intro s post i hs _
    simp [wsp_dispatch_scan, hs]
  | cons d pre ih =>
    intro s post i hs hpre
    have hd : transaction_belongs_to_session wtp d = false := hpre d (List.mem_cons_self _ _)
    have hrest := ih s post (i + 1) hs (fun x hx => hpre x (List.mem_cons_of_mem _ hx))
    rw [List.cons_append, wsp_dispatch_scan, hd, if_neg (by decide), hrest, List.length_cons]
    congr 1
    omega

theorem wsp_dispatch_scan_none {H : Type} (wtp : WTPMachine) :
    ∀ (l : List (WSPSessionMachine H)) (i : Nat),
      (∀ d ∈ l, transaction_belongs_to_session wtp d = false) →
      wsp_dispatch_scan wtp l i = none := by
  intro l
  induction l with
  | nil => intro i _; rfl
  | cons d l ih =>
    intro i h
    have hd : transaction_belongs_to_session wtp d = false := h d (List.mem_cons_self _ _)
    simp only [wsp_dispatch_scan, hd]
    exact ih (i + 1) (fun x hx => h x (List.mem_cons_of_mem _ hx))

theorem wsp_deduce_pdu_type_head (pdu : Octstr) (ho : is_octets pdu) :
    wsp_deduce_pdu_type pdu 0 = Connect_PDU ↔ pdu.head? = some 0x01 := by
  rw [wsp_deduce_pdu_type_at pdu 0 0 rfl ho]
  cases pdu with
  | nil => simp [Connect_PDU]
  | cons o rest =>
    simp only [List.getElem?_cons_zero, List.head?_cons, Option.some.injEq, Connect_PDU]
    omega

/-- C23: for every list of session machines and every event with octets as
user data, `wsp_dispatch_event` selects the session as follows.  For a
`TRInvokeIndication` with `tcl = 2` whose user data starts with the Connect
type octet `0x01`, it puts a new machine in front of the list, with the state
`NULL_STATE`, the default capabilities and the 4-tuple of the WTP machine,
leaves the machines of the list as they are, and hands the new machine on.
Otherwise it hands on the first machine of the list whose 4-tuple equals the
one of the WTP machine, the list unchanged, and creates the new machine only
when no machine matches. -/
theorem wsp_dispatch_event_selects {H : Type} (session_machines : List (WSPSessionMachine H))
    (wtp_sm : WTPMachine) (event : WSPEvent) (ho : is_octets event.user_data) :
    ((event.type = WSPEventType.TRInvokeIndication ∧ event.tcl = 2 ∧
        event.user_data.head? = some 0x01) →
      wsp_dispatch_event session_machines wtp_sm event =
        ⟨wsp_dispatch_new_machine H wtp_sm :: session_machines, 0⟩) ∧
    (¬ (event.type = WSPEventType.TRInvokeIndication ∧ event.tcl = 2 ∧
        event.user_data.head? = some 0x01) →
      (∀ pre s post, session_machines = pre ++ s :: post →
        (s.client_address = some wtp_sm.source_address ∧ s.client_port = wtp_sm.source_port ∧
          s.server_address = some wtp_sm.destination_address ∧
          s.server_port = wtp_sm.destination_port) →
        (∀ d ∈ pre, ¬ (d.client_address = some wtp_sm.source_address ∧
          d.client_port = wtp_sm.source_port ∧
          d.server_address = some wtp_sm.destination_address ∧
          d.server_port = wtp_sm.destination_port)) →
        wsp_dispatch_event session_machines wtp_sm event = ⟨session_machines, pre.length⟩ ∧
          session_machines[pre.length]? = some s) ∧
      ((∀ d ∈ session_machines, ¬ (d.client_address = some wtp_sm.source_address ∧
          d.client_port = wtp_sm.source_port ∧
          d.server_address = some wtp_sm.destination_address ∧
          d.server_port = wtp_sm.destination_port)) →
        wsp_dispatch_event session_machines wtp_sm event =
          ⟨wsp_dispatch_new_machine H wtp_sm :: session_machines, 0⟩)) ∧
    ((wsp_dispatch_new_machine H wtp_sm).state = WSPState.NULL_STATE ∧
      (wsp_dispatch_new_machine H wtp_sm).toWSPMachine = wsp_machine_create H ∧
      (wsp_dispatch_new_machine H wtp_sm).client_SDU_size = 1400 ∧
      (wsp_dispatch_new_machine H wtp_sm).server_SDU_size = 1400 ∧
      (wsp_dispatch_new_machine H wtp_sm).MOR_method = 1 ∧
      (wsp_dispatch_new_machine H wtp_sm).MOR_push = 1 ∧
      (wsp_dispatch_new_machine H wtp_sm).set_caps = 0 ∧
      (wsp_dispatch_new_machine H wtp_sm).client_address = some wtp_sm.source_address ∧
      (wsp_dispatch_new_machine H wtp_sm).client_port = wtp_sm.source_port ∧
      (wsp_dispatch_new_machine H wtp_sm).server_address = some wtp_sm.destination_address ∧
      (wsp_dispatch_new_machine H wtp_sm).server_port = wtp_sm.destination_port) := by
  have hhead := wsp_deduce_pdu_type_head event.user_data ho
  refine ⟨?_, ?_, ⟨rfl, rfl, rfl, rfl, rfl, rfl, rfl, rfl, rfl, rfl, rfl⟩⟩
  · rintro ⟨h1, h2, h3⟩
    have hc : event.type = WSPEventType.TRInvokeIndication ∧ event.tcl = 2 ∧
        wsp_deduce_pdu_type event.user_data 0 = Connect_PDU := ⟨h1, h2, hhead.2 h3⟩
    unfold wsp_dispatch_event
    simp only [if_pos hc]
  · intro hn
    have hc : ¬ (event.type = WSPEventType.TRInvokeIndication ∧ event.tcl = 2 ∧
        wsp_deduce_pdu_type event.user_data 0 = Connect_PDU) := by
      rintro ⟨h1, h2, h3⟩
      exact hn ⟨h1, h2, hhead.1 h3⟩
    constructor
    · intro pre s post hl hs hpre
      have hscan := wsp_dispatch_scan_first wtp_sm pre s post 0
        ((transaction_belongs_iff wtp_sm s).2 hs)
        (fun d hd => by
          have := hpre d hd
          rw [← transaction_belongs_iff wtp_sm d] at this
          simpa using this)
      rw [Nat.zero_add, ← hl] at hscan
      constructor
      · unfold wsp_dispatch_event
        simp only [if_neg hc, hscan]
      · rw [hl, List.getElem?_append_right (Nat.le_refl _)]
        simp
    · intro hall
      have hscan := wsp_dispatch_scan_none wtp_sm session_machines 0
        (fun d hd => by
          have := hall d hd
          rw [← transaction_belongs_iff wtp_sm d] at this
          simpa using this)
      unfold wsp_dispatch_event
      simp only [if_neg hc, hscan]

/-- C23 on an empty list of machines and the Connect PDU `01 10 00 00`
delivered with `tcl = 2`. -/
theorem wsp_dispatch_event_selects_witness :
    is_octets [0x01, 0x10, 0x00, 0x00] ∧
    wsp_dispatch_event ([] : List (WSPSessionMachine Octstr)) ⟨7, [0x0A], 9200, [0x0B], 9201⟩
        ⟨WSPEventType.TRInvokeIndication, ⟨7, [0x0A], 9200, [0x0B], 9201⟩, 2,
          [0x01, 0x10, 0x00, 0x00]⟩ =
      ⟨[wsp_dispatch_new_machine Octstr ⟨7, [0x0A], 9200, [0x0B], 9201⟩], 0⟩ :=
  ⟨by decide, (wsp_dispatch_event_selects ([] : List (WSPSessionMachine Octstr))
    ⟨7, [0x0A], 9200, [0x0B], 9201⟩
    ⟨WSPEventType.TRInvokeIndication, ⟨7, [0x0A], 9200, [0x0B], 9201⟩, 2,
      [0x01, 0x10, 0x00, 0x00]⟩ (by decide)).1 ⟨rfl, rfl, rfl⟩⟩

/-! ## Event handling -/

theorem wsp_handle_rows_none {H : Type} :
    ∀ (rows : List (WSPRow H)) (sm : WSPSessionMachine H) (e : WSPEvent),
      (∀ row ∈ rows, ¬ (sm.state = row.state ∧ e.type = row.event ∧
        row.condition sm e = true)) →
      wsp_handle_rows rows sm e = none := by
  intro rows
  induction rows with
  | nil => intro sm e _; rfl
  | cons row rest ih =>
    intro sm e h
    rw [wsp_handle_rows, if_neg (h row (List.mem_cons_self _ _))]
    exact ih sm e (fun r hr => h r (List.mem_cons_of_mem _ hr))

/-- C25: when no row of the transition table matches the state of the machine
and the current event, `wsp_handle_event` does the following with the event.  If
it is a `TRInvokeIndication`, a `TRAbort` with the `tid` of the invoking WTP
machine, `abort_type = 0x01` and `abort_reason = 0x01` is handed to that WTP
machine, and `client_port` becomes -1, the state and the other fields staying
as they are.  If it is of another type, nothing is handed to WTP and the machine
stays as it is. -/
theorem wsp_handle_current_unmatched {H : Type} (rows : List (WSPRow H))
    (sm : WSPSessionMachine H) (current_event : WSPEvent)
    (hno : ∀ row ∈ rows, ¬ (sm.state = row.state ∧ current_event.type = row.event ∧
      row.condition sm current_event = true)) :
    (current_event.type = WSPEventType.TRInvokeIndication →
      wsp_handle_current rows sm current_event =
        ({ sm with client_port := -1 },
          [(current_event.machine, WTPEvent.TRAbort current_event.machine.tid 0x01 0x01)]) ∧
      (wsp_handle_current rows sm current_event).1.state = sm.state) ∧
    (current_event.type ≠ WSPEventType.TRInvokeIndication →
      wsp_handle_current rows sm current_event = (sm, [])) := by
  have hn := wsp_handle_rows_none rows sm current_event hno
  unfold wsp_handle_current
  rw [hn]
  constructor
  · intro ht
    rw [if_pos ht]
    exact ⟨rfl, rfl⟩
  · intro ht
    rw [if_neg ht]

/-- C25 with an empty transition table and a `TRInvokeIndication` on a fresh
machine. -/
theorem wsp_handle_current_unmatched_witness :
    (∀ row ∈ ([] : List (WSPRow Octstr)),
      ¬ ((wsp_session_machine_create Octstr).state = row.state ∧
        WSPEventType.TRInvokeIndication = row.event ∧
        row.condition (wsp_session_machine_create Octstr)
          ⟨WSPEventType.TRInvokeIndication, ⟨7, [0x0A], 9200, [0x0B], 9201⟩, 2, [0x40]⟩ = true)) ∧
    wsp_handle_current ([] : List (WSPRow Octstr)) (wsp_session_machine_create Octstr)
        ⟨WSPEventType.TRInvokeIndication, ⟨7, [0x0A], 9200, [0x0B], 9201⟩, 2, [0x40]⟩ =
      ({ wsp_session_machine_create Octstr with client_port := -1 },
        [((⟨7, [0x0A], 9200, [0x0B], 9201⟩ : WTPMachine), WTPEvent.TRAbort 7 0x01 0x01)]) :=
  ⟨(by intro row hr; cases hr),
    ((wsp_handle_current_unmatched ([] : List (WSPRow Octstr)) (wsp_session_machine_create Octstr)
      ⟨WSPEventType.TRInvokeIndication, ⟨7, [0x0A], 9200, [0x0B], 9201⟩, 2, [0x40]⟩
      (by intro row hr; cases hr)).1 rfl).1⟩

/-! ## Threads on one session machine -/

/-- The number of threads inside is the sum over the threads. -/
theorem threads_inside_cons (pc : HandlerPc) (pcs : List HandlerPc) :
    threads_inside (pc :: pcs) = threads_inside [pc] + threads_inside pcs := by
  cases pc <;> simp [threads_inside] <;> omega

/-- Replacing the place of one thread changes the number of threads inside by
the difference of the two places. -/
theorem threads_inside_set (pcs : List HandlerPc) (t : Nat) (pc pc2 : HandlerPc)
    (h : pcs[t]? = some pc) :
    threads_inside (pcs.set t pc2) + threads_inside [pc] =
      threads_inside pcs + threads_inside [pc2] := by
  induction pcs generalizing t with
  | nil => simp at h
  | cons p ps ih =>
    cases t with
    | zero =>
      simp at h
      subst h
      rw [List.set_cons_zero, threads_inside_cons pc2 ps, threads_inside_cons p ps]
      omega
    | succ n =>
      simp at h
      rw [List.set_cons_succ, threads_inside_cons p (ps.set n pc2), threads_inside_cons p ps]
      have := ih n h
      omega

/-- One step of one thread keeps the number of threads inside equal to 1 when
the mutex is held and to 0 when it is free. -/
theorem handler_step_exclusive {H : Type} (rows : List (WSPRow H)) (s : SharedSession H) (pcs : List HandlerPc) (t : Nat)
    (pc : HandlerPc) (h : pcs[t]? = some pc)
    (hinv : threads_inside pcs = if s.mutex_locked then 1 else 0) :
    threads_inside (pcs.set t (handler_step rows s pc).2) =
      if (handler_step rows s pc).1.mutex_locked then 1 else 0 := by
  have hset := threads_inside_set pcs t pc (handler_step rows s pc).2 h
  cases pc with
  | try_lock e =>
    cases hl : s.mutex_locked <;>
      simp [handler_step, mutex_try_lock, hl, threads_inside] at hset hinv ⊢ <;> omega
  | append e =>
    cases hl : s.mutex_locked <;>
      simp [handler_step, hl, threads_inside] at hset hinv ⊢ <;> omega
  | handle e =>
    cases hl : s.mutex_locked <;>
      simp [handler_step, hl, threads_inside] at hset hinv ⊢ <;> omega
  | remove =>
    cases hq : s.event_queue with
    | nil =>
      cases hl : s.mutex_locked <;>
        simp [handler_step, remove_from_event_queue, hq, hl, threads_inside] at hset hinv ⊢ <;>
        omega
    | cons e q =>
      cases hl : s.mutex_locked <;>
        simp [handler_step, remove_from_event_queue, hq, hl, threads_inside] at hset hinv ⊢ <;>
        omega
  | unlock =>
    cases hl : s.mutex_locked <;>
      simp [handler_step, mutex_unlock, hl, threads_inside] at hset hinv ⊢ <;> omega
  | returned =>
    cases hl : s.mutex_locked <;>
      simp [handler_step, hl, threads_inside] at hset hinv ⊢ <;> omega

/-- Under every schedule the number of threads between a successful
`mutex_try_lock` and their `mutex_unlock` stays 1 when the mutex is held and 0
when it is free: at most one thread runs the loop of `wsp_handle_event` for a
session machine at a time. -/
theorem run_threads_exclusive {H : Type} (rows : List (WSPRow H)) (schedule : List Nat)
    (c : SharedSession H × List HandlerPc)
    (hinv : threads_inside c.2 = if c.1.mutex_locked then 1 else 0) :
    threads_inside (run_threads rows schedule c).2 =
      if (run_threads rows schedule c).1.mutex_locked then 1 else 0 := by
  induction schedule generalizing c with
  | nil => simpa [run_threads] using hinv
  | cons t rest ih =>
    rw [run_threads]
    cases h : c.2[t]? with
    | none => simpa using ih c hinv
    | some pc =>
      simp only
      exact ih _ (handler_step_exclusive rows c.1 c.2 t pc h hinv)

/-- C24 under the schedule in which thread 0 takes the mutex, handles its event
`e1` and finds the queue empty, thread 1 then fails in `mutex_try_lock`, appends
its event `e2` and returns, and thread 0 unlocks and returns: both threads are
back from `wsp_handle_event`, no thread holds the mutex, the loop body has run
for `e1` only, and `e2` is still in the queue.  Before its last step thread 0
stands at `mutex_unlock` with the mutex held and the queue empty. -/
theorem wsp_handle_event_leaves_event_queued {H : Type} (rows : List (WSPRow H))
    (sm : WSPSessionMachine H) (e1 e2 : WSPEvent) :
    (run_threads rows [0, 0, 0, 1, 1, 0]
      (⟨false, sm, [], [], []⟩, [HandlerPc.try_lock e1, HandlerPc.try_lock e2])).2 =
        [HandlerPc.returned, HandlerPc.returned] ∧
    (run_threads rows [0, 0, 0, 1, 1, 0]
      (⟨false, sm, [], [], []⟩, [HandlerPc.try_lock e1, HandlerPc.try_lock e2])).1.mutex_locked =
        false ∧
    (run_threads rows [0, 0, 0, 1, 1, 0]
      (⟨false, sm, [], [], []⟩, [HandlerPc.try_lock e1, HandlerPc.try_lock e2])).1.event_queue =
        [e2] ∧
    (run_threads rows [0, 0, 0, 1, 1, 0]
      (⟨false, sm, [], [], []⟩, [HandlerPc.try_lock e1, HandlerPc.try_lock e2])).1.handled =
        [e1] ∧
    (run_threads rows [0, 0, 0, 1, 1, 0]
      (⟨false, sm, [], [], []⟩, [HandlerPc.try_lock e1, HandlerPc.try_lock e2])).1.sm =
        (wsp_handle_current rows sm e1).1 ∧
    (run_threads rows [0, 0, 0]
      (⟨false, sm, [], [], []⟩, [HandlerPc.try_lock e1, HandlerPc.try_lock e2])).2 =
        [HandlerPc.unlock, HandlerPc.try_lock e2] ∧
    (run_threads rows [0, 0, 0]
      (⟨false, sm, [], [], []⟩, [HandlerPc.try_lock e1, HandlerPc.try_lock e2])).1.mutex_locked =
        true ∧
    (run_threads rows [0, 0, 0]
      (⟨false, sm, [], [], []⟩, [HandlerPc.try_lock e1, HandlerPc.try_lock e2])).1.event_queue =
        [] := by
  refine ⟨rfl, rfl, rfl, rfl, rfl, rfl, rfl, rfl⟩

/-! ## Uintvars of any length inside an octet string -/

theorem is_uintvar_cons_cons (o o2 : Nat) (V : Octstr) (h : is_uintvar (o :: o2 :: V)) :
    o &&& 0x80 ≠ 0 ∧ is_uintvar (o2 :: V) := by
  obtain ⟨_, h2, h3⟩ := h
  refine ⟨h2 o (by simp [List.dropLast]), by simp, ?_, ?_⟩
  · intro x hx
    exact h2 x (by simp only [List.dropLast_cons₂]; exact List.mem_cons_of_mem _ hx)
  · intro x hx
    exact h3 x (by simpa [List.getLast?_cons_cons] using hx)

theorem uintvar_scan_complete (V : Octstr) :
    ∀ (rest : Octstr) (u off : Nat), is_uintvar V →
      uintvar_scan (V ++ rest) u off =
        ⟨0, V.foldl (fun v o => ((v <<< 7) % ULONG_RANGE) ||| (o &&& 0x7F)) u, off + V.length⟩ := by
  induction V with
  | nil => intro rest u off h; exact absurd rfl h.1
  | cons o V ih =>
    intro rest u off h
    have hstep : ((u <<< 7) % ULONG_RANGE) ||| (o &&& 0x7F) = (u * 128 + o % 128) % 2 ^ 64 :=
      shift_or_eq u o
    cases V with
    | nil =>
      have hb : o &&& 0x80 = 0 := h.2.2 o (by simp)
      have hc : ¬ o / 128 % 2 = 1 := fun hc => (cont_bit_iff o).2 hc hb
      simp [uintvar_scan, hc, hstep]
    | cons o2 V =>
      obtain ⟨hb, hV⟩ := is_uintvar_cons_cons o o2 V h
      have hc : o / 128 % 2 = 1 := (cont_bit_iff o).1 hb
      have hrec := ih rest ((u * 128 + o % 128) % 2 ^ 64) (off + 1) hV
      rw [List.cons_append, uintvar_scan, if_pos hc, hrec]
      simp only [List.foldl_cons, hstep, List.length_cons, Unpacked.mk.injEq, true_and]
      omega

theorem unpack_uintvar_complete (pre V rest : Octstr) (hV : is_uintvar V) :
    unpack_uintvar (pre ++ (V ++ rest)) pre.length =
      ⟨0, uintvar_accumulate V, pre.length + V.length⟩ := by
  rw [unpack_uintvar_eq_scan, List.drop_left]
  exact uintvar_scan_complete V rest 0 pre.length hV

theorem uintvar_accumulate_lt (V : Octstr) : uintvar_accumulate V < 2 ^ 64 := by
  unfold uintvar_accumulate
  have : ∀ (l : Octstr) (u : Nat), u < 2 ^ 64 →
      l.foldl (fun v o => ((v <<< 7) % ULONG_RANGE) ||| (o &&& 0x7F)) u < 2 ^ 64 := by
    intro l
    induction l with
    | nil => intro u hu; simpa using hu
    | cons o l ih =>
      intro u hu
      rw [List.foldl_cons]
      apply ih
      rw [shift_or_eq]
      exact Nat.mod_lt _ (by norm_num)
  exact this V 0 (by norm_num)

theorem is_uintvar_append_uintvar (n : Int) : is_uintvar (append_uintvar [] n) := by
  rw [append_uintvar_eq]
  simp only [List.nil_append]
  have hi : ∀ x : Nat, (128 + x % 128) &&& 0x80 ≠ 0 := by
    intro x
    rw [and_80_high]
    decide
  have lo : ∀ x : Nat, (x % 128) &&& 0x80 = 0 := and_80_low
  split_ifs <;>
    simp [is_uintvar, List.dropLast, List.getLast?_cons_cons, hi, lo]

theorem append_uintvar_low_bits (n : Int) :
    append_uintvar [] n = append_uintvar [] ((to_ulong n % 2 ^ 35 : Nat) : Int) := by
  rw [append_uintvar_eq, append_uintvar_eq, to_ulong_nat]
  generalize to_ulong n = u
  have e4 : u % 2 ^ 35 % 2 ^ 64 / 268435456 % 128 = u / 268435456 % 128 := by omega
  have e3 : u % 2 ^ 35 % 2 ^ 64 / 2097152 % 128 = u / 2097152 % 128 := by omega
  have e2 : u % 2 ^ 35 % 2 ^ 64 / 16384 % 128 = u / 16384 % 128 := by omega
  have e1 : u % 2 ^ 35 % 2 ^ 64 / 128 % 128 = u / 128 % 128 := by omega
  have e0 : u % 2 ^ 35 % 2 ^ 64 % 128 = u % 128 := by omega
  rw [e4, e3, e2, e1, e0]

theorem uintvar_accumulate_append_uintvar (n : Int) :
    uintvar_accumulate (append_uintvar [] n) = to_ulong n % 2 ^ 35 := by
  have h1 := uintvar_scan_complete (append_uintvar [] n) [] 0 0 (is_uintvar_append_uintvar n)
  have h2 := uintvar_scan_append_uintvar (to_ulong n % 2 ^ 35)
    (Nat.mod_lt _ (by norm_num)) [] 0
  rw [← append_uintvar_low_bits] at h2
  rw [h2] at h1
  unfold uintvar_accumulate
  have := congrArg Unpacked.u h1
  exact this.symm

theorem unpack_caps_body_client_sdu_any {H : Type} (k : WspConstants) (m : WSPMachine H)
    (L V : Octstr) (hL : is_uintvar L) (hV : is_uintvar V) :
    unpack_caps_body k (L ++ [0x00] ++ V) 0 m =
      (octstr_len (L ++ [0x00] ++ V),
        if k.WSP_MAX_CLIENT_SDU ≠ 0 ∧ uintvar_accumulate V > k.WSP_MAX_CLIENT_SDU then m
        else if m.set_caps &&& k.WSP_CSDU_SET = 0 then
          { m with client_SDU_size :=
                     if uintvar_accumulate V = 3 then 1350 else to_long (uintvar_accumulate V),
                   set_caps := m.set_caps ||| k.WSP_CSDU_SET }
        else m) := by
  have h1 : unpack_uintvar (L ++ [0x00] ++ V) 0 = ⟨0, uintvar_accumulate L, L.length⟩ := by
    have := unpack_uintvar_complete [] L ([0x00] ++ V) hL
    simpa using this
  have h2 : octstr_get_char (L ++ [0x00] ++ V) (L.length + 1 - 1) = 0 := by
    have := octstr_get_char_framed L V 0
    simpa using this
  have h3 : unpack_uintvar (L ++ [0x00] ++ V) (L.length + 1) =
      ⟨0, uintvar_accumulate V, (L ++ [0x00] ++ V).length⟩ := by
    have := unpack_uintvar_complete (L ++ [0x00]) V [] hV
    simpa [Nat.add_assoc, Nat.add_comm, Nat.add_left_comm] using this
  unfold unpack_caps_body
  simp only [h1, h2, h3, WSP_CAPS_CLIENT_SDU_SIZE, octstr_len]
  rw [if_pos trivial, if_neg (by decide)]
  have hl : to_long (if uintvar_accumulate V = 3 then 1350 else uintvar_accumulate V) =
      if uintvar_accumulate V = 3 then 1350 else to_long (uintvar_accumulate V) := by
    split
    · rfl
    · rfl
  rw [hl]
  split_ifs <;> rfl

/-- C7, as stated, fails when the server maximum is 0: on the entry
`0B 00 81 FF FF FF FF FF FF FF FF 7F`, whose value field is a uintvar of ten
octets with the value `2^64 - 1`, a fresh machine accepts the capability and
`client_SDU_size`, a `long`, becomes -1 and not the value. -/
theorem unpack_caps_client_sdu_long_uintvar :
    is_uintvar [0x81, 0xFF, 0xFF, 0xFF, 0xFF, 0xFF, 0xFF, 0xFF, 0xFF, 0x7F] ∧
    uintvar_accumulate [0x81, 0xFF, 0xFF, 0xFF, 0xFF, 0xFF, 0xFF, 0xFF, 0xFF, 0x7F] =
      18446744073709551615 ∧
    (unpack_uintvar [0x0B, 0x00, 0x81, 0xFF, 0xFF, 0xFF, 0xFF, 0xFF, 0xFF, 0xFF, 0xFF, 0x7F] 2) =
      ⟨0, 18446744073709551615, 12⟩ ∧
    sample_constants.WSP_MAX_CLIENT_SDU = 0 ∧
    (wsp_machine_create Octstr).set_caps &&& sample_constants.WSP_CSDU_SET = 0 ∧
    unpack_caps sample_constants
        [0x0B, 0x00, 0x81, 0xFF, 0xFF, 0xFF, 0xFF, 0xFF, 0xFF, 0xFF, 0xFF, 0x7F]
        (wsp_machine_create Octstr) =
      { wsp_machine_create Octstr with client_SDU_size := -1, set_caps := 1 } := by
  decide

/-- C7, amended: for a machine whose client-SDU flag is clear and a block holding
the single entry Client SDU size, made of a length uintvar `L`, the identifier
`0x00` and a value uintvar `V` of any number of octets, `v` being the 64-bit
value that `unpack_uintvar` accumulates from `V`: when the server maximum is 0
(no limit) or `v` does not exceed it, `WSP_CSDU_SET` is set in `set_caps` and
`client_SDU_size` becomes 1350 when `v = 3` and otherwise `v` taken as a `long`,
which is `v` itself when `v < 2^63` and `v - 2^64` when not, nothing else
changing; when `v` exceeds a non-zero maximum the machine is left as it was.
The octets that `append_uintvar` writes for `n` are such a uintvar, with the
value `n` when `0 ≤ n < 2^35`. -/
theorem unpack_caps_client_sdu {H : Type} (k : WspConstants) (m : WSPMachine H)
    (L V : Octstr) (hL : is_uintvar L) (hV : is_uintvar V)
    (hflag : m.set_caps &&& k.WSP_CSDU_SET = 0) :
    ((k.WSP_MAX_CLIENT_SDU = 0 ∨ uintvar_accumulate V ≤ k.WSP_MAX_CLIENT_SDU) →
      unpack_caps k (L ++ [0x00] ++ V) m =
        { m with client_SDU_size :=
                   if uintvar_accumulate V = 3 then 1350 else to_long (uintvar_accumulate V),
                 set_caps := m.set_caps ||| k.WSP_CSDU_SET }) ∧
    ((k.WSP_MAX_CLIENT_SDU ≠ 0 ∧ uintvar_accumulate V > k.WSP_MAX_CLIENT_SDU) →
      unpack_caps k (L ++ [0x00] ++ V) m = m) ∧
    (uintvar_accumulate V < 2 ^ 63 →
      to_long (uintvar_accumulate V) = (uintvar_accumulate V : Int)) ∧
    (2 ^ 63 ≤ uintvar_accumulate V →
      to_long (uintvar_accumulate V) = (uintvar_accumulate V : Int) - 18446744073709551616) ∧
    (∀ n : Int, is_uintvar (append_uintvar [] n)) ∧
    (∀ v : Nat, v < 2 ^ 35 → uintvar_accumulate (append_uintvar [] (v : Int)) = v) := by
  have hb := unpack_caps_body_client_sdu_any k m L V hL hV
  have hpos : 0 < octstr_len (L ++ [0x00] ++ V) := by
    simp [octstr_len]
  have hs := unpack_caps_single k (L ++ [0x00] ++ V) m hpos (by rw [hb])
  rw [hs, hb]
  refine ⟨?_, ?_, ?_, ?_, is_uintvar_append_uintvar, ?_⟩
  · intro h
    have hn : ¬ (k.WSP_MAX_CLIENT_SDU ≠ 0 ∧ uintvar_accumulate V > k.WSP_MAX_CLIENT_SDU) := by
      omega
    simp only [if_neg hn, if_pos hflag]
  · intro h
    simp only [if_pos h]
  · intro h
    exact to_long_small _ h
  · intro h
    have hlt := uintvar_accumulate_lt V
    unfold to_long
    have h1 : uintvar_accumulate V % 2 ^ 64 = uintvar_accumulate V := Nat.mod_eq_of_lt hlt
    rw [h1, if_neg (by omega)]
  · intro v hv
    rw [uintvar_accumulate_append_uintvar, to_ulong_nat]
    omega

/-- C7, amended, on the entry `03 00 89 34` with the value 1204, on a fresh
machine and with no server limit. -/
theorem unpack_caps_client_sdu_witness :
    (is_uintvar [0x03] ∧ is_uintvar [0x89, 0x34] ∧
      (wsp_machine_create Octstr).set_caps &&& sample_constants.WSP_CSDU_SET = 0 ∧
      (sample_constants.WSP_MAX_CLIENT_SDU = 0 ∨
        uintvar_accumulate [0x89, 0x34] ≤ sample_constants.WSP_MAX_CLIENT_SDU) ∧
      uintvar_accumulate [0x89, 0x34] = 1204) ∧
    unpack_caps sample_constants ([0x03] ++ [0x00] ++ [0x89, 0x34]) (wsp_machine_create Octstr) =
      { wsp_machine_create Octstr with
        client_SDU_size :=
          if uintvar_accumulate [0x89, 0x34] = 3 then 1350
          else to_long (uintvar_accumulate [0x89, 0x34]),
        set_caps := (wsp_machine_create Octstr).set_caps ||| sample_constants.WSP_CSDU_SET } :=
  ⟨by decide, (unpack_caps_client_sdu sample_constants (wsp_machine_create Octstr) [0x03]
    [0x89, 0x34] (by decide) (by decide) (by decide)).1 (by decide)⟩

/-! ## What later passes of `unpack_caps` keep -/

theorem caps_kept_pass {H : Type} (k : WspConstants) (caps : Octstr) (p : Nat × WSPMachine H) :
    caps_kept k p.2 (unpack_caps_pass k caps p).2 := by
  unfold unpack_caps_pass
  split
  · exact caps_kept_body k caps p.1 p.2
  · exact caps_kept_refl k p.2

theorem caps_kept_iterate {H : Type} (k : WspConstants) (caps : Octstr) :
    ∀ (n : Nat) (p : Nat × WSPMachine H),
      caps_kept k p.2 ((unpack_caps_pass k caps)^[n] p).2 := by
  intro n
  induction n with
  | zero => intro p; exact caps_kept_refl k p.2
  | succ n ih =>
    intro p
    rw [Function.iterate_succ_apply]
    exact caps_kept_trans k _ _ _ (caps_kept_pass k caps p) (ih _)

theorem unpack_caps_after_passes {H : Type} (k : WspConstants) (caps : Octstr)
    (m : WSPMachine H) (n : Nat) :
    ∃ j, unpack_caps k caps m =
      ((unpack_caps_pass k caps)^[j] ((unpack_caps_pass k caps)^[n] (0, m))).2 := by
  have hu : unpack_caps k caps m = ((unpack_caps_pass k caps)^[octstr_len caps] (0, m)).2 :=
    unpack_caps_loop_eq_iterate k caps _ 0 m
  by_cases h : n ≤ octstr_len caps
  · refine ⟨octstr_len caps - n, ?_⟩
    rw [hu, ← Function.iterate_add_apply]
    congr 2
    omega
  · refine ⟨0, ?_⟩
    have hn : n = (n - octstr_len caps) + octstr_len caps := by omega
    have hp := unpack_caps_pass_progress k caps (octstr_len caps) 0 m (by omega)
    rw [hu, Function.iterate_zero_apply, hn, Function.iterate_add_apply]
    generalize (unpack_caps_pass k caps)^[octstr_len caps] (0, m) = q at hp ⊢
    obtain ⟨off, m1⟩ := q
    rw [unpack_caps_pass_fixed k caps _ off m1 hp]

theorem caps_kept_after_passes {H : Type} (k : WspConstants) (caps : Octstr)
    (m : WSPMachine H) (n : Nat) :
    caps_kept k ((unpack_caps_pass k caps)^[n] (0, m)).2 (unpack_caps k caps m) := by
  obtain ⟨j, hj⟩ := unpack_caps_after_passes k caps m n
  rw [hj]
  exact caps_kept_iterate k caps j _

/-- C9: for every capability block and every session machine `m`, `unpack_caps`
clears no bit of `m.set_caps`, and every capability whose flag is set in
`m.set_caps` has the same value after the call as before.  The same holds from
every pass of the loop on: a flag that is set after `n` passes is set at the
end, and the value of a capability whose flag is set after `n` passes is the
value at the end.  So the pass that accepts a capability, which sets its flag,
fixes the value, and later entries of the block for it change nothing: on
`03 00 89 34 03 00 87 68`, two entries Client SDU size with the values 1204 and
1000, a fresh machine ends with 1204. -/
theorem unpack_caps_keeps_negotiated {H : Type} (k : WspConstants) (caps : Octstr)
    (m : WSPMachine H) :
    (∀ i, m.set_caps.testBit i = true → (unpack_caps k caps m).set_caps.testBit i = true) ∧
    (m.set_caps &&& k.WSP_CSDU_SET ≠ 0 →
      (unpack_caps k caps m).client_SDU_size = m.client_SDU_size) ∧
    (m.set_caps &&& k.WSP_SSDU_SET ≠ 0 →
      (unpack_caps k caps m).server_SDU_size = m.server_SDU_size) ∧
    (m.set_caps &&& k.WSP_PO_SET ≠ 0 →
      (unpack_caps k caps m).protocol_options = m.protocol_options) ∧
    (m.set_caps &&& k.WSP_MMOR_SET ≠ 0 → (unpack_caps k caps m).MOR_method = m.MOR_method) ∧
    (m.set_caps &&& k.WSP_PMOR_SET ≠ 0 → (unpack_caps k caps m).MOR_push = m.MOR_push) ∧
    (∀ n : Nat,
      (∀ i, ((unpack_caps_pass k caps)^[n] (0, m)).2.set_caps.testBit i = true →
        (unpack_caps k caps m).set_caps.testBit i = true) ∧
      (((unpack_caps_pass k caps)^[n] (0, m)).2.set_caps &&& k.WSP_CSDU_SET ≠ 0 →
        (unpack_caps k caps m).client_SDU_size =
          ((unpack_caps_pass k caps)^[n] (0, m)).2.client_SDU_size) ∧
      (((unpack_caps_pass k caps)^[n] (0, m)).2.set_caps &&& k.WSP_SSDU_SET ≠ 0 →
        (unpack_caps k caps m).server_SDU_size =
          ((unpack_caps_pass k caps)^[n] (0, m)).2.server_SDU_size) ∧
      (((unpack_caps_pass k caps)^[n] (0, m)).2.set_caps &&& k.WSP_PO_SET ≠ 0 →
        (unpack_caps k caps m).protocol_options =
          ((unpack_caps_pass k caps)^[n] (0, m)).2.protocol_options) ∧
      (((unpack_caps_pass k caps)^[n] (0, m)).2.set_caps &&& k.WSP_MMOR_SET ≠ 0 →
        (unpack_caps k caps m).MOR_method =
          ((unpack_caps_pass k caps)^[n] (0, m)).2.MOR_method) ∧
      (((unpack_caps_pass k caps)^[n] (0, m)).2.set_caps &&& k.WSP_PMOR_SET ≠ 0 →
        (unpack_caps k caps m).MOR_push =
          ((unpack_caps_pass k caps)^[n] (0, m)).2.MOR_push)) ∧
    unpack_caps sample_constants [0x03, 0x00, 0x89, 0x34, 0x03, 0x00, 0x87, 0x68]
        (wsp_machine_create Octstr) =
      { wsp_machine_create Octstr with client_SDU_size := 1204, set_caps := 1 } ∧
    unpack_caps sample_constants [0x03, 0x00, 0x87, 0x68] (wsp_machine_create Octstr) =
      { wsp_machine_create Octstr with client_SDU_size := 1000, set_caps := 1 } := by
  have hall : ∀ n : Nat,
      (∀ i, ((unpack_caps_pass k caps)^[n] (0, m)).2.set_caps.testBit i = true →
        (unpack_caps k caps m).set_caps.testBit i = true) ∧
      (((unpack_caps_pass k caps)^[n] (0, m)).2.set_caps &&& k.WSP_CSDU_SET ≠ 0 →
        (unpack_caps k caps m).client_SDU_size =
          ((unpack_caps_pass k caps)^[n] (0, m)).2.client_SDU_size) ∧
      (((unpack_caps_pass k caps)^[n] (0, m)).2.set_caps &&& k.WSP_SSDU_SET ≠ 0 →
        (unpack_caps k caps m).server_SDU_size =
          ((unpack_caps_pass k caps)^[n] (0, m)).2.server_SDU_size) ∧
      (((unpack_caps_pass k caps)^[n] (0, m)).2.set_caps &&& k.WSP_PO_SET ≠ 0 →
        (unpack_caps k caps m).protocol_options =
          ((unpack_caps_pass k caps)^[n] (0, m)).2.protocol_options) ∧
      (((unpack_caps_pass k caps)^[n] (0, m)).2.set_caps &&& k.WSP_MMOR_SET ≠ 0 →
        (unpack_caps k caps m).MOR_method =
          ((unpack_caps_pass k caps)^[n] (0, m)).2.MOR_method) ∧
      (((unpack_caps_pass k caps)^[n] (0, m)).2.set_caps &&& k.WSP_PMOR_SET ≠ 0 →
        (unpack_caps k caps m).MOR_push =
          ((unpack_caps_pass k caps)^[n] (0, m)).2.MOR_push) := by
    intro n
    obtain ⟨⟨c, hc⟩, rest⟩ := caps_kept_after_passes k caps m n
    refine ⟨?_, rest⟩
    intro i hi
    rw [hc, Nat.testBit_or, hi]
    rfl
  have h0 := hall 0
  simp only [Function.iterate_zero, id_eq] at h0
  exact ⟨h0.1, h0.2.1, h0.2.2.1, h0.2.2.2.1, h0.2.2.2.2.1, h0.2.2.2.2.2, hall, by decide,
    by decide⟩

/-- C9 on the block `03 00 89 34 03 00 87 68` and a fresh machine: after the
first pass the flag of Client SDU size is set and the value is 1204, which is
the value at the end. -/
theorem unpack_caps_keeps_negotiated_witness :
    ((unpack_caps_pass sample_constants [0x03, 0x00, 0x89, 0x34, 0x03, 0x00, 0x87, 0x68])^[1]
        (0, wsp_machine_create Octstr)).2.set_caps &&& sample_constants.WSP_CSDU_SET ≠ 0 ∧
    ((unpack_caps_pass sample_constants [0x03, 0x00, 0x89, 0x34, 0x03, 0x00, 0x87, 0x68])^[1]
        (0, wsp_machine_create Octstr)).2.client_SDU_size = 1204 ∧
    (unpack_caps sample_constants [0x03, 0x00, 0x89, 0x34, 0x03, 0x00, 0x87, 0x68]
        (wsp_machine_create Octstr)).client_SDU_size =
      ((unpack_caps_pass sample_constants [0x03, 0x00, 0x89, 0x34, 0x03, 0x00, 0x87, 0x68])^[1]
        (0, wsp_machine_create Octstr)).2.client_SDU_size :=
  ⟨by decide, by decide,
    ((unpack_caps_keeps_negotiated sample_constants
      [0x03, 0x00, 0x89, 0x34, 0x03, 0x00, 0x87, 0x68]
      (wsp_machine_create Octstr)).2.2.2.2.2.2.1 1).2.1 (by decide)⟩

/-! ## The values that the ConnectReply carries -/

theorem caps_entry_short (id : Nat) (P : Octstr) (h : P.length < 127) :
    caps_entry id P = (1 + P.length) :: id :: P := by
  unfold caps_entry
  rw [append_uintvar_eq]
  have ht : to_ulong (1 + (P.length : Int)) = 1 + P.length := by
    unfold to_ulong
    omega
  rw [ht]
  have h4 : (1 + P.length) / 268435456 % 128 = 0 := by omega
  have h3 : (1 + P.length) / 2097152 % 128 = 0 := by omega
  have h2 : (1 + P.length) / 16384 % 128 = 0 := by omega
  have h1 : (1 + P.length) / 128 % 128 = 0 := by omega
  have h0 : (1 + P.length) % 128 = 1 + P.length := by omega
  simp [h4, h3, h2, h1, h0]

theorem uintvar_accumulate_eq_iff (n : Int) :
    (uintvar_accumulate (append_uintvar [] n) : Int) = n ↔ 0 ≤ n ∧ n < 34359738368 := by
  rw [uintvar_accumulate_append_uintvar]
  unfold to_ulong
  omega

/-- C10, amended: for every session machine with a non-zero `set_caps` the
capability block that `make_connectreply_pdu` emits is made of these entries, in
this order, and of nothing else: for an accepted Client SDU size an entry under
the identifier `0x01`, that of Server SDU size, with `client_SDU_size`; for an
accepted Server SDU size an entry under `0x01` with `server_SDU_size`; for an
accepted Method MOR an entry under `0x03` with `MOR_method`; for an accepted
Push MOR an entry under `0x04` with `MOR_push`.  No entry is written under
`0x00` or `0x02`, so an accepted Protocol options is not echoed, and no block is
built when `set_caps` is zero.  An entry is the octet of its length, the
identifier and the payload.  The payload of an SDU size is a uintvar that holds
the low 35 bits of the value, which is the value exactly when it lies in
`0..2^35 - 1` (the size `2^35` is echoed as `02 01 00`); the payload of a MOR is
the octet of its low 8 bits, which is the value exactly when it lies in
`0..255`. -/
theorem make_connectreply_caps_echo {H : Type} (k : WspConstants) (m : WSPMachine H) :
    make_connectreply_caps k m =
      (if m.set_caps ≠ 0 then
        some ((if m.set_caps &&& k.WSP_CSDU_SET ≠ 0 then
                caps_entry 0x01 (append_uintvar [] m.client_SDU_size) else []) ++
              ((if m.set_caps &&& k.WSP_SSDU_SET ≠ 0 then
                caps_entry 0x01 (append_uintvar [] m.server_SDU_size) else []) ++
              ((if m.set_caps &&& k.WSP_MMOR_SET ≠ 0 then
                caps_entry 0x03 [(m.MOR_method % 256).toNat] else []) ++
              (if m.set_caps &&& k.WSP_PMOR_SET ≠ 0 then
                caps_entry 0x04 [(m.MOR_push % 256).toNat] else []))))
      else none) ∧
    (∀ (id : Nat) (n : Int), caps_entry id (append_uintvar [] n) =
      (1 + (append_uintvar [] n).length) :: id :: append_uintvar [] n) ∧
    (∀ id v : Nat, caps_entry id [v] = [2, id, v]) ∧
    (∀ n : Int, is_uintvar (append_uintvar [] n) ∧ (append_uintvar [] n).length ≤ 5 ∧
      uintvar_accumulate (append_uintvar [] n) = to_ulong n % 2 ^ 35) ∧
    (∀ n : Int, (uintvar_accumulate (append_uintvar [] n) : Int) = n ↔
      0 ≤ n ∧ n < 34359738368) ∧
    (∀ v : Int, (((v % 256).toNat : Nat) : Int) = v ↔ 0 ≤ v ∧ v < 256) ∧
    make_connectreply_caps sample_constants
        ({ wsp_machine_create Octstr with server_SDU_size := 34359738368, set_caps := 2 } :
          WSPMachine Octstr) = some [0x02, 0x01, 0x00] ∧
    make_connectreply_caps sample_constants
        ({ wsp_machine_create Octstr with
            client_SDU_size := 1204, server_SDU_size := 1400, MOR_method := 1, MOR_push := 1,
            set_caps := 31 } : WSPMachine Octstr) =
      some [0x03, 0x01, 0x89, 0x34, 0x03, 0x01, 0x8A, 0x78, 0x02, 0x03, 0x01, 0x02, 0x04, 0x01] := by
  refine ⟨make_connectreply_caps_eq k m, ?_, caps_entry_octet, ?_, uintvar_accumulate_eq_iff, ?_,
    by decide, by decide⟩
  · intro id n
    exact caps_entry_short id _ (by have := (append_uintvar_length_le n).2; omega)
  · intro n
    exact ⟨is_uintvar_append_uintvar n, (append_uintvar_length_le n).2,
      uintvar_accumulate_append_uintvar n⟩
  · intro v
    omega

/-! ## The event queue -/

theorem queue_linked_congr (next next2 : Nat → Option Nat) :
    ∀ (l : List Nat) (p : Option Nat), (∀ a ∈ l, next a = next2 a) →
      queue_linked next p l → queue_linked next2 p l := by
  intro l
  induction l with
  | nil => intro p _ h; exact h
  | cons a l ih =>
    intro p hn h
    obtain ⟨h1, h2⟩ := h
    refine ⟨h1, ?_⟩
    rw [← hn a (List.mem_cons_self _ _)]
    exact ih _ (fun b hb => hn b (List.mem_cons_of_mem _ hb)) h2

theorem queue_linked_append (next : Nat → Option Nat) (event tail : Nat) :
    ∀ (l : List Nat) (p : Option Nat), l.getLast? = some tail → l.Nodup → event ∉ l →
      queue_linked next p l →
      queue_linked
        (fun a => if a = event then none else if a = tail then some event else next a)
        p (l ++ [event]) := by
  intro l
  induction l with
  | nil => intro p hl; simp at hl
  | cons a l ih =>
    intro p hl hd he h
    obtain ⟨h1, h2⟩ := h
    have hae : a ≠ event := fun e => he (e ▸ List.mem_cons_self _ _)
    cases l with
    | nil =>
      have hat : a = tail := by simpa using hl
      refine ⟨h1, ?_⟩
      simp only [if_neg hae, if_pos hat]
      exact ⟨rfl, by simp [queue_linked]⟩
    | cons b l =>
      have hl2 : (b :: l).getLast? = some tail := by
        simpa [List.getLast?_cons_cons] using hl
      have htm : tail ∈ b :: l := List.mem_of_getLast?_eq_some hl2
      have hat : a ≠ tail := by
        intro e
        have := (List.nodup_cons.1 hd).1
        exact this (e ▸ htm)
      refine ⟨h1, ?_⟩
      simp only [if_neg hae, if_neg hat]
      exact ih _ hl2 (List.nodup_cons.1 hd).2 (fun hm => he (List.mem_cons_of_mem _ hm)) h2

theorem queue_holds_append (machine : EventQueue) (l : List Nat) (event : Nat)
    (h : queue_holds machine l) (he : event ∉ l) :
    ∃ machine1, machine.append_to_event_queue event = some machine1 ∧
      queue_holds machine1 (l ++ [event]) := by
  obtain ⟨h1, h2, h3⟩ := h
  cases l with
  | nil =>
    have hh : machine.event_queue_head = none := h1
    have happ : machine.append_to_event_queue event =
        some { event_queue_head := some event, event_queue_tail := some event,
               next := fun a => if a = event then none else machine.next a } := by
      simp only [EventQueue.append_to_event_queue, hh]
    refine ⟨_, happ, ?_⟩
    refine ⟨?_, by simp, by simp⟩
    simp [queue_linked]
  | cons a l =>
    have hh : machine.event_queue_head = some a := h1.1
    have ht := h3 (by simp)
    obtain ⟨tail, htail⟩ : ∃ tail, (a :: l).getLast? = some tail := by
      cases hq : (a :: l).getLast? with
      | none => simp at hq
      | some t => exact ⟨t, rfl⟩
    rw [htail] at ht
    have happ : machine.append_to_event_queue event =
        some { event_queue_head := machine.event_queue_head, event_queue_tail := some event,
               next := fun a =>
                 if a = event then none else if a = tail then some event else machine.next a } := by
      simp only [EventQueue.append_to_event_queue, hh, ht]
    refine ⟨_, happ, ?_⟩
    refine ⟨?_, ?_, ?_⟩
    · have := queue_linked_append machine.next event tail (a :: l) (some a) htail h2 he
        (by rw [← hh]; exact h1)
      simpa [hh] using this
    · rw [List.nodup_append]
      refine ⟨h2, by simp, ?_⟩
      intro x hx hx2
      have : x = event := by simpa using hx2
      exact he (this ▸ hx)
    · intro _
      rw [List.getLast?_append]
      simp

theorem queue_holds_remove (machine : EventQueue) (l : List Nat) (event : Nat)
    (h : queue_holds machine (event :: l)) :
    machine.remove_from_event_queue.1 = some event ∧
      queue_holds machine.remove_from_event_queue.2 l := by
  obtain ⟨⟨h1, h1b⟩, h2, h3⟩ := h
  have hn := List.nodup_cons.1 h2
  have hr : machine.remove_from_event_queue =
      (some event,
        { event_queue_head := machine.next event, event_queue_tail := machine.event_queue_tail,
          next := fun a => if a = event then none else machine.next a }) := by
    simp only [EventQueue.remove_from_event_queue, h1]
  rw [hr]
  refine ⟨rfl, ?_, hn.2, ?_⟩
  · apply queue_linked_congr machine.next _ l _ _ h1b
    intro a ha
    have : a ≠ event := fun e => hn.1 (e ▸ ha)
    simp [this]
  · intro hl
    have := h3 (by simp)
    simp only [this]
    cases l with
    | nil => exact absurd rfl hl
    | cons b l => simp [List.getLast?_cons_cons]

theorem queue_holds_remove_nil (machine : EventQueue) (h : queue_holds machine []) :
    machine.remove_from_event_queue.1 = none ∧
      queue_holds machine.remove_from_event_queue.2 [] := by
  have hh : machine.event_queue_head = none := h.1
  have hr : machine.remove_from_event_queue = (none, machine) := by
    simp only [EventQueue.remove_from_event_queue, hh]
  rw [hr]
  exact ⟨rfl, h⟩

theorem queue_calls_order :
    ∀ (calls : List QueueCall) (machine : EventQueue) (l returned : List Nat),
      queue_holds machine l → (l ++ appended_events calls).Nodup →
      ∃ r l2, queue_calls calls machine returned = some r ∧ queue_holds r.2 l2 ∧
        r.1 ++ l2 = returned ++ l ++ appended_events calls := by
  intro calls
  induction calls with
  | nil =>
    intro machine l returned h _
    exact ⟨(returned, machine), l, rfl, h, by simp [appended_events]⟩
  | cons c calls ih =>
    intro machine l returned h hd
    cases c with
    | append event =>
      simp only [appended_events] at hd ⊢
      have he : event ∉ l := by
        intro hm
        have := (List.nodup_append.1 hd).2.2
        exact this hm (List.mem_cons_self _ _)
      obtain ⟨machine1, h1, h2⟩ := queue_holds_append machine l event h he
      have hd2 : ((l ++ [event]) ++ appended_events calls).Nodup := by
        simpa using hd
      obtain ⟨r, l2, hr, hl2, heq⟩ := ih machine1 (l ++ [event]) returned h2 hd2
      refine ⟨r, l2, ?_, hl2, ?_⟩
      · simp only [queue_calls, h1]
        exact hr
      · rw [heq]
        simp
    | remove =>
      simp only [appended_events] at hd ⊢
      cases l with
      | nil =>
        obtain ⟨h1, h2⟩ := queue_holds_remove_nil machine h
        obtain ⟨r, l2, hr, hl2, heq⟩ := ih machine.remove_from_event_queue.2 [] returned h2 hd
        refine ⟨r, l2, ?_, hl2, heq⟩
        simp only [queue_calls, h1]
        exact hr
      | cons a l =>
        obtain ⟨h1, h2⟩ := queue_holds_remove machine l a h
        have hd2 : (l ++ appended_events calls).Nodup := by
          rw [List.cons_append] at hd
          exact (List.nodup_cons.1 hd).2
        obtain ⟨r, l2, hr, hl2, heq⟩ :=
          ih machine.remove_from_event_queue.2 l (returned ++ [a]) h2 hd2
        refine ⟨r, l2, ?_, hl2, ?_⟩
        · simp only [queue_calls, h1]
          exact hr
        · rw [heq]
          simp

/-! ## The loop of `wsp_handle_event` -/

theorem foldl_append_to_event_queue (own event_queue : List WSPEvent) :
    own.foldl append_to_event_queue event_queue = event_queue ++ own := by
  induction own generalizing event_queue with
  | nil => simp
  | cons e own ih =>
    rw [List.foldl_cons, ih, append_to_event_queue]
    simp

theorem wsp_handle_event_loop_some {H : Type} (rows : List (WSPRow H))
    (own_events : WSPSessionMachine H → WSPEvent → List WSPEvent) :
    ∀ (fuel : Nat) (e : WSPEvent) (h h2 : Handled H),
      wsp_handle_event_loop rows own_events fuel e h = some h2 →
      h2.mutex_locked = h.mutex_locked ∧ h2.event_queue = [] ∧
      ∃ new, h2.enqueued = h.enqueued ++ new ∧
        h2.dumped = h.dumped ++ e :: h.event_queue ++ new ∧
        (h2.sm, h2.wtp, h2.enqueued) =
          wsp_handle_in_order rows own_events (e :: h.event_queue ++ new)
            (h.sm, h.wtp, h.enqueued) := by
  intro fuel
  induction fuel with
  | zero => intro e h h2 hs; simp [wsp_handle_event_loop] at hs
  | succ fuel ih =>
    intro e h h2 hs
    rw [wsp_handle_event_loop] at hs
    simp only [foldl_append_to_event_queue] at hs
    cases hq : h.event_queue ++ own_events h.sm e with
    | nil =>
      have hq1 : h.event_queue = [] := (List.append_eq_nil.1 hq).1
      have hq2 : own_events h.sm e = [] := (List.append_eq_nil.1 hq).2
      simp only [hq, remove_from_event_queue, Option.some.injEq] at hs
      subst hs
      refine ⟨rfl, rfl, [], ?_, ?_, ?_⟩
      · simp [hq2]
      · simp [hq1]
      · simp [hq1, hq2, wsp_handle_in_order]
    | cons e2 q2 =>
      simp only [hq, remove_from_event_queue] at hs
      obtain ⟨hm, he, new, hn, hd, hi⟩ := ih e2 _ h2 hs
      refine ⟨hm, he, own_events h.sm e ++ new, ?_, ?_, ?_⟩
      · rw [hn]
        simp
      · rw [hd]
        simp only [List.append_assoc, List.singleton_append, List.cons_append]
        rw [← List.append_assoc h.event_queue, hq]
        simp
      · rw [hi]
        have : e :: h.event_queue ++ (own_events h.sm e ++ new) = e :: (e2 :: q2 ++ new) := by
          rw [List.cons_append, ← List.append_assoc, hq]
        rw [this]
        rfl

theorem wsp_handle_event_loop_more {H : Type} (rows : List (WSPRow H))
    (own_events : WSPSessionMachine H → WSPEvent → List WSPEvent) :
    ∀ (fuel more : Nat) (e : WSPEvent) (h h2 : Handled H),
      wsp_handle_event_loop rows own_events fuel e h = some h2 →
      wsp_handle_event_loop rows own_events (fuel + more) e h = some h2 := by
  intro fuel
  induction fuel with
  | zero => intro more e h h2 hs; simp [wsp_handle_event_loop] at hs
  | succ fuel ih =>
    intro more e h h2 hs
    rw [Nat.add_right_comm, wsp_handle_event_loop]
    rw [wsp_handle_event_loop] at hs
    cases hq : (remove_from_event_queue
        ((own_events h.sm e).foldl append_to_event_queue h.event_queue)).1 with
    | none =>
      simp only [hq] at hs ⊢
      exact hs
    | some e2 =>
      simp only [hq] at hs ⊢
      exact ih more e2 _ h2 hs

theorem wsp_handle_event_loop_total {H : Type} (rows : List (WSPRow H))
    (own_events : WSPSessionMachine H → WSPEvent → List WSPEvent)
    (hown : ∀ sm e, own_events sm e = []) :
    ∀ (fuel : Nat) (e : WSPEvent) (h : Handled H), h.event_queue.length < fuel →
      ∃ h2, wsp_handle_event_loop rows own_events fuel e h = some h2 := by
  intro fuel
  induction fuel with
  | zero => intro e h hl; omega
  | succ fuel ih =>
    intro e h hl
    rw [wsp_handle_event_loop]
    simp only [foldl_append_to_event_queue, hown, List.append_nil]
    cases hq : h.event_queue with
    | nil => exact ⟨_, rfl⟩
    | cons e2 q2 =>
      simp only [remove_from_event_queue]
      apply ih
      simp only [hq, List.length_cons] at hl
      simp only
      omega

theorem wsp_handle_in_order_aborts {H : Type}
    (own_events : WSPSessionMachine H → WSPEvent → List WSPEvent) :
    ∀ (events : List WSPEvent) (sm : WSPSessionMachine H) (wtp : List (WTPMachine × WTPEvent))
      (enqueued : List WSPEvent),
      (∀ x ∈ events, x.type = WSPEventType.TRInvokeIndication) →
      (∀ sm e, own_events sm e = []) →
      wsp_handle_in_order ([] : List (WSPRow H)) own_events events
          ({ sm with client_port := -1 }, wtp, enqueued) =
        ({ sm with client_port := -1 },
          wtp ++ events.map (fun x => (x.machine, WTPEvent.TRAbort x.machine.tid 0x01 0x01)),
          enqueued) := by
  intro events
  induction events with
  | nil => intro sm wtp enq _ _; simp [wsp_handle_in_order]
  | cons e rest ih =>
    intro sm wtp enq hall hown
    have ht : e.type = WSPEventType.TRInvokeIndication := hall e (List.mem_cons_self _ _)
    have hc : ∀ s : WSPSessionMachine H, wsp_handle_current ([] : List (WSPRow H)) s e =
        ({ s with client_port := -1 },
          [(e.machine, WTPEvent.TRAbort e.machine.tid 0x01 0x01)]) := by
      intro s
      simp [wsp_handle_current, wsp_handle_rows, ht]
    rw [wsp_handle_in_order]
    simp only [hc, hown, List.append_nil]
    have := ih sm (wtp ++ [(e.machine, WTPEvent.TRAbort e.machine.tid 0x01 0x01)]) enq
      (fun x hx => hall x (List.mem_cons_of_mem _ hx)) hown
    rw [this]
    simp

theorem wsp_handle_event_unlocked {H : Type} (rows : List (WSPRow H))
    (own_events : WSPSessionMachine H → WSPEvent → List WSPEvent) (fuel : Nat)
    (sm : WSPSessionMachine H) (event_queue : List WSPEvent) (event : WSPEvent) :
    wsp_handle_event rows own_events fuel false sm event_queue event =
      (wsp_handle_event_loop rows own_events fuel event
        { mutex_locked := true, sm := sm, event_queue := event_queue, wtp := [], dumped := [],
          enqueued := [] }).map (fun h => { h with mutex_locked := false }) := by
  unfold wsp_handle_event
  have h1 : (mutex_try_lock false).1 = 0 := rfl
  have h2 : (mutex_try_lock false).2 = true := rfl
  rw [h1, h2, if_neg (by decide)]
  cases wsp_handle_event_loop rows own_events fuel event
      { mutex_locked := true, sm := sm, event_queue := event_queue, wtp := [], dumped := [],
        enqueued := [] } <;> rfl

theorem wsp_handle_in_order_enqueued {H : Type} (rows : List (WSPRow H))
    (own_events : WSPSessionMachine H → WSPEvent → List WSPEvent)
    (hown : ∀ sm e, own_events sm e = []) :
    ∀ (events : List WSPEvent)
      (p : WSPSessionMachine H × List (WTPMachine × WTPEvent) × List WSPEvent),
      (wsp_handle_in_order rows own_events events p).2.2 = p.2.2 := by
  intro events
  induction events with
  | nil => intro p; rfl
  | cons x rest ih =>
    intro p
    rw [wsp_handle_in_order, ih]
    simp [hown]

theorem wsp_handle_event_no_own {H : Type} (rows : List (WSPRow H))
    (own_events : WSPSessionMachine H → WSPEvent → List WSPEvent)
    (hown : ∀ sm e, own_events sm e = [])
    (sm : WSPSessionMachine H) (event_queue : List WSPEvent) (event : WSPEvent) :
    wsp_handle_event rows own_events (event_queue.length + 1) false sm event_queue event =
      some ⟨false,
        (wsp_handle_in_order rows own_events (event :: event_queue) (sm, [], [])).1, [],
        (wsp_handle_in_order rows own_events (event :: event_queue) (sm, [], [])).2.1,
        event :: event_queue, []⟩ := by
  obtain ⟨h1, hl⟩ := wsp_handle_event_loop_total rows own_events hown (event_queue.length + 1)
    event ⟨true, sm, event_queue, [], [], []⟩ (by simp)
  obtain ⟨hm, he, new, hn, hd, hi⟩ :=
    wsp_handle_event_loop_some rows own_events _ event _ h1 hl
  simp only [List.nil_append] at hn hd hi
  have hnew : new = [] := by
    have h3 := congrArg (fun t => t.2.2) hi
    simp only [wsp_handle_in_order_enqueued rows own_events hown] at h3
    rw [hn] at h3
    exact h3
  subst hnew
  simp only [List.append_nil] at hn hd hi
  rw [wsp_handle_event_unlocked, hl]
  obtain ⟨ml, s1, q1, w1, d1, n1⟩ := h1
  simp only at hm he hn hd hi
  subst he hn hd
  have hs : s1 = (wsp_handle_in_order rows own_events (event :: event_queue) (sm, [], [])).1 :=
    congrArg (fun t => t.1) hi
  have hw : w1 = (wsp_handle_in_order rows own_events (event :: event_queue) (sm, [], [])).2.1 :=
    congrArg (fun t => t.2.1) hi
  rw [← hs, ← hw]
  rfl

theorem wsp_handle_event_loop_returns {H : Type} (rows : List (WSPRow H))
    (own_events : WSPSessionMachine H → WSPEvent → List WSPEvent)
    (hq : ∀ sm e, ∀ x ∈ own_events sm e, ∀ sm2, own_events sm2 x = []) :
    ∀ (l s : List WSPEvent), (∀ x ∈ s, ∀ sm2, own_events sm2 x = []) →
      ∀ (e : WSPEvent) (h : Handled H), l ++ s = e :: h.event_queue →
        ∃ fuel, (wsp_handle_event_loop rows own_events fuel e h).isSome = true := by
  intro l
  induction l with
  | nil =>
    intro s
    induction s with
    | nil => intro _ e h heq; simp at heq
    | cons x s ih =>
      intro hs e h heq
      simp only [List.nil_append, List.cons.injEq] at heq
      obtain ⟨hx, hrest⟩ := heq
      subst hx
      have hown : own_events h.sm x = [] := hs x (List.mem_cons_self _ _) h.sm
      cases s with
      | nil =>
        refine ⟨1, ?_⟩
        rw [wsp_handle_event_loop]
        simp only [foldl_append_to_event_queue, hown, List.append_nil, ← hrest,
          remove_from_event_queue, Option.isSome_some]
      | cons y s =>
        obtain ⟨fuel, hl⟩ := ih (fun z hz => hs z (List.mem_cons_of_mem _ hz)) y
          { mutex_locked := h.mutex_locked, sm := (wsp_handle_current rows h.sm x).1,
            event_queue := s, wtp := h.wtp ++ (wsp_handle_current rows h.sm x).2,
            dumped := h.dumped ++ [x], enqueued := h.enqueued } rfl
        refine ⟨fuel + 1, ?_⟩
        rw [wsp_handle_event_loop]
        simp only [foldl_append_to_event_queue, hown, List.append_nil, ← hrest,
          remove_from_event_queue]
        exact hl
  | cons a l ih =>
    intro s hs e h heq
    simp only [List.cons_append, List.cons.injEq] at heq
    obtain ⟨ha, hrest⟩ := heq
    subst ha
    have hnew : ∀ x ∈ s ++ own_events h.sm a, ∀ sm2, own_events sm2 x = [] := by
      intro x hx
      rcases List.mem_append.1 hx with hx | hx
      · exact hs x hx
      · exact hq h.sm a x hx
    cases hc : h.event_queue ++ own_events h.sm a with
    | nil =>
      refine ⟨1, ?_⟩
      rw [wsp_handle_event_loop]
      simp only [foldl_append_to_event_queue, hc, remove_from_event_queue, Option.isSome_some]
    | cons y rest =>
      have hl2 : l ++ (s ++ own_events h.sm a) = y :: rest := by
        rw [← List.append_assoc, hrest, hc]
      obtain ⟨fuel, hl⟩ := ih (s ++ own_events h.sm a) hnew y
        { mutex_locked := h.mutex_locked, sm := (wsp_handle_current rows h.sm a).1,
          event_queue := rest, wtp := h.wtp ++ (wsp_handle_current rows h.sm a).2,
          dumped := h.dumped ++ [a], enqueued := h.enqueued ++ own_events h.sm a } hl2
      refine ⟨fuel + 1, ?_⟩
      rw [wsp_handle_event_loop]
      simp only [foldl_append_to_event_queue, hc, remove_from_event_queue]
      exact hl

theorem wsp_handle_event_returns {H : Type} (rows : List (WSPRow H))
    (own_events : WSPSessionMachine H → WSPEvent → List WSPEvent)
    (hq : ∀ sm e, ∀ x ∈ own_events sm e, ∀ sm2, own_events sm2 x = [])
    (sm : WSPSessionMachine H) (event_queue : List WSPEvent) (event : WSPEvent) :
    ∃ fuel h, wsp_handle_event rows own_events fuel false sm event_queue event = some h := by
  obtain ⟨fuel, hl⟩ := wsp_handle_event_loop_returns rows own_events hq (event :: event_queue) []
    (by intro x hx; cases hx) event ⟨true, sm, event_queue, [], [], []⟩ (by simp)
  obtain ⟨h1, h1e⟩ := Option.isSome_iff_exists.1 hl
  refine ⟨fuel, { h1 with mutex_locked := false }, ?_⟩
  rw [wsp_handle_event_unlocked, h1e]
  rfl

end Wsp
